import Mathlib

/-!
# Account Management System (`src/accounting/index.js`)

A shallow embedding of the classes `DataProgram` and `Operations` of the program
and of the state of `MainProgram`, together with the part of the JavaScript Number
semantics that the program relies on: `parseFloat`, `isNaN`, `Math.round`,
`Number.prototype.toFixed` and the operators `+`, `-`, `*`, `/`, `<`, `>`, `>=`.

## Numbers

JavaScript numbers are IEEE-754 binary64 values.  Every finite binary64 value is
an integer multiple of `2^-1074`, so a finite number is represented by the
integer `n` with value `n * 2^-1074`; `NaN` and the two infinities are separate
constructors.  Arithmetic is exact integer/rational arithmetic followed by
round-to-nearest, ties-to-even, to 53 significant bits (`roundUnits`).
The two zeros are identified: the program never divides by a balance or an
amount and `toFixed` prints both as `0.00`, so no operation it performs
distinguishes them.
-/

set_option exponentiation.threshold 5000

namespace Accounting

/-! ## IEEE-754 binary64 -/

/-- Number of units of `2^-1074` in `1`. -/
def scale : Nat := 2 ^ 1074

/-- Units of `2^-1074` in `2^1024`, the first magnitude that is not finite. -/
def overflowBound : Nat := 2 ^ 2098

/-- Computes `floor (log2 n)` for `1 ≤ n < 2^(2^k)`, by bisection on the exponent. -/
def log2Bisect : Nat → Nat → Nat
  | 0, _ => 0
  | k + 1, n =>
    if 2 ^ 2 ^ k ≤ n then 2 ^ k + log2Bisect k (n / 2 ^ 2 ^ k) else log2Bisect k n

/-- The integer nearest to `p / q`, ties to the even integer. -/
def roundHalfEven (p q : Nat) : Nat :=
  if 2 * (p % q) < q then p / q
  else if q < 2 * (p % q) then p / q + 1
  else if (p / q) % 2 = 0 then p / q
  else p / q + 1

/-- Exponent of the spacing of binary64 values around `f` units: the values in
`[2^(52+e), 2^(53+e))` are the multiples of `2^e`; below `2^53` units the
spacing is one unit (subnormals and the first normal binade). -/
def quantumExp (f : Nat) : Nat := log2Bisect 12 f - 52

/-- Round the non-negative rational `p / q`, counted in units of `2^-1074`, to
the nearest binary64 value (ties to even).  `none` is overflow to infinity. -/
def roundUnits (p q : Nat) : Option Nat :=
  if overflowBound ≤ p / q then none
  else
    let r := roundHalfEven p (q * 2 ^ quantumExp (p / q)) * 2 ^ quantumExp (p / q)
    if overflowBound ≤ r then none else some r

/-- JavaScript Number values. `fin n` is the finite value `n * 2^-1074`. -/
inductive JSNum where
  | nan : JSNum
  | inf (negative : Bool) : JSNum
  | fin (n : Int) : JSNum
  deriving DecidableEq, Repr

namespace JSNum

/-- Attach a sign to a rounded magnitude. -/
def ofRounded (negative : Bool) : Option Nat → JSNum
  | none => inf negative
  | some n => fin (if negative then -(n : Int) else (n : Int))

/-- The Number nearest to the rational `p / q` (with the given sign). -/
def ofQuot (negative : Bool) (p q : Nat) : JSNum :=
  ofRounded negative (roundUnits (p * scale) q)

/-- The Number with integer value `k`. -/
def ofNat (k : Nat) : JSNum := ofQuot false k 1

/-- Unary minus. -/
def neg : JSNum → JSNum
  | nan => nan
  | inf s => inf (!s)
  | fin n => fin (-n)

/-- The `+` operator on Numbers. -/
def add : JSNum → JSNum → JSNum
  | nan, _ => nan
  | _, nan => nan
  | inf s, inf t => if s = t then inf s else nan
  | inf s, fin _ => inf s
  | fin _, inf t => inf t
  | fin a, fin b => ofRounded (decide (a + b < 0)) (roundUnits (a + b).natAbs 1)

/-- The `-` operator on Numbers. -/
def sub (x y : JSNum) : JSNum := add x (neg y)

/-- The `*` operator on Numbers. -/
def mul : JSNum → JSNum → JSNum
  | nan, _ => nan
  | _, nan => nan
  | inf s, inf t => inf (s != t)
  | inf s, fin b => if b = 0 then nan else inf (s != decide (b < 0))
  | fin a, inf t => if a = 0 then nan else inf (decide (a < 0) != t)
  | fin a, fin b =>
    ofRounded (decide (a < 0) != decide (b < 0)) (roundUnits (a.natAbs * b.natAbs) scale)

/-- The `/` operator on Numbers (a zero divisor is taken as `+0`). -/
def div : JSNum → JSNum → JSNum
  | nan, _ => nan
  | _, nan => nan
  | inf _, inf _ => nan
  | inf s, fin b => inf (s != decide (b < 0))
  | fin _, inf _ => fin 0
  | fin a, fin b =>
    if b = 0 then (if a = 0 then nan else inf (decide (a < 0)))
    else ofRounded (decide (a < 0) != decide (b < 0)) (roundUnits (a.natAbs * scale) b.natAbs)

/-- The `<` operator on Numbers; comparisons with `NaN` are false. -/
def lt : JSNum → JSNum → Bool
  | nan, _ => false
  | _, nan => false
  | inf s, inf t => s && !t
  | inf s, fin _ => s
  | fin _, inf t => !t
  | fin a, fin b => decide (a < b)

/-- The `>` operator. -/
def gt (x y : JSNum) : Bool := lt y x

/-- The `>=` operator: `x >= y` is false when `NaN` is involved, else `!(x < y)`. -/
def ge : JSNum → JSNum → Bool
  | nan, _ => false
  | _, nan => false
  | x, y => !lt x y

/-- The global `isNaN` on a Number. -/
def isNaN : JSNum → Bool
  | nan => true
  | _ => false

/-- The function `Math.round`: the nearest integer, ties towards `+∞`, i.e. `floor (x + 1/2)`.
The result is an integer of at most 53 bits (or `x` itself when `x` is already
integral), so no rounding is involved. -/
def mathRound : JSNum → JSNum
  | fin n => fin ((2 * n + (scale : Int)) / (2 * (scale : Int)) * (scale : Int))
  | x => x

/-- The Number literal `0`. -/
def zero : JSNum := fin 0

/-- The Number literal `100`. -/
def hundred : JSNum := ofNat 100

/-- The expression `Math.round(amount * 100) / 100` of `promptForAmount`. -/
def round2 (amount : JSNum) : JSNum := ((amount.mul hundred).mathRound).div hundred

end JSNum

/-! ## `parseFloat` -/

/-- The class `StrWhiteSpaceChar`: the `WhiteSpace` and `LineTerminator` code points that
`parseFloat` and `parseInt` skip at the start of their argument. -/
def isStrWhiteSpaceChar (c : Char) : Bool :=
  c.toNat ∈ [0x9, 0xA, 0xB, 0xC, 0xD, 0x20, 0xA0, 0x1680, 0x2028, 0x2029,
    0x202F, 0x205F, 0x3000, 0xFEFF] || (0x2000 ≤ c.toNat && c.toNat ≤ 0x200A)

/-- Is `c` one of `0`..`9`. -/
def isDecimalDigit (c : Char) : Bool := 48 ≤ c.toNat && c.toNat ≤ 57

/-- Reads the longest run of decimal digits at the head of the input, continuing
the value `acc`: the new value, the number of digits read and the rest. -/
def readDigits : List Char → Nat → Nat → Nat × Nat × List Char
  | [], acc, cnt => (acc, cnt, [])
  | c :: cs, acc, cnt =>
    if isDecimalDigit c then readDigits cs (10 * acc + (c.toNat - 48)) (cnt + 1)
    else (acc, cnt, c :: cs)

/-- Does the list start with the given characters. -/
def startsWith : List Char → List Char → Bool
  | _, [] => true
  | [], _ :: _ => false
  | c :: cs, p :: ps => c == p && startsWith cs ps

/-- Splits an optional leading sign off: `true` for `-`. -/
def readSign : List Char → Bool × List Char
  | '-' :: cs => (true, cs)
  | '+' :: cs => (false, cs)
  | cs => (false, cs)

/-- Value of an `ExponentPart` (`e` or `E`, optional sign, at least one digit)
at the head of the input; `0` when there is none. -/
def readExponent : List Char → Int
  | c :: cs =>
    if c = 'e' ∨ c = 'E' then
      match readDigits (readSign cs).2 0 0 with
      | (v, cnt, _) =>
        if cnt = 0 then 0 else if (readSign cs).1 then -(v : Int) else (v : Int)
    else 0
  | [] => 0

/-- The Number value of the decimal `m * 10^e` with the given sign. -/
def decimalValue (negative : Bool) (m : Nat) (e : Int) : JSNum :=
  if 0 ≤ e then JSNum.ofQuot negative (m * 10 ^ e.toNat) 1
  else JSNum.ofQuot negative m (10 ^ (-e).toNat)

/-- Value of the longest prefix that is a `StrUnsignedDecimalLiteral`. -/
def parseUnsigned (negative : Bool) (body : List Char) : JSNum :=
  if startsWith body "Infinity".toList then JSNum.inf negative
  else
    match readDigits body 0 0 with
    | (ip, ipLen, r1) =>
      match r1 with
      | '.' :: r =>
        (match readDigits r ip 0 with
        | (m, fpLen, r2) =>
          if ipLen + fpLen = 0 then JSNum.nan
          else decimalValue negative m (readExponent r2 - (fpLen : Int)))
      | _ =>
        if ipLen = 0 then JSNum.nan
        else decimalValue negative ip (readExponent r1)

/-- The global `parseFloat`: skips leading white space, then takes the value of
the longest prefix that is a `StrDecimalLiteral`; `NaN` when there is none.  The
decimal is converted with correct rounding for any number of digits. -/
def parseFloat (input : String) : JSNum :=
  match readSign (input.toList.dropWhile isStrWhiteSpaceChar) with
  | (negative, body) => parseUnsigned negative body

/-! ## `Number.prototype.toFixed` -/

/-- Candidate digit string of length `k` for the integer `v` of `d` digits whose
binary64 value is `n` units: the pair `(s, e)` stands for `s * 10^(e - k)`. -/
def shortestCandidate (n v d k : Nat) : Option (Nat × Nat) :=
  let u := 10 ^ (d - k)
  let lo := v / u
  let okLo := decide (roundUnits (lo * u * scale) 1 = some n)
  let okHi := decide (roundUnits ((lo + 1) * u * scale) 1 = some n)
  let up := if lo + 1 = 10 ^ k then (10 ^ (k - 1), d + 1) else (lo + 1, d)
  if okLo && okHi then
    (if 2 * (v % u) < u then some (lo, d)
     else if u < 2 * (v % u) then some up
     else if lo % 2 = 0 then some (lo, d) else some up)
  else if okLo then some (lo, d)
  else if okHi then some up
  else none

/-- The shortest digit string that reads back as the same Number, tried for
`k`, `k + 1`, ... digits. -/
def shortestDigits (n v d : Nat) : Nat → Nat → Nat × Nat
  | 0, k => (v / 10 ^ (d - k), d)
  | fuel + 1, k =>
    match shortestCandidate n v d k with
    | some r => r
    | none => shortestDigits n v d fuel (k + 1)

/-- The operation `Number::toString` for a finite magnitude of at least `10^21`, given in
units: scientific notation with the shortest digit string. -/
def largeToString (n : Nat) : String :=
  match shortestDigits n (n / scale) (Nat.toDigits 10 (n / scale)).length 17 1 with
  | (s, e) =>
    match Nat.toDigits 10 s with
    | [] => ""
    | [c] => String.mk ([c] ++ ['e', '+'] ++ Nat.toDigits 10 (e - 1))
    | c :: cs => String.mk ([c, '.'] ++ cs ++ ['e', '+'] ++ Nat.toDigits 10 (e - 1))

/-- The method `x.toFixed(fractionDigits)` for `0 ≤ fractionDigits ≤ 100`. -/
def toFixed (x : JSNum) (fractionDigits : Nat) : String :=
  match x with
  | JSNum.nan => "NaN"
  | JSNum.inf negative => if negative then "-Infinity" else "Infinity"
  | JSNum.fin n =>
    let sign := if n < 0 then "-" else ""
    if 10 ^ 21 * scale ≤ n.natAbs then sign ++ largeToString n.natAbs
    else
      let k := (2 * n.natAbs * 10 ^ fractionDigits + scale) / (2 * scale)
      let ds := Nat.toDigits 10 k
      let padded := List.replicate (fractionDigits + 1 - ds.length) '0' ++ ds
      if fractionDigits = 0 then sign ++ String.mk ds
      else
        sign ++ String.mk (padded.take (padded.length - fractionDigits) ++ ['.']
          ++ padded.drop (padded.length - fractionDigits))

/-! ## The program

The three classes share one mutable object graph; it is flattened into one
record.  Console output, prompts and accesses to the store are recorded in a
trace, oldest first. -/

/-- Observable effects of the program. -/
inductive Event where
  /-- A line printed with `console.log`. -/
  | log (line : String) : Event
  /-- A prompt issued with `rl.question`. -/
  | question (prompt : String) : Event
  /-- A call `dataProgram.execute('READ')`. -/
  | read : Event
  /-- A call `dataProgram.execute('WRITE', balance)`. -/
  | write (balance : JSNum) : Event
  deriving DecidableEq, Repr

/-- The state of a running program. -/
structure World where
  /-- Field `DataProgram.storageBalance`. -/
  storageBalance : JSNum
  /-- Field `MainProgram.continueFlag`. -/
  continueFlag : String
  /-- Effects so far, oldest first. -/
  trace : List Event
  deriving DecidableEq, Repr

/-- State after the constructors of `MainProgram` and `DataProgram` have run:
the balance is the literal `1000.00` and the flag is `'YES'`. -/
def World.fresh : World :=
  { storageBalance := JSNum.ofNat 1000, continueFlag := "YES", trace := [] }

/-- Effect of `console.log(line)`. -/
def consoleLog (line : String) (w : World) : World :=
  { w with trace := w.trace ++ [Event.log line] }

/-- The lines printed in a trace, in order. -/
def printed : List Event → List String
  | [] => []
  | Event.log line :: t => line :: printed t
  | _ :: t => printed t

/-- The values written to the store in a trace, in order. -/
def written : List Event → List JSNum
  | [] => []
  | Event.write v :: t => v :: written t
  | _ :: t => written t

/-- The prompts issued in a trace, in order. -/
def prompted : List Event → List String
  | [] => []
  | Event.question q :: t => q :: prompted t
  | _ :: t => prompted t

namespace DataProgram

/-- Method `execute(operationType, balance)`: `READ` returns the stored balance,
`WRITE` replaces it and returns the new value, anything else returns
`undefined` (`none`).  The argument `balance` is not looked at by `READ`. -/
def execute (operationType : String) (balance : JSNum) (w : World) : Option JSNum × World :=
  if operationType = "READ" then
    (some w.storageBalance, { w with trace := w.trace ++ [Event.read] })
  else if operationType = "WRITE" then
    (some balance, { w with storageBalance := balance, trace := w.trace ++ [Event.write balance] })
  else (none, w)

/-- Method `getBalance()`. -/
def getBalance (w : World) : JSNum := w.storageBalance

end DataProgram

namespace Operations

/-- The literal `999999.99` of `creditAccount`. -/
def maxBalance : JSNum := JSNum.ofQuot false 99999999 100

/-- Method `formatBalance(balance)`: `balance.toFixed(2)`. -/
def formatBalance (balance : JSNum) : String := toFixed balance 2

/-- Method `promptForAmount(prompt)`, where `input` is the line the user answers
the prompt with: `none` is the `null` of an invalid amount. -/
def promptForAmount (prompt : String) (input : String) (w : World) : Option JSNum × World :=
  let w1 := { w with trace := w.trace ++ [Event.question prompt] }
  let amount := parseFloat input
  if amount.isNaN || amount.lt JSNum.zero then
    (none, consoleLog "Invalid amount. Please enter a positive number." w1)
  else
    (some amount.round2, w1)

/-- Method `viewBalance()`. -/
def viewBalance (w : World) : World :=
  match DataProgram.execute "READ" JSNum.nan w with
  | (some finalBalance, w1) => consoleLog ("Current balance: " ++ formatBalance finalBalance) w1
  | (none, w1) => w1

/-- Method `creditAccount()`; `input` is the answer to the amount prompt. -/
def creditAccount (input : String) (w : World) : World :=
  match promptForAmount "Enter credit amount: " input w with
  | (none, w1) => w1
  | (some amount, w1) =>
    match DataProgram.execute "READ" JSNum.nan w1 with
    | (none, w2) => w2
    | (some currentBalance, w2) =>
      if (currentBalance.add amount).gt maxBalance then
        consoleLog "Error: Balance would exceed maximum allowed value of $999,999.99" w2
      else
        consoleLog ("Amount credited. New balance: " ++ formatBalance (currentBalance.add amount))
          (DataProgram.execute "WRITE" (currentBalance.add amount) w2).2

/-- Method `debitAccount()`; `input` is the answer to the amount prompt. -/
def debitAccount (input : String) (w : World) : World :=
  match promptForAmount "Enter debit amount: " input w with
  | (none, w1) => w1
  | (some amount, w1) =>
    match DataProgram.execute "READ" JSNum.nan w1 with
    | (none, w2) => w2
    | (some currentBalance, w2) =>
      if currentBalance.ge amount then
        consoleLog ("Amount debited. New balance: " ++ formatBalance (currentBalance.sub amount))
          (DataProgram.execute "WRITE" (currentBalance.sub amount) w2).2
      else
        consoleLog "Insufficient funds for this debit." w2

end Operations

/-- The literal `999999.99` in units of `2^-1074`: the binary64 value nearest to
it is `4294967253050327 * 2^-32`, just below the decimal. -/
def maxUnits : Nat := 4294967253050327 * 2 ^ 1042

/-- The value of `Math.round` on a non-negative number of `y` units, as an integer:
`floor (y / scale + 1/2)`. -/
def centsOf (y : Nat) : Nat := (2 * y + scale) / (2 * scale)

/-- The value `promptForAmount` resolves with on the answer `input`; it depends
neither on the prompt nor on the state. -/
def acceptedAmount (input : String) : Option JSNum :=
  (Operations.promptForAmount "" input World.fresh).1

/-! ## Sequences of calls -/

/-- A call of one of the three account operations, with the line typed at its
amount prompt. -/
inductive Call where
  | view : Call
  | credit (input : String) : Call
  | debit (input : String) : Call
  deriving DecidableEq, Repr

/-- Runs one call. -/
def Call.apply : Call → World → World
  | Call.view, w => Operations.viewBalance w
  | Call.credit input, w => Operations.creditAccount input w
  | Call.debit input, w => Operations.debitAccount input w

/-- Runs the calls from left to right. -/
def runCalls : List Call → World → World
  | [], w => w
  | c :: cs, w => runCalls cs (c.apply w)

/-! ## Invariants -/

/-- The balance is a finite number between `0` and the literal `999999.99`. -/
def InRange (b : JSNum) : Prop := ∃ n : Nat, b = JSNum.fin (n : Int) ∧ n ≤ maxUnits

/-- The balance is in range and within `t * 2^-33` of a whole number `c` of cents. -/
def NearCents (t : Nat) (b : JSNum) : Prop :=
  ∃ (n : Nat) (c : Int), b = JSNum.fin (n : Int) ∧ n ≤ maxUnits ∧
    100 * (n : Int) ≤ c * (scale : Int) + 100 * (t : Int) * 2 ^ 1041 ∧
    c * (scale : Int) ≤ 100 * (n : Int) + 100 * (t : Int) * 2 ^ 1041

/-! ## `parseInt` and strict equality -/

/-- Value of `c` as a digit in the given radix (`10` or `16`), when it is one. -/
def digitValueIn (radix : Nat) (c : Char) : Option Nat :=
  if isDecimalDigit c then some (c.toNat - 48)
  else if radix = 16 ∧ 97 ≤ c.toNat ∧ c.toNat ≤ 102 then some (c.toNat - 87)
  else if radix = 16 ∧ 65 ≤ c.toNat ∧ c.toNat ≤ 70 then some (c.toNat - 55)
  else none

/-- Reads the longest run of digits of the radix at the head of the input: the
value accumulated from `acc` and the number of digits read. -/
def readRadixDigits (radix : Nat) : List Char → Nat → Nat → Nat × Nat
  | [], acc, cnt => (acc, cnt)
  | c :: cs, acc, cnt =>
    match digitValueIn radix c with
    | some d => readRadixDigits radix cs (radix * acc + d) (cnt + 1)
    | none => (acc, cnt)

/-- Strips the hexadecimal marker `0x` or `0X`: the radix and the digits. -/
def readRadix : List Char → Nat × List Char
  | '0' :: 'x' :: cs => (16, cs)
  | '0' :: 'X' :: cs => (16, cs)
  | cs => (10, cs)

/-- The global `parseInt` with no radix argument: skips leading white space, takes
an optional sign and an optional `0x`, then the longest run of digits; `NaN` when
there is no digit. -/
def parseInt (input : String) : JSNum :=
  match readSign (input.toList.dropWhile isStrWhiteSpaceChar) with
  | (negative, body) =>
    match readRadixDigits (readRadix body).1 (readRadix body).2 0 0 with
    | (v, cnt) => if cnt = 0 then JSNum.nan else JSNum.ofQuot negative v 1

/-- The `===` operator on Numbers, which `switch` compares with: `NaN` equals nothing. -/
def JSNum.strictEq : JSNum → JSNum → Bool
  | JSNum.nan, _ => false
  | _, JSNum.nan => false
  | JSNum.inf s, JSNum.inf t => s == t
  | JSNum.fin a, JSNum.fin b => decide (a = b)
  | _, _ => false

/-! ## The menu loop

The program reads with `rl.question`, which hands its callback a line only if the
question is pending when the line arrives.  The operations below take the list
`inputs` of the lines that answer the questions, in order; a call that asks a
question when no answer is left keeps waiting at its prompt.  Which of the lines
sent to the program answer a question is settled by `answeringLines`. -/

/-- How a call that may read lines ends. -/
inductive Outcome where
  /-- The call has returned; `inputs` are the answering lines not read yet. -/
  | returned (inputs : List String) (w : World) : Outcome
  /-- The call is waiting at a prompt for a line that does not come. -/
  | waiting (w : World) : Outcome
  deriving DecidableEq, Repr

/-- The state an outcome ends in. -/
def Outcome.world : Outcome → World
  | Outcome.returned _ w => w
  | Outcome.waiting w => w

/-- Method `Operations.process(operationType)`: the tags are compared exactly. -/
def Operations.process (operationType : String) (inputs : List String) (w : World) : Outcome :=
  if operationType = "TOTAL " then Outcome.returned inputs (Operations.viewBalance w)
  else if operationType = "CREDIT" then
    match inputs with
    | [] => Outcome.waiting { w with trace := w.trace ++ [Event.question "Enter credit amount: "] }
    | input :: rest => Outcome.returned rest (Operations.creditAccount input w)
  else if operationType = "DEBIT " then
    match inputs with
    | [] => Outcome.waiting { w with trace := w.trace ++ [Event.question "Enter debit amount: "] }
    | input :: rest => Outcome.returned rest (Operations.debitAccount input w)
  else Outcome.returned inputs w

/-- The lines that answer the questions of the program, given the lines sent to it
grouped by delivery (the lines readline receives in one turn of the event loop, one
line when a user types).  On a line readline calls the callback of the pending
question, or, when none is pending, emits a `line` event, to which the program does
not listen.  The callbacks of the program only resolve a promise, and the code after
the `await`, which asks the next question, runs when the delivery at hand has been
handled.  So the first line of a delivery answers the pending question and the other
lines of that delivery are lost. -/
def answeringLines : List (List String) → List String
  | [] => []
  | [] :: later => answeringLines later
  | (line :: _) :: later => line :: answeringLines later

namespace MainProgram

/-- Method `displayMenu()`. -/
def displayMenu (w : World) : World :=
  consoleLog "--------------------------------"
    (consoleLog "4. Exit"
      (consoleLog "3. Debit Account"
        (consoleLog "2. Credit Account"
          (consoleLog "1. View Balance"
            (consoleLog "Account Management System"
              (consoleLog "--------------------------------" w))))))

/-- Method `processChoice(choice)`: the `switch` on `parseInt(choice)`. -/
def processChoice (choice : String) (inputs : List String) (w : World) : Outcome :=
  if (parseInt choice).strictEq (JSNum.ofNat 1) then Operations.process "TOTAL " inputs w
  else if (parseInt choice).strictEq (JSNum.ofNat 2) then Operations.process "CREDIT" inputs w
  else if (parseInt choice).strictEq (JSNum.ofNat 3) then Operations.process "DEBIT " inputs w
  else if (parseInt choice).strictEq (JSNum.ofNat 4) then
    Outcome.returned inputs { w with continueFlag := "NO" }
  else Outcome.returned inputs (consoleLog "Invalid choice, please select 1-4." w)

/-- The prompt for the menu choice in `run`. -/
def askChoice (w : World) : World :=
  { w with trace := w.trace ++ [Event.question "Enter your choice (1-4): "] }

/-- The `while` loop of `run` and the exit message after it, answered by the lines
`inputs`, with a bound on the number of iterations left; `none` when the bound is used
up.  After the loop `rl.close()` ends the reading: the lines left are returned
unread. -/
def runLoop : Nat → List String → World → Option Outcome
  | 0, _, _ => none
  | fuel + 1, inputs, w =>
    if w.continueFlag = "YES" then
      match inputs with
      | [] => some (Outcome.waiting (askChoice (displayMenu w)))
      | choice :: rest =>
        match processChoice choice rest (askChoice (displayMenu w)) with
        | Outcome.waiting w1 => some (Outcome.waiting w1)
        | Outcome.returned rest1 w1 => runLoop fuel rest1 w1
    else some (Outcome.returned inputs (consoleLog "Exiting the program. Goodbye!" w))

/-- Method `run()` on the lines sent to the program, grouped by delivery: the loop
is answered by `answeringLines deliveries`.  Every iteration reads at least the
choice line, so one iteration more than there are answering lines is enough. -/
def run (deliveries : List (List String)) (w : World) : Option Outcome :=
  runLoop ((answeringLines deliveries).length + 1) (answeringLines deliveries) w

end MainProgram

/-! ## Scripts of a session -/

/-- One turn of the menu loop that does not exit: the choice line typed and, for a
credit or a debit, the amount line typed after it. -/
inductive Turn where
  | view (choice : String) : Turn
  | credit (choice amount : String) : Turn
  | debit (choice amount : String) : Turn
  | invalid (choice : String) : Turn
  deriving DecidableEq, Repr

/-- The lines typed in a turn. -/
def Turn.lines : Turn → List String
  | Turn.view c => [c]
  | Turn.credit c a => [c, a]
  | Turn.debit c a => [c, a]
  | Turn.invalid c => [c]

/-- The choice line of the turn selects what the turn is. -/
def Turn.Selects : Turn → Prop
  | Turn.view c => (parseInt c).strictEq (JSNum.ofNat 1) = true
  | Turn.credit c _ => (parseInt c).strictEq (JSNum.ofNat 2) = true
  | Turn.debit c _ => (parseInt c).strictEq (JSNum.ofNat 3) = true
  | Turn.invalid c =>
    (parseInt c).strictEq (JSNum.ofNat 1) = false ∧ (parseInt c).strictEq (JSNum.ofNat 2) = false ∧
      (parseInt c).strictEq (JSNum.ofNat 3) = false ∧ (parseInt c).strictEq (JSNum.ofNat 4) = false

/-- The operation of a turn, applied to the state it finds. -/
def Turn.operate : Turn → World → World
  | Turn.view _, w => Operations.viewBalance w
  | Turn.credit _ a, w => Operations.creditAccount a w
  | Turn.debit _ a, w => Operations.debitAccount a w
  | Turn.invalid _, w => consoleLog "Invalid choice, please select 1-4." w

/-- What a turn does: the menu, the choice prompt, then the operation. -/
def Turn.play (t : Turn) (w : World) : World :=
  t.operate (MainProgram.askChoice (MainProgram.displayMenu w))

/-- Plays the turns from left to right. -/
def playTurns : List Turn → World → World
  | [], w => w
  | t :: ts, w => playTurns ts (t.play w)

/-- The lines of a script of turns, in order. -/
def scriptLines : List Turn → List String
  | [] => []
  | t :: ts => t.lines ++ scriptLines ts

/-- The account operations of a script of turns, in order. -/
def scriptCalls : List Turn → List Call
  | [] => []
  | Turn.view _ :: ts => Call.view :: scriptCalls ts
  | Turn.credit _ a :: ts => Call.credit a :: scriptCalls ts
  | Turn.debit _ a :: ts => Call.debit a :: scriptCalls ts
  | Turn.invalid _ :: ts => scriptCalls ts

/-! ## Accepted requests -/

/-- The amount a call applies in the state `w`: `none` for a view and for a
request that is rejected (invalid amount, overflow, insufficient funds). -/
def Call.accepted : Call → World → Option JSNum
  | Call.view, _ => none
  | Call.credit input, w =>
    match acceptedAmount input with
    | none => none
    | some a => if (w.storageBalance.add a).gt Operations.maxBalance then none else some a
  | Call.debit input, w =>
    match acceptedAmount input with
    | none => none
    | some a => if w.storageBalance.ge a then some a else none

/-- The exact change, in units, that a call asks for when it is accepted: the
amount of a credit, minus the amount of a debit. -/
def Call.delta : Call → World → Int
  | Call.view, _ => 0
  | Call.credit input, w =>
    match Call.accepted (Call.credit input) w with
    | some (JSNum.fin m) => m
    | _ => 0
  | Call.debit input, w =>
    match Call.accepted (Call.debit input) w with
    | some (JSNum.fin m) => -m
    | _ => 0

/-- The exact sum, in units, of the accepted credits minus the accepted debits of
a sequence of calls started in `w`. -/
def netUnits : List Call → World → Int
  | [], _ => 0
  | c :: cs, w => c.delta w + netUnits cs (c.apply w)

/-- A magnitude of `n` units is a binary64 value: below `2^1024` and a multiple of
the spacing at its size. -/
def Representable (n : Nat) : Prop := n < overflowBound ∧ 2 ^ quantumExp n ∣ n

/-! ## End of a session -/

/-- The state in which a session of the given turns followed by an exit choice ends:
after the turns, the menu, the choice prompt, the flag set to `'NO'` and the exit
message. -/
def sessionEnd (turns : List Turn) (w : World) : World :=
  consoleLog "Exiting the program. Goodbye!"
    { MainProgram.askChoice (MainProgram.displayMenu (playTurns turns w)) with
      continueFlag := "NO" }

/-! ## Numerals -/

/-- Every character of the list is one of `0`..`9`. -/
def DecimalDigits (ds : List Char) : Prop := ∀ c ∈ ds, isDecimalDigit c = true

/-- The list is an `ExponentPart`: `e` or `E`, an optional sign, at least one digit. -/
def ExponentPart (ex : List Char) : Prop :=
  ∃ (e : Char) (s ed : List Char), ex = e :: (s ++ ed) ∧ (e = 'e' ∨ e = 'E') ∧
    (s = [] ∨ s = ['+'] ∨ s = ['-']) ∧ ed ≠ [] ∧ DecimalDigits ed

/-- The numeral of `k` hundredths with exactly two fractional digits: the decimal
digits of `k / 100`, a point, the tens digit and the units digit of `k`. -/
def decimal2 (k : Nat) : String :=
  String.mk (Nat.toDigits 10 (k / 100) ++ ['.', Nat.digitChar (k / 10 % 10), Nat.digitChar (k % 10)])

/-! ## Rounding lemmas -/

theorem log2Bisect_zero (k : Nat) : log2Bisect k 0 = 0 := by
  induction k with
  | zero => rfl
  | succ k ih =>
    have : ¬ (2 ^ 2 ^ k ≤ 0) := by
      have := Nat.pow_pos (n := 2 ^ k) (show 0 < 2 by norm_num)
      omega
    simp [log2Bisect, this, ih]

theorem log2Bisect_spec (k : Nat) : ∀ n : Nat, 0 < n → n < 2 ^ 2 ^ k →
    2 ^ log2Bisect k n ≤ n ∧ n < 2 ^ (log2Bisect k n + 1) := by
  induction k with
  | zero =>
    intro n h0 h1
    have : n = 1 := by simp at h1; omega
    subst this
    simp [log2Bisect]
  | succ k ih =>
    intro n h0 h1
    have hP : 0 < 2 ^ 2 ^ k := Nat.pow_pos (by norm_num)
    have hsq : 2 ^ 2 ^ (k + 1) = 2 ^ 2 ^ k * 2 ^ 2 ^ k := by
      rw [← pow_add]; congr 1; rw [pow_succ]; omega
    by_cases hc : 2 ^ 2 ^ k ≤ n
    · have hq0 : 0 < n / 2 ^ 2 ^ k := Nat.div_pos hc hP
      have hq1 : n / 2 ^ 2 ^ k < 2 ^ 2 ^ k := by
        rw [Nat.div_lt_iff_lt_mul hP]; rw [hsq] at h1; exact h1
      obtain ⟨ha, hb⟩ := ih _ hq0 hq1
      simp only [log2Bisect, hc, if_true]
      constructor
      · rw [pow_add]
        calc 2 ^ 2 ^ k * 2 ^ log2Bisect k (n / 2 ^ 2 ^ k)
            ≤ 2 ^ 2 ^ k * (n / 2 ^ 2 ^ k) := Nat.mul_le_mul_left _ ha
          _ ≤ n := Nat.mul_div_le n _
      · have : n < 2 ^ (log2Bisect k (n / 2 ^ 2 ^ k) + 1) * 2 ^ 2 ^ k :=
          (Nat.div_lt_iff_lt_mul hP).mp hb
        calc n < 2 ^ (log2Bisect k (n / 2 ^ 2 ^ k) + 1) * 2 ^ 2 ^ k := this
          _ = 2 ^ (2 ^ k + log2Bisect k (n / 2 ^ 2 ^ k) + 1) := by
            rw [← pow_add]; congr 1; omega
    · simp only [log2Bisect, hc, if_false]
      exact ih n h0 (by omega)

/-- The spacing exponent brackets its argument. -/
theorem quantumExp_spec (f : Nat) (hf : f < 2 ^ 4096) :
    f < 2 ^ (53 + quantumExp f) ∧ (quantumExp f = 0 ∨ 2 ^ (52 + quantumExp f) ≤ f) := by
  unfold quantumExp
  rcases Nat.eq_zero_or_pos f with h0 | h0
  · subst h0
    rw [log2Bisect_zero]
    simp
  · obtain ⟨ha, hb⟩ := log2Bisect_spec 12 f h0 (by simpa using hf)
    by_cases hl : log2Bisect 12 f ≤ 52
    · have he : log2Bisect 12 f - 52 = 0 := by omega
      rw [he]
      refine ⟨?_, Or.inl rfl⟩
      calc f < 2 ^ (log2Bisect 12 f + 1) := hb
        _ ≤ 2 ^ (53 + 0) := Nat.pow_le_pow_right (by norm_num) (by omega)
    · have he : 52 + (log2Bisect 12 f - 52) = log2Bisect 12 f := by omega
      refine ⟨?_, Or.inr ?_⟩
      · have : 53 + (log2Bisect 12 f - 52) = log2Bisect 12 f + 1 := by omega
        rw [this]; exact hb
      · rw [he]; exact ha

theorem quantumExp_mono (x y : Nat) (hxy : x ≤ y) (hy : y < 2 ^ 4096) :
    quantumExp x ≤ quantumExp y := by
  obtain ⟨hx1, hx2⟩ := quantumExp_spec x (by omega)
  obtain ⟨hy1, hy2⟩ := quantumExp_spec y hy
  rcases hx2 with h | h
  · omega
  · by_contra hlt
    push_neg at hlt
    have : 2 ^ (53 + quantumExp y) ≤ 2 ^ (52 + quantumExp x) :=
      Nat.pow_le_pow_right (by norm_num) (by omega)
    omega

theorem quantumExp_le_of_lt (x k : Nat) (hx : x < 2 ^ (53 + k)) (hk : 53 + k ≤ 4096) :
    quantumExp x ≤ k := by
  have hx4 : x < 2 ^ 4096 := lt_of_lt_of_le hx (Nat.pow_le_pow_right (by norm_num) hk)
  obtain ⟨_, hx2⟩ := quantumExp_spec x hx4
  rcases hx2 with h | h
  · omega
  · by_contra hlt
    push_neg at hlt
    have : 2 ^ (53 + k) ≤ 2 ^ (52 + quantumExp x) :=
      Nat.pow_le_pow_right (by norm_num) (by omega)
    omega


theorem roundHalfEven_cases (p q : Nat) :
    roundHalfEven p q = p / q ∧ 2 * (p % q) ≤ q ∨
    roundHalfEven p q = p / q + 1 ∧ q ≤ 2 * (p % q) := by
  unfold roundHalfEven
  split_ifs <;> omega

/-- The rounded quotient is within half a unit of `p / q`. -/
theorem roundHalfEven_error (p q : Nat) (hq : 0 < q) :
    2 * (roundHalfEven p q * q) ≤ 2 * p + q ∧ 2 * p ≤ 2 * (roundHalfEven p q * q) + q := by
  have hdm : q * (p / q) + p % q = p := Nat.div_add_mod p q
  have hlt : p % q < q := Nat.mod_lt p hq
  rcases roundHalfEven_cases p q with ⟨h, h2⟩ | ⟨h, h2⟩
  · rw [h, Nat.mul_comm (p / q) q]; omega
  · rw [h, Nat.add_mul, Nat.mul_comm (p / q) q]; omega

theorem roundHalfEven_le (p q c : Nat) (hq : 0 < q) (h : p ≤ c * q) :
    roundHalfEven p q ≤ c := by
  rcases Nat.eq_or_lt_of_le h with he | hl
  · subst he
    unfold roundHalfEven
    simp [Nat.mul_mod_left, hq, Nat.mul_div_cancel _ hq]
  · have : p / q < c := (Nat.div_lt_iff_lt_mul hq).mpr hl
    rcases roundHalfEven_cases p q with ⟨h1, _⟩ | ⟨h1, _⟩ <;> omega

theorem roundUnits_some (p q r : Nat) (h : roundUnits p q = some r) :
    p / q < overflowBound ∧ r < overflowBound ∧
      r = roundHalfEven p (q * 2 ^ quantumExp (p / q)) * 2 ^ quantumExp (p / q) := by
  unfold roundUnits at h
  dsimp only at h
  split_ifs at h with h1 h2
  simp only [Option.some.injEq] at h
  exact ⟨by omega, by omega, h.symm⟩

theorem overflowBound_lt : overflowBound < 2 ^ 4096 := by
  unfold overflowBound; exact Nat.pow_lt_pow_right (by norm_num) (by norm_num)

/-- Rounding never moves a value past a binary64 value above it. -/
theorem roundUnits_le_double (x y : Nat) (hxy : x ≤ y) (hy : y < overflowBound)
    (hdiv : 2 ^ quantumExp y ∣ y) : ∃ r, roundUnits x 1 = some r ∧ r ≤ y := by
  have hy4 : y < 2 ^ 4096 := lt_trans hy overflowBound_lt
  have hmono := quantumExp_mono x y hxy hy4
  obtain ⟨c, hc⟩ := (Nat.pow_dvd_pow 2 hmono).trans hdiv
  have hpos : 0 < 2 ^ quantumExp x := Nat.pow_pos (by norm_num)
  have hr : roundHalfEven x (1 * 2 ^ quantumExp x) ≤ c :=
    roundHalfEven_le _ _ _ (by simp) (by rw [Nat.one_mul, Nat.mul_comm]; omega)
  have hle : roundHalfEven x (1 * 2 ^ quantumExp x) * 2 ^ quantumExp x ≤ y := by
    calc roundHalfEven x (1 * 2 ^ quantumExp x) * 2 ^ quantumExp x
        ≤ c * 2 ^ quantumExp x := Nat.mul_le_mul_right _ hr
      _ = y := by rw [hc, Nat.mul_comm]
  refine ⟨roundHalfEven x (1 * 2 ^ quantumExp x) * 2 ^ quantumExp x, ?_, hle⟩
  unfold roundUnits
  simp only [Nat.div_one]
  rw [if_neg (by omega), if_neg (by omega)]

/-- Rounding error: the result is within half a spacing of the exact value. -/
theorem roundUnits_error (p q r : Nat) (hq : 0 < q) (h : roundUnits p q = some r) :
    2 * (r * q) ≤ 2 * p + q * 2 ^ quantumExp (p / q) ∧
      2 * p ≤ 2 * (r * q) + q * 2 ^ quantumExp (p / q) := by
  obtain ⟨_, _, hr⟩ := roundUnits_some p q r h
  have hpos : 0 < q * 2 ^ quantumExp (p / q) := Nat.mul_pos hq (Nat.pow_pos (by norm_num))
  have := roundHalfEven_error p (q * 2 ^ quantumExp (p / q)) hpos
  have e : r * q = roundHalfEven p (q * 2 ^ quantumExp (p / q)) * (q * 2 ^ quantumExp (p / q)) := by
    rw [hr]; ring
  rw [e]; exact this

open JSNum Operations

/-! ## Normal forms of the operations -/

theorem acceptedAmount_eq (input : String) :
    acceptedAmount input =
      if (parseFloat input).isNaN || (parseFloat input).lt JSNum.zero then none
      else some (parseFloat input).round2 := by
  unfold acceptedAmount promptForAmount
  dsimp only
  split_ifs <;> rfl

theorem promptForAmount_eq (p input : String) (w : World) :
    promptForAmount p input w =
      match acceptedAmount input with
      | none => (none, { w with trace := w.trace ++ [Event.question p,
          Event.log "Invalid amount. Please enter a positive number."] })
      | some a => (some a, { w with trace := w.trace ++ [Event.question p] }) := by
  rw [acceptedAmount_eq]
  unfold promptForAmount consoleLog
  dsimp only
  split_ifs <;> simp

theorem execute_read (b : JSNum) (w : World) :
    DataProgram.execute "READ" b w =
      (some w.storageBalance, { w with trace := w.trace ++ [Event.read] }) := by
  unfold DataProgram.execute
  rw [if_pos rfl]

theorem execute_write (b : JSNum) (w : World) :
    DataProgram.execute "WRITE" b w =
      (some b, { w with storageBalance := b, trace := w.trace ++ [Event.write b] }) := by
  unfold DataProgram.execute
  rw [if_neg (by decide), if_pos rfl]

/-- Normal form of `creditAccount`. -/
theorem creditAccount_eq (input : String) (w : World) :
    creditAccount input w =
      match acceptedAmount input with
      | none => { w with trace := w.trace ++ [Event.question "Enter credit amount: ",
          Event.log "Invalid amount. Please enter a positive number."] }
      | some a =>
        if (w.storageBalance.add a).gt maxBalance then
          { w with trace := w.trace ++ [Event.question "Enter credit amount: ", Event.read,
              Event.log "Error: Balance would exceed maximum allowed value of $999,999.99"] }
        else
          { w with
            storageBalance := w.storageBalance.add a
            trace := w.trace ++ [Event.question "Enter credit amount: ", Event.read,
              Event.write (w.storageBalance.add a),
              Event.log ("Amount credited. New balance: "
                ++ formatBalance (w.storageBalance.add a))] } := by
  unfold creditAccount
  rw [promptForAmount_eq]
  cases acceptedAmount input with
  | none => rfl
  | some a =>
    simp only [execute_read, execute_write, consoleLog]
    split_ifs <;> simp

/-- Normal form of `debitAccount`. -/
theorem debitAccount_eq (input : String) (w : World) :
    debitAccount input w =
      match acceptedAmount input with
      | none => { w with trace := w.trace ++ [Event.question "Enter debit amount: ",
          Event.log "Invalid amount. Please enter a positive number."] }
      | some a =>
        if w.storageBalance.ge a then
          { w with
            storageBalance := w.storageBalance.sub a
            trace := w.trace ++ [Event.question "Enter debit amount: ", Event.read,
              Event.write (w.storageBalance.sub a),
              Event.log ("Amount debited. New balance: "
                ++ formatBalance (w.storageBalance.sub a))] }
        else
          { w with trace := w.trace ++ [Event.question "Enter debit amount: ", Event.read,
              Event.log "Insufficient funds for this debit."] } := by
  unfold debitAccount
  rw [promptForAmount_eq]
  cases acceptedAmount input with
  | none => rfl
  | some a =>
    simp only [execute_read, execute_write, consoleLog]
    split_ifs <;> simp

theorem viewBalance_eq (w : World) :
    viewBalance w = { w with trace := w.trace ++ [Event.read,
      Event.log ("Current balance: " ++ formatBalance w.storageBalance)] } := by
  simp [viewBalance, execute_read, consoleLog]

/-! ## Rejections, whole-balance debit and view (C3, C5, C6, C7, C10) -/

theorem printed_append (s t : List Event) : printed (s ++ t) = printed s ++ printed t := by
  induction s with
  | nil => rfl
  | cons e s ih => cases e <;> simp [printed, ih]

theorem written_append (s t : List Event) : written (s ++ t) = written s ++ written t := by
  induction s with
  | nil => rfl
  | cons e s ih => cases e <;> simp [written, ih]

theorem lt_true_ge_false (x y : JSNum) (h : x.lt y = true) : x.ge y = false := by
  cases x <;> cases y <;> simp_all [JSNum.lt, JSNum.ge]

/-- C3. Credit overflow rejection: when the amount `a` is accepted and the Number sum
`balance + a` compares greater than the literal `999999.99`, `creditAccount` only
prompts, reads the store and prints the overflow line: the balance and the continue
flag are unchanged, nothing is written, and exactly one line is printed. -/
theorem creditAccount_overflow_rejected (w : World) (input : String) (a : JSNum)
    (ha : acceptedAmount input = some a)
    (hover : (w.storageBalance.add a).gt maxBalance = true) :
    creditAccount input w =
        { w with trace := w.trace ++ [Event.question "Enter credit amount: ", Event.read,
            Event.log "Error: Balance would exceed maximum allowed value of $999,999.99"] } ∧
      (creditAccount input w).storageBalance = w.storageBalance ∧
      written (creditAccount input w).trace = written w.trace ∧
      printed (creditAccount input w).trace = printed w.trace ++
        ["Error: Balance would exceed maximum allowed value of $999,999.99"] := by
  have h : creditAccount input w =
      { w with trace := w.trace ++ [Event.question "Enter credit amount: ", Event.read,
          Event.log "Error: Balance would exceed maximum allowed value of $999,999.99"] } := by
    rw [creditAccount_eq, ha]
    simp only [hover, if_true]
  rw [h]
  simp [printed_append, written_append, printed, written]

/-- C3, witness of the claim: with balance `1000.00` the input `"999000.00"` is rejected. -/
theorem creditAccount_overflow_rejected_witness :
    acceptedAmount "999000.00" = some (fin (999000 * (scale : Int))) ∧
      (creditAccount "999000.00" World.fresh).storageBalance = JSNum.ofNat 1000 ∧
      written (creditAccount "999000.00" World.fresh).trace = [] ∧
      printed (creditAccount "999000.00" World.fresh).trace =
        ["Error: Balance would exceed maximum allowed value of $999,999.99"] :=
  ⟨by decide,
    (creditAccount_overflow_rejected World.fresh "999000.00" (fin (999000 * (scale : Int)))
      (by decide) (by decide)).2⟩

/-- C5. Debit insufficient-funds rejection: when the amount `a` is accepted and the
stored balance compares less than `a`, `debitAccount` only prompts, reads the store
and prints the insufficient-funds line: the balance is unchanged, nothing is written
and exactly one line is printed. -/
theorem debitAccount_insufficient_rejected (w : World) (input : String) (a : JSNum)
    (ha : acceptedAmount input = some a)
    (hlt : w.storageBalance.lt a = true) :
    debitAccount input w =
        { w with trace := w.trace ++ [Event.question "Enter debit amount: ", Event.read,
            Event.log "Insufficient funds for this debit."] } ∧
      (debitAccount input w).storageBalance = w.storageBalance ∧
      written (debitAccount input w).trace = written w.trace ∧
      printed (debitAccount input w).trace = printed w.trace ++
        ["Insufficient funds for this debit."] := by
  have h : debitAccount input w =
      { w with trace := w.trace ++ [Event.question "Enter debit amount: ", Event.read,
          Event.log "Insufficient funds for this debit."] } := by
    rw [debitAccount_eq, ha]
    simp only [lt_true_ge_false _ _ hlt]
    rfl
  rw [h]
  simp [printed_append, written_append, printed, written]

/-- C5, witnesses of the claim: balance `500.00` with `"600.00"`, and balance `0.00`
with `"0.01"`. -/
theorem debitAccount_insufficient_rejected_witness :
    ((debitAccount "600.00" { World.fresh with storageBalance := JSNum.ofNat 500 }).storageBalance
        = JSNum.ofNat 500 ∧
      written (debitAccount "600.00"
        { World.fresh with storageBalance := JSNum.ofNat 500 }).trace = [] ∧
      printed (debitAccount "600.00"
        { World.fresh with storageBalance := JSNum.ofNat 500 }).trace =
        ["Insufficient funds for this debit."]) ∧
    ((debitAccount "0.01" { World.fresh with storageBalance := JSNum.zero }).storageBalance
        = JSNum.zero ∧
      written (debitAccount "0.01" { World.fresh with storageBalance := JSNum.zero }).trace = [] ∧
      printed (debitAccount "0.01" { World.fresh with storageBalance := JSNum.zero }).trace =
        ["Insufficient funds for this debit."]) :=
  ⟨(debitAccount_insufficient_rejected { World.fresh with storageBalance := JSNum.ofNat 500 }
      "600.00" (fin (600 * (scale : Int))) (by decide) (by decide)).2,
    (debitAccount_insufficient_rejected { World.fresh with storageBalance := JSNum.zero }
      "0.01" (JSNum.ofQuot false 1 100) (by decide) (by decide)).2⟩

theorem rejected_iff_not_ge (x : JSNum) :
    (x.isNaN = true ∨ x.lt JSNum.zero = true) ↔ ¬ x.ge JSNum.zero = true := by
  cases x <;> simp [JSNum.isNaN, JSNum.lt, JSNum.ge, JSNum.zero]

/-- C6. Invalid-amount rejection.  An input whose `parseFloat` value is `NaN` or
compares less than `0` makes both `creditAccount` and `debitAccount` prompt and print
exactly the line "Invalid amount. Please enter a positive number.", with no read or
write of the store and the balance unchanged.  Conversely an input whose value
compares `>= 0` is accepted: `promptForAmount` prints nothing and resolves with the
rounded value, not `null`. -/
theorem invalid_amount_rejected (w : World) (input : String) :
    ((parseFloat input).isNaN = true ∨ (parseFloat input).lt JSNum.zero = true →
      creditAccount input w =
          { w with trace := w.trace ++ [Event.question "Enter credit amount: ",
            Event.log "Invalid amount. Please enter a positive number."] } ∧
        debitAccount input w =
          { w with trace := w.trace ++ [Event.question "Enter debit amount: ",
            Event.log "Invalid amount. Please enter a positive number."] } ∧
        (creditAccount input w).storageBalance = w.storageBalance ∧
        (debitAccount input w).storageBalance = w.storageBalance ∧
        written (creditAccount input w).trace = written w.trace ∧
        written (debitAccount input w).trace = written w.trace ∧
        printed (creditAccount input w).trace =
          printed w.trace ++ ["Invalid amount. Please enter a positive number."] ∧
        printed (debitAccount input w).trace =
          printed w.trace ++ ["Invalid amount. Please enter a positive number."]) ∧
    ((parseFloat input).ge JSNum.zero = true →
      ∀ p : String, promptForAmount p input w =
        (some (parseFloat input).round2, { w with trace := w.trace ++ [Event.question p] })) := by
  constructor
  · intro h
    have hnone : acceptedAmount input = none := by
      rw [acceptedAmount_eq]
      rcases h with h | h <;> simp [h]
    have hc : creditAccount input w =
        { w with trace := w.trace ++ [Event.question "Enter credit amount: ",
          Event.log "Invalid amount. Please enter a positive number."] } := by
      rw [creditAccount_eq, hnone]
    have hd : debitAccount input w =
        { w with trace := w.trace ++ [Event.question "Enter debit amount: ",
          Event.log "Invalid amount. Please enter a positive number."] } := by
      rw [debitAccount_eq, hnone]
    rw [hc, hd]
    simp [printed_append, written_append, printed, written]
  · intro h p
    have hsome : acceptedAmount input = some (parseFloat input).round2 := by
      rw [acceptedAmount_eq]
      have := (rejected_iff_not_ge (parseFloat input)).not.mpr (by simpa using h)
      push_neg at this
      simp [this.1, this.2]
    rw [promptForAmount_eq, hsome]

/-- C6, witnesses: `"abc"` does not parse and `"-5"` is negative, both are rejected
in a fresh state; `"12.5"` is accepted with value `12.5`. -/
theorem invalid_amount_rejected_witness :
    (printed (creditAccount "abc" World.fresh).trace =
        ["Invalid amount. Please enter a positive number."] ∧
      (creditAccount "abc" World.fresh).storageBalance = JSNum.ofNat 1000) ∧
    (printed (debitAccount "-5" World.fresh).trace =
        ["Invalid amount. Please enter a positive number."] ∧
      (debitAccount "-5" World.fresh).storageBalance = JSNum.ofNat 1000) ∧
    promptForAmount "Enter credit amount: " "12.5" World.fresh =
      (some (JSNum.ofQuot false 125 10),
        { World.fresh with trace := [Event.question "Enter credit amount: "] }) :=
  ⟨⟨((invalid_amount_rejected World.fresh "abc").1 (Or.inl (by decide))).2.2.2.2.2.2.1,
      ((invalid_amount_rejected World.fresh "abc").1 (Or.inl (by decide))).2.2.1⟩,
    ⟨((invalid_amount_rejected World.fresh "-5").1 (Or.inr (by decide))).2.2.2.2.2.2.2,
      ((invalid_amount_rejected World.fresh "-5").1 (Or.inr (by decide))).2.2.2.1⟩,
    ((invalid_amount_rejected World.fresh "12.5").2 (by decide) "Enter credit amount: ").trans
      (by decide)⟩

/-- C7. Debit of the whole balance: when the stored balance is a finite number and
the accepted amount equals it, the debit is carried out (not rejected), the value
written is exactly `0`, and the line printed is "Amount debited. New balance: 0.00". -/
theorem debitAccount_whole_balance (w : World) (input : String) (n : Int)
    (hb : w.storageBalance = fin n)
    (ha : acceptedAmount input = some (fin n)) :
    debitAccount input w =
      { w with
        storageBalance := JSNum.zero
        trace := w.trace ++ [Event.question "Enter debit amount: ", Event.read,
          Event.write JSNum.zero, Event.log "Amount debited. New balance: 0.00"] } := by
  have hge : (fin n).ge (fin n) = true := by simp [JSNum.ge, JSNum.lt]
  have hsub : (fin n).sub (fin n) = JSNum.zero := by
    have h0 : roundUnits 0 1 = some 0 := by decide
    simp [JSNum.sub, JSNum.neg, JSNum.add, h0, JSNum.ofRounded, JSNum.zero]
  have hfmt : formatBalance JSNum.zero = "0.00" := by decide
  rw [debitAccount_eq, ha]
  simp only [hb, hge, hsub, hfmt, if_true]
  rfl

/-- C7, witness of the claim: balance `1000.00`, input `"1000.00"`. -/
theorem debitAccount_whole_balance_witness :
    debitAccount "1000.00" World.fresh =
      { World.fresh with
        storageBalance := JSNum.zero
        trace := [Event.question "Enter debit amount: ", Event.read,
          Event.write JSNum.zero, Event.log "Amount debited. New balance: 0.00"] } :=
  debitAccount_whole_balance World.fresh "1000.00" (1000 * (scale : Int)) (by decide) (by decide)

theorem viewBalance_iterate (n : Nat) (w : World) :
    (viewBalance^[n] w).storageBalance = w.storageBalance ∧
      (viewBalance^[n] w).continueFlag = w.continueFlag ∧
      written (viewBalance^[n] w).trace = written w.trace ∧
      printed (viewBalance^[n] w).trace = printed w.trace ++
        List.replicate n ("Current balance: " ++ formatBalance w.storageBalance) := by
  induction n generalizing w with
  | zero => simp
  | succ n ih =>
    rw [Function.iterate_succ_apply]
    obtain ⟨h1, h2, h3, h4⟩ := ih (viewBalance w)
    rw [h1, h2, h3, h4, viewBalance_eq]
    simp [printed_append, written_append, printed, written, List.replicate_succ]

/-- C10. View does not mutate: one call of `viewBalance` reads the store and prints
exactly the line "Current balance: " followed by `formatBalance` of the stored
balance; after `n` calls the balance and the continue flag are what they were,
nothing has been written, and the lines printed are `n` copies of that line. -/
theorem viewBalance_no_mutation (n : Nat) (w : World) :
    viewBalance w = { w with trace := w.trace ++ [Event.read,
        Event.log ("Current balance: " ++ formatBalance w.storageBalance)] } ∧
      (viewBalance^[n] w).storageBalance = w.storageBalance ∧
      (viewBalance^[n] w).continueFlag = w.continueFlag ∧
      written (viewBalance^[n] w).trace = written w.trace ∧
      printed (viewBalance^[n] w).trace = printed w.trace ++
        List.replicate n ("Current balance: " ++ formatBalance w.storageBalance) :=
  ⟨viewBalance_eq w, viewBalance_iterate n w⟩

/-- C10, witness of the claim: three views on a fresh store print
"Current balance: 1000.00" three times. -/
theorem viewBalance_no_mutation_witness :
    printed (viewBalance^[3] World.fresh).trace =
      ["Current balance: 1000.00", "Current balance: 1000.00", "Current balance: 1000.00"] ∧
    (viewBalance^[3] World.fresh).storageBalance = JSNum.ofNat 1000 :=
  ⟨(viewBalance_no_mutation 3 World.fresh).2.2.2.2.trans (by decide),
    (viewBalance_no_mutation 3 World.fresh).2.1⟩

/-! ## Arithmetic of amounts -/

theorem maxBalance_eq : maxBalance = fin (maxUnits : Int) := by decide

theorem maxUnits_facts : maxUnits < overflowBound ∧ 2 ^ quantumExp maxUnits ∣ maxUnits ∧
    maxUnits < 2 ^ 1094 ∧ 100 * maxUnits ≤ 99999999 * scale := by decide

theorem scale_pos : 0 < scale := by unfold scale; exact Nat.pow_pos (by norm_num)

theorem hundred_eq_cast : JSNum.hundred = fin ((100 * scale : Nat) : Int) := by decide

theorem round2_inf : (inf false).round2 = inf false := by decide

theorem add_fin_nat (n m : Nat) :
    (fin (n : Int)).add (fin (m : Int)) = ofRounded false (roundUnits (n + m) 1) := by
  have h1 : ¬ ((n : Int) + (m : Int) < 0) := by omega
  have h2 : ((n : Int) + (m : Int)).natAbs = n + m := by omega
  simp only [JSNum.add, h1, h2, decide_False]

theorem sub_fin_nat (n m : Nat) (h : m ≤ n) :
    (fin (n : Int)).sub (fin (m : Int)) = ofRounded false (roundUnits (n - m) 1) := by
  have h1 : ¬ ((n : Int) + -(m : Int) < 0) := by omega
  have h2 : ((n : Int) + -(m : Int)).natAbs = n - m := by omega
  simp only [JSNum.sub, JSNum.neg, JSNum.add, h1, h2, decide_False]

theorem mul_fin_nat (a b : Nat) :
    (fin (a : Int)).mul (fin (b : Int)) = ofRounded false (roundUnits (a * b) scale) := by
  have ha : ¬ ((a : Int) < 0) := by omega
  have hb : ¬ ((b : Int) < 0) := by omega
  simp only [JSNum.mul, ha, hb, decide_False, Int.natAbs_ofNat, bne_self_eq_false]

theorem div_fin_nat (a b : Nat) (h : 0 < b) :
    (fin (a : Int)).div (fin (b : Int)) = ofRounded false (roundUnits (a * scale) b) := by
  have ha : ¬ ((a : Int) < 0) := by omega
  have hb : ¬ ((b : Int) < 0) := by omega
  have hne : ¬ ((b : Int) = 0) := by omega
  simp only [JSNum.div, ha, hb, hne, decide_False, Int.natAbs_ofNat, bne_self_eq_false, if_false]

theorem div_inf_fin_nat (b : Nat) : (inf false).div (fin (b : Int)) = inf false := by
  have hb : ¬ ((b : Int) < 0) := by omega
  simp only [JSNum.div, hb, decide_False, bne_self_eq_false]

theorem mathRound_fin_nat (y : Nat) :
    (fin (y : Int)).mathRound = fin ((centsOf y * scale : Nat) : Int) := by
  simp only [JSNum.mathRound, centsOf]
  push_cast
  rfl

theorem ofRounded_false_some (m : Nat) : ofRounded false (some m) = fin (m : Int) := rfl

theorem ofRounded_false_none : ofRounded false none = inf false := rfl

/-- `round2` on a non-negative finite number, in terms of the two roundings. -/
theorem round2_fin_nat (x : Nat) :
    (fin (x : Int)).round2 =
      match roundUnits (x * (100 * scale)) scale with
      | none => inf false
      | some y => ofRounded false (roundUnits (centsOf y * scale * scale) (100 * scale)) := by
  have hpos : 0 < 100 * scale := Nat.mul_pos (by norm_num) scale_pos
  unfold JSNum.round2
  rw [hundred_eq_cast, mul_fin_nat]
  generalize roundUnits (x * (100 * scale)) scale = o
  cases o with
  | none =>
    rw [ofRounded_false_none]
    show (inf false).div (fin ((100 * scale : Nat) : Int)) = inf false
    exact div_inf_fin_nat _
  | some y =>
    rw [ofRounded_false_some, mathRound_fin_nat, div_fin_nat _ _ hpos]

/-- An accepted amount is `+Infinity` or a non-negative finite number that is the
binary64 value nearest to a whole number `k` of cents. -/
theorem acceptedAmount_shape (input : String) (a : JSNum) (h : acceptedAmount input = some a) :
    a = inf false ∨
      ∃ k m : Nat, a = fin (m : Int) ∧ roundUnits (k * scale * scale) (100 * scale) = some m := by
  rw [acceptedAmount_eq] at h
  split_ifs at h with hc
  simp only [Option.some.injEq] at h
  simp only [Bool.or_eq_true, not_or, Bool.not_eq_true] at hc
  cases hp : parseFloat input with
  | nan => rw [hp] at hc; simp [JSNum.isNaN] at hc
  | inf s =>
    rw [hp] at hc h
    have hs : s = false := by simpa [JSNum.lt, JSNum.zero] using hc.2
    subst hs
    left
    rw [← h]
    exact round2_inf
  | fin n =>
    rw [hp] at hc h
    have hn : 0 ≤ n := by simpa [JSNum.lt, JSNum.zero] using hc.2
    obtain ⟨x, rfl⟩ := Int.eq_ofNat_of_zero_le hn
    rw [round2_fin_nat] at h
    cases hy : roundUnits (x * (100 * scale)) scale with
    | none => rw [hy] at h; left; exact h.symm
    | some y =>
      rw [hy] at h
      simp only at h
      cases hr : roundUnits (centsOf y * scale * scale) (100 * scale) with
      | none => rw [hr] at h; left; exact h.symm
      | some m =>
        rw [hr] at h
        right
        exact ⟨centsOf y, m, h.symm, hr⟩

/-! ## Range invariant (C1) -/

theorem gt_inf_maxBalance : (inf false).gt maxBalance = true := by decide

theorem creditAccount_inRange (input : String) (w : World) (h : InRange w.storageBalance) :
    InRange (creditAccount input w).storageBalance := by
  obtain ⟨n, hn, hle⟩ := h
  rw [creditAccount_eq]
  cases ha : acceptedAmount input with
  | none => exact ⟨n, hn, hle⟩
  | some a =>
    simp only
    split_ifs with hgt
    · exact ⟨n, hn, hle⟩
    · show InRange (w.storageBalance.add a)
      rw [hn] at hgt ⊢
      rcases acceptedAmount_shape input a ha with rfl | ⟨k, m, rfl, _⟩
      · exact absurd (by simpa [JSNum.add] using gt_inf_maxBalance) hgt
      · rw [add_fin_nat] at hgt ⊢
        cases hr : roundUnits (n + m) 1 with
        | none =>
          rw [hr, ofRounded_false_none] at hgt
          exact absurd gt_inf_maxBalance hgt
        | some r =>
          rw [hr, ofRounded_false_some] at hgt
          rw [ofRounded_false_some]
          refine ⟨r, rfl, ?_⟩
          rw [maxBalance_eq] at hgt
          simp only [JSNum.gt, JSNum.lt, decide_eq_true_eq, Nat.cast_lt, not_lt] at hgt
          exact hgt

theorem debitAccount_inRange (input : String) (w : World) (h : InRange w.storageBalance) :
    InRange (debitAccount input w).storageBalance := by
  obtain ⟨n, hn, hle⟩ := h
  rw [debitAccount_eq]
  cases ha : acceptedAmount input with
  | none => exact ⟨n, hn, hle⟩
  | some a =>
    simp only
    split_ifs with hge
    · show InRange (w.storageBalance.sub a)
      rw [hn] at hge ⊢
      rcases acceptedAmount_shape input a ha with rfl | ⟨k, m, rfl, _⟩
      · simp [JSNum.ge, JSNum.lt] at hge
      · have hmn : m ≤ n := by
          simpa [JSNum.ge, JSNum.lt] using hge
        rw [sub_fin_nat n m hmn]
        obtain ⟨r, hr, hrle⟩ := roundUnits_le_double (n - m) maxUnits (by omega)
          maxUnits_facts.1 maxUnits_facts.2.1
        rw [hr, ofRounded_false_some]
        exact ⟨r, rfl, hrle⟩
    · exact ⟨n, hn, hle⟩

theorem viewBalance_storageBalance (w : World) :
    (viewBalance w).storageBalance = w.storageBalance := by
  rw [viewBalance_eq]

theorem runCalls_inRange (calls : List Call) :
    ∀ w : World, InRange w.storageBalance → InRange (runCalls calls w).storageBalance := by
  induction calls with
  | nil => intro w h; exact h
  | cons c cs ih =>
    intro w h
    apply ih
    cases c with
    | view => show InRange (viewBalance w).storageBalance; rw [viewBalance_storageBalance]; exact h
    | credit input => exact creditAccount_inRange input w h
    | debit input => exact debitAccount_inRange input w h

theorem fresh_inRange : InRange World.fresh.storageBalance :=
  ⟨1000 * scale, by decide, by decide⟩

/-- C1. Balance range invariant: after any finite sequence of `viewBalance`,
`creditAccount` and `debitAccount` calls on a freshly constructed program, whatever the
lines typed at the prompts, the stored balance is a finite number `n * 2^-1074` with
`0 ≤ n`, it does not compare greater than the literal `999999.99`, it compares `>= 0`,
and as an exact real it is at most `999999.99` (`100 * n ≤ 99999999 * 2^1074`). -/
theorem balance_range_invariant (calls : List Call) :
    ∃ n : Nat, (runCalls calls World.fresh).storageBalance = fin (n : Int) ∧
      (fin (n : Int)).ge JSNum.zero = true ∧
      (fin (n : Int)).gt maxBalance = false ∧
      100 * n ≤ 99999999 * scale := by
  obtain ⟨n, hn, hle⟩ := runCalls_inRange calls World.fresh fresh_inRange
  refine ⟨n, hn, ?_, ?_, ?_⟩
  · simp [JSNum.ge, JSNum.zero, JSNum.lt]
  · rw [maxBalance_eq]
    simp only [JSNum.gt, JSNum.lt, decide_eq_false_iff_not, Nat.cast_lt, not_lt]
    exact hle
  · have := maxUnits_facts.2.2.2
    omega

/-! ## Successful credit and debit (C2, C4) -/

theorem roundHalfEven_ge_div (p q : Nat) : p / q ≤ roundHalfEven p q := by
  rcases roundHalfEven_cases p q with ⟨h, _⟩ | ⟨h, _⟩ <;> omega

/-- In a binade above the first, the rounded value stays in the closure of the binade. -/
theorem roundUnits_ge_pow (p q r : Nat) (h : roundUnits p q = some r) :
    quantumExp (p / q) = 0 ∨ 2 ^ (52 + quantumExp (p / q)) ≤ r := by
  obtain ⟨hlt, _, hr⟩ := roundUnits_some p q r h
  obtain ⟨_, hspec⟩ := quantumExp_spec (p / q) (lt_trans hlt overflowBound_lt)
  rcases hspec with h0 | hge
  · exact Or.inl h0
  · right
    have hpos : 0 < 2 ^ quantumExp (p / q) := Nat.pow_pos (by norm_num)
    have h1 : 2 ^ 52 ≤ p / q / 2 ^ quantumExp (p / q) := by
      rw [Nat.le_div_iff_mul_le hpos, ← pow_add]
      exact hge
    have h2 : 2 ^ 52 ≤ roundHalfEven p (q * 2 ^ quantumExp (p / q)) := by
      calc 2 ^ 52 ≤ p / q / 2 ^ quantumExp (p / q) := h1
        _ = p / (q * 2 ^ quantumExp (p / q)) := Nat.div_div_eq_div_mul _ _ _
        _ ≤ _ := roundHalfEven_ge_div _ _
    rw [hr, pow_add]
    exact Nat.mul_le_mul_right _ h2

/-- A bound on the rounded value bounds the spacing used for rounding. -/
theorem roundUnits_quantum_le (p q r k : Nat) (h : roundUnits p q = some r)
    (hr : r < 2 ^ (53 + k)) : quantumExp (p / q) ≤ k := by
  rcases roundUnits_ge_pow p q r h with h0 | hge
  · omega
  · by_contra hlt
    push_neg at hlt
    have : 2 ^ (53 + k) ≤ 2 ^ (52 + quantumExp (p / q)) :=
      Nat.pow_le_pow_right (by norm_num) (by omega)
    omega

/-- A credit that passes the limit check stores the Number sum, which is within
`2^1040` units of the exact sum. -/
theorem creditAccount_sum (w : World) (input : String) (n m : Nat)
    (hb : w.storageBalance = fin (n : Int))
    (ha : acceptedAmount input = some (fin (m : Int)))
    (hok : ((fin (n : Int)).add (fin (m : Int))).gt maxBalance = false) :
    ∃ r : Nat, (fin (n : Int)).add (fin (m : Int)) = fin (r : Int) ∧
      creditAccount input w =
        { w with
          storageBalance := fin (r : Int)
          trace := w.trace ++ [Event.question "Enter credit amount: ", Event.read,
            Event.write (fin (r : Int)),
            Event.log ("Amount credited. New balance: " ++ formatBalance (fin (r : Int)))] } ∧
      r ≤ maxUnits ∧
      2 * r ≤ 2 * (n + m) + 2 ^ 1041 ∧ 2 * (n + m) ≤ 2 * r + 2 ^ 1041 := by
  have hadd := add_fin_nat n m
  cases hr : roundUnits (n + m) 1 with
  | none =>
    rw [hr, ofRounded_false_none] at hadd
    rw [hadd, gt_inf_maxBalance] at hok
    exact absurd hok (by decide)
  | some r =>
    rw [hr, ofRounded_false_some] at hadd
    have hle : r ≤ maxUnits := by
      rw [hadd, maxBalance_eq] at hok
      simpa [JSNum.gt, JSNum.lt] using hok
    have hq : quantumExp ((n + m) / 1) ≤ 1041 :=
      roundUnits_quantum_le (n + m) 1 r 1041 hr
        (lt_of_le_of_lt hle maxUnits_facts.2.2.1)
    have herr := roundUnits_error (n + m) 1 r (by norm_num) hr
    have hpow : 2 ^ quantumExp ((n + m) / 1) ≤ 2 ^ 1041 :=
      Nat.pow_le_pow_right (by norm_num) hq
    refine ⟨r, hadd, ?_, hle, by omega, by omega⟩
    have hok2 : (fin (r : Int)).gt maxBalance = false := by rw [← hadd]; exact hok
    rw [creditAccount_eq, ha]
    simp only [hb, hadd, hok2, Bool.false_eq_true, if_false]

/-- C2 (as amended). Credit success postcondition: when the stored balance is a
finite non-negative number `n` units, the accepted amount is the finite number `m`
units and the Number sum does not compare greater than `999999.99`, `creditAccount`
writes that Number sum `r`, prints the confirmation with it, and `r` is within
`2^1040` units (`2^-34`) of the exact sum `n + m`.  The sum is not rounded to cents. -/
theorem creditAccount_success (w : World) (input : String) (n m : Nat)
    (hb : w.storageBalance = fin (n : Int))
    (ha : acceptedAmount input = some (fin (m : Int)))
    (hok : ((fin (n : Int)).add (fin (m : Int))).gt maxBalance = false) :
    ∃ r : Nat, (fin (n : Int)).add (fin (m : Int)) = fin (r : Int) ∧
      creditAccount input w =
        { w with
          storageBalance := fin (r : Int)
          trace := w.trace ++ [Event.question "Enter credit amount: ", Event.read,
            Event.write (fin (r : Int)),
            Event.log ("Amount credited. New balance: " ++ formatBalance (fin (r : Int)))] } ∧
      r ≤ maxUnits ∧
      2 * r ≤ 2 * (n + m) + 2 ^ 1041 ∧ 2 * (n + m) ≤ 2 * r + 2 ^ 1041 :=
  creditAccount_sum w input n m hb ha hok

/-- C2, witness: balance `1000.00` and input `"998999.99"` store exactly the value of
the literal `999999.99`. -/
theorem creditAccount_success_witness :
    (creditAccount "998999.99" World.fresh).storageBalance = maxBalance ∧
    printed (creditAccount "998999.99" World.fresh).trace =
      ["Amount credited. New balance: 999999.99"] ∧
    ∃ r : Nat, (fin ((1000 * scale : Nat) : Int)).add (fin ((4290672285754327 * 2 ^ 1042 : Nat) : Int))
        = fin (r : Int) ∧
      creditAccount "998999.99" World.fresh =
        { World.fresh with
          storageBalance := fin (r : Int)
          trace := World.fresh.trace ++ [Event.question "Enter credit amount: ", Event.read,
            Event.write (fin (r : Int)),
            Event.log ("Amount credited. New balance: " ++ formatBalance (fin (r : Int)))] } ∧
      r ≤ maxUnits ∧
      2 * r ≤ 2 * (1000 * scale + 4290672285754327 * 2 ^ 1042) + 2 ^ 1041 ∧
      2 * (1000 * scale + 4290672285754327 * 2 ^ 1042) ≤ 2 * r + 2 ^ 1041 :=
  ⟨by decide, by decide,
    creditAccount_success World.fresh "998999.99" (1000 * scale) (4290672285754327 * 2 ^ 1042)
      (by decide) (by decide) (by decide)⟩

/-- C2, counterexample to the claim as stated.  From the fresh balance `1000.00` the
accepted input `"128.11"` passes the limit check, and the value stored afterwards is
neither the Number `1128.11` nor equal to its own rounding to cents (it is
`1128.1100000000001`).  With the whole-cent balance `41057.18` the accepted input
`"958942.81"` has the decimal sum `999999.99` exactly, yet the Number sum is
`999999.9900000001`: the credit is rejected and the balance stays `41057.18`. -/
theorem creditAccount_sum_not_cents :
    acceptedAmount "128.11" = some (parseFloat "128.11") ∧
    (World.fresh.storageBalance.add (parseFloat "128.11")).gt maxBalance = false ∧
    (creditAccount "128.11" World.fresh).storageBalance ≠ parseFloat "1128.11" ∧
    (creditAccount "128.11" World.fresh).storageBalance ≠
      (creditAccount "128.11" World.fresh).storageBalance.round2 ∧
    (creditAccount "128.11" World.fresh).storageBalance.round2 = parseFloat "1128.11" ∧
    (parseFloat "41057.18").round2 = parseFloat "41057.18" ∧
    acceptedAmount "958942.81" = some (parseFloat "958942.81") ∧
    4105718 + 95894281 = 99999999 ∧
    (creditAccount "958942.81"
      { World.fresh with storageBalance := parseFloat "41057.18" }).storageBalance
        = parseFloat "41057.18" ∧
    printed (creditAccount "958942.81"
      { World.fresh with storageBalance := parseFloat "41057.18" }).trace
        = ["Error: Balance would exceed maximum allowed value of $999,999.99"] := by
  decide

/-- A debit covered by an in-range balance stores the Number difference, which is
within `2^1040` units of the exact difference. -/
theorem debitAccount_difference (w : World) (input : String) (n m : Nat)
    (hb : w.storageBalance = fin (n : Int)) (hn : n ≤ maxUnits)
    (ha : acceptedAmount input = some (fin (m : Int)))
    (hge : (fin (n : Int)).ge (fin (m : Int)) = true) :
    ∃ r : Nat, m ≤ n ∧ (fin (n : Int)).sub (fin (m : Int)) = fin (r : Int) ∧
      debitAccount input w =
        { w with
          storageBalance := fin (r : Int)
          trace := w.trace ++ [Event.question "Enter debit amount: ", Event.read,
            Event.write (fin (r : Int)),
            Event.log ("Amount debited. New balance: " ++ formatBalance (fin (r : Int)))] } ∧
      r ≤ maxUnits ∧
      2 * r ≤ 2 * (n - m) + 2 ^ 1041 ∧ 2 * (n - m) ≤ 2 * r + 2 ^ 1041 := by
  have hmn : m ≤ n := by simpa [JSNum.ge, JSNum.lt] using hge
  have hsub := sub_fin_nat n m hmn
  obtain ⟨r, hr, hle⟩ := roundUnits_le_double (n - m) maxUnits (by omega)
    maxUnits_facts.1 maxUnits_facts.2.1
  rw [hr, ofRounded_false_some] at hsub
  have hq : quantumExp ((n - m) / 1) ≤ 1041 :=
    roundUnits_quantum_le (n - m) 1 r 1041 hr (lt_of_le_of_lt hle maxUnits_facts.2.2.1)
  have herr := roundUnits_error (n - m) 1 r (by norm_num) hr
  have hpow : 2 ^ quantumExp ((n - m) / 1) ≤ 2 ^ 1041 :=
    Nat.pow_le_pow_right (by norm_num) hq
  refine ⟨r, hmn, hsub, ?_, hle, by omega, by omega⟩
  rw [debitAccount_eq, ha]
  simp only [hb, hge, hsub, if_true]

/-- C4 (as amended). Debit success postcondition: when the stored balance is a finite
number of `n ≤ maxUnits` units, the accepted amount is the finite number `m` units and
the balance compares `>=` the amount, `debitAccount` writes the Number difference `r`,
prints the confirmation with it, and `r` is within `2^1040` units (`2^-34`) of the exact
difference `n - m`.  The difference is not rounded to cents. -/
theorem debitAccount_success (w : World) (input : String) (n m : Nat)
    (hb : w.storageBalance = fin (n : Int)) (hn : n ≤ maxUnits)
    (ha : acceptedAmount input = some (fin (m : Int)))
    (hge : (fin (n : Int)).ge (fin (m : Int)) = true) :
    ∃ r : Nat, m ≤ n ∧ (fin (n : Int)).sub (fin (m : Int)) = fin (r : Int) ∧
      debitAccount input w =
        { w with
          storageBalance := fin (r : Int)
          trace := w.trace ++ [Event.question "Enter debit amount: ", Event.read,
            Event.write (fin (r : Int)),
            Event.log ("Amount debited. New balance: " ++ formatBalance (fin (r : Int)))] } ∧
      r ≤ maxUnits ∧
      2 * r ≤ 2 * (n - m) + 2 ^ 1041 ∧ 2 * (n - m) ≤ 2 * r + 2 ^ 1041 :=
  debitAccount_difference w input n m hb hn ha hge

/-- C4, witness: balance `1000.00` and input `"123.45"` store the Number `876.55`. -/
theorem debitAccount_success_witness :
    (debitAccount "123.45" World.fresh).storageBalance = parseFloat "876.55" ∧
    printed (debitAccount "123.45" World.fresh).trace =
      ["Amount debited. New balance: 876.55"] ∧
    ∃ r : Nat, 8687021468732621 * 2 ^ 1028 ≤ 1000 * scale ∧
      (fin ((1000 * scale : Nat) : Int)).sub (fin ((8687021468732621 * 2 ^ 1028 : Nat) : Int)) = fin (r : Int) ∧
      debitAccount "123.45" World.fresh =
        { World.fresh with
          storageBalance := fin (r : Int)
          trace := World.fresh.trace ++ [Event.question "Enter debit amount: ", Event.read,
            Event.write (fin (r : Int)),
            Event.log ("Amount debited. New balance: " ++ formatBalance (fin (r : Int)))] } ∧
      r ≤ maxUnits ∧
      2 * r ≤ 2 * (1000 * scale - 8687021468732621 * 2 ^ 1028) + 2 ^ 1041 ∧
      2 * (1000 * scale - 8687021468732621 * 2 ^ 1028) ≤ 2 * r + 2 ^ 1041 :=
  ⟨by decide, by decide,
    debitAccount_success World.fresh "123.45" (1000 * scale) (8687021468732621 * 2 ^ 1028)
      (by decide) (by decide) (by decide) (by decide)⟩

/-- C4, counterexample to the claim as stated: from the fresh balance `1000.00` the
accepted input `"64.07"` is covered by the balance, and the value stored afterwards is
neither the Number `935.93` nor equal to its own rounding to cents
(it is `935.9300000000001`). -/
theorem debitAccount_difference_not_cents :
    acceptedAmount "64.07" = some (parseFloat "64.07") ∧
    World.fresh.storageBalance.ge (parseFloat "64.07") = true ∧
    (debitAccount "64.07" World.fresh).storageBalance ≠ parseFloat "935.93" ∧
    (debitAccount "64.07" World.fresh).storageBalance ≠
      (debitAccount "64.07" World.fresh).storageBalance.round2 ∧
    (debitAccount "64.07" World.fresh).storageBalance.round2 = parseFloat "935.93" := by
  decide

/-! ## Precision of the stored balance (C8) -/

theorem cancel_scale (s a b : Nat) (hs : 0 < s) (h : s * a ≤ s * b) : a ≤ b :=
  Nat.le_of_mul_le_mul_left h hs

/-- An accepted finite amount below `2^20` is within `2^-34` of a whole number of cents. -/
theorem acceptedAmount_near_cents (input : String) (m : Nat)
    (ha : acceptedAmount input = some (fin (m : Int))) (hm : m < 2 ^ 1094) :
    ∃ k : Nat, 200 * m ≤ 2 * (k * scale) + 100 * 2 ^ 1041 ∧
      2 * (k * scale) ≤ 200 * m + 100 * 2 ^ 1041 := by
  rcases acceptedAmount_shape input _ ha with h | ⟨k, m2, h, hr⟩
  · exact absurd h (by simp)
  · have hmm : m2 = m := by
      have := JSNum.fin.inj h
      omega
    subst hmm
    have hpos : 0 < 100 * scale := Nat.mul_pos (by norm_num) scale_pos
    obtain ⟨e1, e2⟩ := roundUnits_error _ _ _ hpos hr
    have hq : quantumExp (k * scale * scale / (100 * scale)) ≤ 1041 :=
      roundUnits_quantum_le _ _ _ 1041 hr hm
    have hpow : 2 ^ quantumExp (k * scale * scale / (100 * scale)) ≤ 2 ^ 1041 :=
      Nat.pow_le_pow_right (by norm_num) hq
    generalize 2 ^ quantumExp (k * scale * scale / (100 * scale)) = E at e1 e2 hpow
    refine ⟨k, ?_, ?_⟩
    · have : scale * (200 * m2) ≤ scale * (2 * (k * scale) + 100 * E) := by
        calc scale * (200 * m2) = 2 * (m2 * (100 * scale)) := by ring
          _ ≤ 2 * (k * scale * scale) + 100 * scale * E := e1
          _ = scale * (2 * (k * scale) + 100 * E) := by ring
      have := cancel_scale _ _ _ scale_pos this
      omega
    · have : scale * (2 * (k * scale)) ≤ scale * (200 * m2 + 100 * E) := by
        calc scale * (2 * (k * scale)) = 2 * (k * scale * scale) := by ring
          _ ≤ 2 * (m2 * (100 * scale)) + 100 * scale * E := e2
          _ = scale * (200 * m2 + 100 * E) := by ring
      have := cancel_scale _ _ _ scale_pos this
      omega

theorem nearCents_mono (t : Nat) (b : JSNum) (h : NearCents t b) : NearCents (t + 1) b := by
  obtain ⟨n, c, hb, hn, h1, h2⟩ := h
  refine ⟨n, c, hb, hn, ?_, ?_⟩ <;> push_cast <;> omega

theorem maxUnits_slack : maxUnits + 2 ^ 1041 < 2 ^ 1094 := by decide

theorem creditAccount_nearCents (input : String) (w : World) (t : Nat)
    (h : NearCents t w.storageBalance) : NearCents (t + 1) (creditAccount input w).storageBalance := by
  have hmono := nearCents_mono t _ h
  obtain ⟨n, c, hb, hn, h1, h2⟩ := h
  cases ha : acceptedAmount input with
  | none => rw [creditAccount_eq, ha]; exact hmono
  | some a =>
    by_cases hgt : (w.storageBalance.add a).gt maxBalance = true
    · rw [creditAccount_eq, ha]; simp only [hgt, if_true]; exact hmono
    · rcases acceptedAmount_shape input a ha with rfl | ⟨k0, m, rfl, _⟩
      · rw [hb] at hgt
        exact absurd (by simpa [JSNum.add] using gt_inf_maxBalance) hgt
      · rw [hb] at hgt
        obtain ⟨r, _, heq, hr, e1, e2⟩ :=
          creditAccount_sum w input n m hb ha (by simpa using hgt)
        obtain ⟨k, k1, k2⟩ := acceptedAmount_near_cents input m ha
          (by have := maxUnits_slack; omega)
        rw [heq]
        refine ⟨r, c + k, rfl, hr, ?_, ?_⟩
        · rw [add_mul]; push_cast; omega
        · rw [add_mul]; push_cast; omega

theorem debitAccount_nearCents (input : String) (w : World) (t : Nat)
    (h : NearCents t w.storageBalance) : NearCents (t + 1) (debitAccount input w).storageBalance := by
  have hmono := nearCents_mono t _ h
  obtain ⟨n, c, hb, hn, h1, h2⟩ := h
  cases ha : acceptedAmount input with
  | none => rw [debitAccount_eq, ha]; exact hmono
  | some a =>
    by_cases hge : w.storageBalance.ge a = true
    · rcases acceptedAmount_shape input a ha with rfl | ⟨k0, m, rfl, _⟩
      · rw [hb] at hge
        simp [JSNum.ge, JSNum.lt] at hge
      · rw [hb] at hge
        obtain ⟨r, hmn, _, heq, hr, e1, e2⟩ :=
          debitAccount_difference w input n m hb hn ha hge
        obtain ⟨k, k1, k2⟩ := acceptedAmount_near_cents input m ha
          (by have := maxUnits_slack; omega)
        rw [heq]
        refine ⟨r, c - k, rfl, hr, ?_, ?_⟩
        · rw [sub_mul]; push_cast; omega
        · rw [sub_mul]; push_cast; omega
    · rw [debitAccount_eq, ha]; simp only [hge]; exact hmono

theorem runCalls_nearCents (calls : List Call) : ∀ (w : World) (t : Nat),
    NearCents t w.storageBalance →
      NearCents (t + calls.length) (runCalls calls w).storageBalance := by
  induction calls with
  | nil => intro w t h; exact h
  | cons c cs ih =>
    intro w t h
    have hstep : NearCents (t + 1) (c.apply w).storageBalance := by
      cases c with
      | view =>
        show NearCents (t + 1) (viewBalance w).storageBalance
        rw [viewBalance_storageBalance]; exact nearCents_mono t _ h
      | credit input => exact creditAccount_nearCents input w t h
      | debit input => exact debitAccount_nearCents input w t h
    have := ih (c.apply w) (t + 1) hstep
    rw [List.length_cons, show t + (cs.length + 1) = t + 1 + cs.length by omega]
    exact this

theorem fresh_nearCents : NearCents 0 World.fresh.storageBalance :=
  ⟨1000 * scale, 100000, by decide, by decide, by push_cast; omega, by push_cast; omega⟩

/-- C8 (as amended). Balance precision: after any `t` calls of `viewBalance`,
`creditAccount` and `debitAccount` on a freshly constructed program the stored balance
is a finite number within `t * 2^-33` of a whole number `c` of cents
(`|100 * n - c * 2^1074| ≤ 100 * t * 2^1041` for the balance of `n` units).  It need not
be a whole number of cents: sums and differences are stored without rounding. -/
theorem balance_near_cents (calls : List Call) :
    ∃ (n : Nat) (c : Int), (runCalls calls World.fresh).storageBalance = fin (n : Int) ∧
      100 * (n : Int) ≤ c * (scale : Int) + 100 * (calls.length : Int) * 2 ^ 1041 ∧
      c * (scale : Int) ≤ 100 * (n : Int) + 100 * (calls.length : Int) * 2 ^ 1041 := by
  obtain ⟨n, c, hb, _, h1, h2⟩ := runCalls_nearCents calls World.fresh 0 fresh_nearCents
  rw [Nat.zero_add] at h1 h2
  exact ⟨n, c, hb, h1, h2⟩

/-- C8, counterexample to the claim as stated: after the single call `debitAccount`
with input `"999.9"` on a fresh program the value written to the store is
`0.10000000000002274`, which differs from its own rounding to cents, `0.1`. -/
theorem balance_not_whole_cents :
    written (runCalls [Call.debit "999.9"] World.fresh).trace =
      [(runCalls [Call.debit "999.9"] World.fresh).storageBalance] ∧
    (runCalls [Call.debit "999.9"] World.fresh).storageBalance.round2 = parseFloat "0.1" ∧
    (runCalls [Call.debit "999.9"] World.fresh).storageBalance ≠
      (runCalls [Call.debit "999.9"] World.fresh).storageBalance.round2 := by
  decide

/-! ## Rounding of amounts (C9) -/

theorem roundHalfEven_le_succ (p q : Nat) : roundHalfEven p q ≤ p / q + 1 := by
  rcases roundHalfEven_cases p q with ⟨h, _⟩ | ⟨h, _⟩ <;> omega

/-- Rounding a value below `2^1023` does not overflow. -/
theorem roundUnits_finite (p q : Nat) (h : p / q < 2 ^ 2097) : ∃ r, roundUnits p q = some r := by
  have he : quantumExp (p / q) ≤ 2044 := quantumExp_le_of_lt (p / q) 2044 h (by norm_num)
  have hpos : 0 < 2 ^ quantumExp (p / q) := Nat.pow_pos (by norm_num)
  have h1 : roundHalfEven p (q * 2 ^ quantumExp (p / q)) ≤ p / q / 2 ^ quantumExp (p / q) + 1 := by
    rw [Nat.div_div_eq_div_mul]; exact roundHalfEven_le_succ _ _
  have h2 : roundHalfEven p (q * 2 ^ quantumExp (p / q)) * 2 ^ quantumExp (p / q)
      ≤ p / q + 2 ^ quantumExp (p / q) := by
    calc roundHalfEven p (q * 2 ^ quantumExp (p / q)) * 2 ^ quantumExp (p / q)
        ≤ (p / q / 2 ^ quantumExp (p / q) + 1) * 2 ^ quantumExp (p / q) :=
          Nat.mul_le_mul_right _ h1
      _ = p / q / 2 ^ quantumExp (p / q) * 2 ^ quantumExp (p / q) + 2 ^ quantumExp (p / q) := by
          rw [Nat.add_mul, Nat.one_mul]
      _ ≤ p / q + 2 ^ quantumExp (p / q) :=
          Nat.add_le_add_right (Nat.div_mul_le_self _ _) _
  have h3 : 2 ^ quantumExp (p / q) ≤ 2 ^ 2044 := Nat.pow_le_pow_right (by norm_num) he
  have h4 : (2 : Nat) ^ 2097 + 2 ^ 2044 < 2 ^ 2098 := by norm_num
  have hob : overflowBound = 2 ^ 2098 := rfl
  refine ⟨roundHalfEven p (q * 2 ^ quantumExp (p / q)) * 2 ^ quantumExp (p / q), ?_⟩
  unfold roundUnits
  dsimp only
  rw [if_neg (by omega), if_neg (by omega)]

theorem centsOf_spec (y : Nat) :
    2 * (centsOf y * scale) ≤ 2 * y + scale ∧ 2 * y < 2 * (centsOf y * scale) + scale := by
  have hpos : 0 < 2 * scale := Nat.mul_pos (by norm_num) scale_pos
  have h1 : centsOf y * (2 * scale) ≤ 2 * y + scale := Nat.div_mul_le_self _ _
  have h2 : 2 * y + scale < (centsOf y + 1) * (2 * scale) := by
    have := Nat.lt_succ_self ((2 * y + scale) / (2 * scale))
    exact (Nat.div_lt_iff_lt_mul hpos).mp this
  constructor
  · calc 2 * (centsOf y * scale) = centsOf y * (2 * scale) := by ring
      _ ≤ _ := h1
  · have : (centsOf y + 1) * (2 * scale) = 2 * (centsOf y * scale) + 2 * scale := by ring
    omega

/-- The arithmetic of the error bound of `round2`, free of the program. -/
theorem round2_bound_arith (x y r ks e1 e2 s : Nat) (hs : 2 ^ 60 ≤ s)
    (a1 : 2 * y ≤ 200 * x + e1) (a2 : 200 * x ≤ 2 * y + e1)
    (k1 : 2 * ks ≤ 2 * y + s) (k2 : 2 * y < 2 * ks + s)
    (c1 : 200 * r ≤ 2 * ks + 100 * e2) (c2 : 2 * ks ≤ 200 * r + 100 * e2)
    (q1 : e1 = 1 ∨ 2 ^ 52 * e1 ≤ 100 * x) (q2 : e2 = 1 ∨ 100 * (2 ^ 52 * e2) ≤ ks) :
    200 * 2 ^ 51 * r ≤ 200 * 2 ^ 51 * x + 2 ^ 51 * s + 200 * (x + s) ∧
      200 * 2 ^ 51 * x ≤ 200 * 2 ^ 51 * r + 2 ^ 51 * s + 200 * (x + s) := by
  rcases q1 with h1 | h1 <;> rcases q2 with h2 | h2 <;> constructor <;> omega

theorem cents_below_overflow (ks y s : Nat) (k1 : 2 * ks ≤ 2 * y + s) (hy : y < 2 ^ 2098)
    (hs : s ≤ 2 ^ 1074) : ks < 100 * 2 ^ 2097 := by
  omega

/-- C9 (as amended). Amount parsing and rounding: when the input parses to a finite
number of `x ≥ 0` units with `100 * x` below `2^1023`, `promptForAmount` resolves,
whatever the prompt and the state, with the finite non-negative number `r` obtained
as follows: `y` is the Number product `x * 100`, `k = centsOf y` is the integer with
`k - 1/2 ≤ y < k + 1/2` (`Math.round`, halves upward), and `r` is the Number nearest
to `k / 100`.  The distance from `r` to `x` is at most `0.005 + 2^-51 * (x + 1)`. -/
theorem promptForAmount_rounding (input : String) (x : Nat)
    (hp : parseFloat input = fin (x : Int)) (hx : 100 * x < 2 ^ 2097) :
    ∃ y r : Nat,
      roundUnits (x * (100 * scale)) scale = some y ∧
      roundUnits (centsOf y * scale * scale) (100 * scale) = some r ∧
      (∀ (p : String) (w : World), (promptForAmount p input w).1 = some (fin (r : Int))) ∧
      2 * (centsOf y * scale) ≤ 2 * y + scale ∧ 2 * y < 2 * (centsOf y * scale) + scale ∧
      200 * 2 ^ 51 * r ≤ 200 * 2 ^ 51 * x + 2 ^ 51 * scale + 200 * (x + scale) ∧
      200 * 2 ^ 51 * x ≤ 200 * 2 ^ 51 * r + 2 ^ 51 * scale + 200 * (x + scale) := by
  have hS := scale_pos
  have hdiv1 : x * (100 * scale) / scale = 100 * x := by
    rw [show x * (100 * scale) = 100 * x * scale by ring]
    exact Nat.mul_div_cancel _ hS
  obtain ⟨y, hy⟩ := roundUnits_finite (x * (100 * scale)) scale (by rw [hdiv1]; exact hx)
  obtain ⟨hk1, hk2⟩ := centsOf_spec y
  obtain ⟨_, hyb, _⟩ := roundUnits_some _ _ _ hy
  have hdiv2 : centsOf y * scale * scale / (100 * scale) = centsOf y * scale / 100 := by
    rw [show centsOf y * scale * scale = scale * (centsOf y * scale) by ring,
      show 100 * scale = scale * 100 by ring]
    exact Nat.mul_div_mul_left _ _ hS
  have hklt : centsOf y * scale / 100 < 2 ^ 2097 :=
    Nat.div_lt_of_lt_mul (cents_below_overflow _ y scale hk1 hyb (le_refl _))
  obtain ⟨r, hr⟩ := roundUnits_finite (centsOf y * scale * scale) (100 * scale)
    (by rw [hdiv2]; exact hklt)
  have hacc : acceptedAmount input = some (fin (r : Int)) := by
    rw [acceptedAmount_eq, hp, round2_fin_nat, hy]
    have hlt : ¬ ((x : Int) < 0) := by omega
    simp only [JSNum.isNaN, JSNum.lt, JSNum.zero, hlt, decide_False, Bool.or_self,
      Bool.false_eq_true, if_false, hr, ofRounded_false_some]
  -- rounding errors of the product and of the quotient
  obtain ⟨a1, a2⟩ := roundUnits_error _ _ _ hS hy
  obtain ⟨c1, c2⟩ := roundUnits_error _ _ _ (Nat.mul_pos (by norm_num : 0 < 100) hS) hr
  obtain ⟨_, q1⟩ := quantumExp_spec (x * (100 * scale) / scale)
    (by rw [hdiv1]; exact lt_trans hx (by norm_num))
  obtain ⟨_, q2⟩ := quantumExp_spec (centsOf y * scale * scale / (100 * scale))
    (by rw [hdiv2]; exact lt_trans hklt (by norm_num))
  rw [hdiv1] at a1 a2 q1
  rw [hdiv2] at c1 c2 q2
  have q1b : 2 ^ quantumExp (100 * x) = 1 ∨ 2 ^ 52 * 2 ^ quantumExp (100 * x) ≤ 100 * x := by
    rcases q1 with h | h
    · left; rw [h]; rfl
    · right; rw [← pow_add]; exact h
  have q2b : 2 ^ quantumExp (centsOf y * scale / 100) = 1 ∨
      100 * (2 ^ 52 * 2 ^ quantumExp (centsOf y * scale / 100)) ≤ centsOf y * scale := by
    rcases q2 with h | h
    · left; rw [h]; rfl
    · right
      have h2 := (Nat.le_div_iff_mul_le (by norm_num : 0 < 100)).mp h
      rw [pow_add] at h2
      rw [Nat.mul_comm]
      exact h2
  generalize 2 ^ quantumExp (100 * x) = E1 at a1 a2 q1b
  generalize 2 ^ quantumExp (centsOf y * scale / 100) = E2 at c1 c2 q2b
  have a1b : 2 * y ≤ 200 * x + E1 := by
    apply cancel_scale scale _ _ hS
    calc scale * (2 * y) = 2 * (y * scale) := by ring
      _ ≤ 2 * (x * (100 * scale)) + scale * E1 := a1
      _ = scale * (200 * x + E1) := by ring
  have a2b : 200 * x ≤ 2 * y + E1 := by
    apply cancel_scale scale _ _ hS
    calc scale * (200 * x) = 2 * (x * (100 * scale)) := by ring
      _ ≤ 2 * (y * scale) + scale * E1 := a2
      _ = scale * (2 * y + E1) := by ring
  have c1b : 200 * r ≤ 2 * (centsOf y * scale) + 100 * E2 := by
    apply cancel_scale scale _ _ hS
    calc scale * (200 * r) = 2 * (r * (100 * scale)) := by ring
      _ ≤ 2 * (centsOf y * scale * scale) + 100 * scale * E2 := c1
      _ = scale * (2 * (centsOf y * scale) + 100 * E2) := by ring
  have c2b : 2 * (centsOf y * scale) ≤ 200 * r + 100 * E2 := by
    apply cancel_scale scale _ _ hS
    calc scale * (2 * (centsOf y * scale)) = 2 * (centsOf y * scale * scale) := by ring
      _ ≤ 2 * (r * (100 * scale)) + 100 * scale * E2 := c2
      _ = scale * (200 * r + 100 * E2) := by ring
  have hacc2 : ∀ (p : String) (w : World), (promptForAmount p input w).1 = some (fin (r : Int)) := by
    intro p w
    rw [promptForAmount_eq, hacc]
  have hS2 : 2 ^ 60 ≤ scale := Nat.pow_le_pow_right (by norm_num) (by norm_num)
  obtain ⟨b1, b2⟩ := round2_bound_arith x y r (centsOf y * scale) E1 E2 scale hS2
    a1b a2b hk1 hk2 c1b c2b q1b q2b
  exact ⟨y, r, hy, hr, hacc2, hk1, hk2, b1, b2⟩

/-- C9, witness: the input `"1.005"` parses to the Number just below `1.005`; its
product with `100` is `100.49999999999999`, so it is rounded to `1`. -/
theorem promptForAmount_rounding_witness :
    acceptedAmount "1.005" = some (JSNum.ofNat 1) ∧
    ∃ y r : Nat,
      roundUnits (1131529406376837 * 2 ^ 1024 * (100 * scale)) scale = some y ∧
      roundUnits (centsOf y * scale * scale) (100 * scale) = some r ∧
      (∀ (p : String) (w : World), (promptForAmount p "1.005" w).1 = some (fin (r : Int))) ∧
      2 * (centsOf y * scale) ≤ 2 * y + scale ∧ 2 * y < 2 * (centsOf y * scale) + scale ∧
      200 * 2 ^ 51 * r ≤ 200 * 2 ^ 51 * (1131529406376837 * 2 ^ 1024) + 2 ^ 51 * scale
        + 200 * (1131529406376837 * 2 ^ 1024 + scale) ∧
      200 * 2 ^ 51 * (1131529406376837 * 2 ^ 1024) ≤ 200 * 2 ^ 51 * r + 2 ^ 51 * scale
        + 200 * (1131529406376837 * 2 ^ 1024 + scale) :=
  ⟨by decide,
    promptForAmount_rounding "1.005" (1131529406376837 * 2 ^ 1024) (by decide) (by decide)⟩

/-- C9, counterexample to the claim as stated.  The input `"0.015"` parses to a
number `x ≥ 0` and is accepted with `r = 0.02`, and `r - x` exceeds `0.005`, both as
exact reals and as the Number difference compared with the literal `0.005`.  The
input `"1e308"` parses to a finite `x ≥ 0` and is accepted with `r = +Infinity`, which
is no number of cents. -/
theorem promptForAmount_error_exceeds_half_cent :
    parseFloat "0.015" = fin ((1080863910568919 * 2 ^ 1018 : Nat) : Int) ∧
    acceptedAmount "0.015" = some (fin ((5764607523034235 * 2 ^ 1016 : Nat) : Int)) ∧
    5 * scale < 1000 * (5764607523034235 * 2 ^ 1016 - 1080863910568919 * 2 ^ 1018) ∧
    ((fin ((5764607523034235 * 2 ^ 1016 : Nat) : Int)).sub
      (fin ((1080863910568919 * 2 ^ 1018 : Nat) : Int))).gt (parseFloat "0.005") = true ∧
    (parseFloat "1e308").ge JSNum.zero = true ∧
    parseFloat "1e308" ≠ inf false ∧
    acceptedAmount "1e308" = some (inf false) := by
  decide

/-! ## Ledger store (C13) -/

theorem prompted_append (s t : List Event) : prompted (s ++ t) = prompted s ++ prompted t := by
  induction s with
  | nil => rfl
  | cons e s ih => cases e <;> simp [prompted, ih]

theorem execute_read_iterate (x : JSNum) (k : Nat) (w : World) :
    ((fun u => (DataProgram.execute "READ" x u).2)^[k] w).storageBalance = w.storageBalance := by
  induction k generalizing w with
  | zero => rfl
  | succ k ih =>
    rw [Function.iterate_succ_apply, ih, execute_read]

/-- C13. Ledger Store read/write: a fresh store reads `1000.00`; `execute('WRITE', v)`
replaces the stored value by `v` whatever `v` is and whatever was stored; after it
and any number `k` of further `execute('READ')` calls, `execute('READ')` and
`getBalance()` return `v`; `execute('READ')` leaves the stored value as it is. -/
theorem ledger_store_read_write (v x : JSNum) (k : Nat) (w : World) :
    (DataProgram.execute "READ" x World.fresh).1 = some (JSNum.ofNat 1000) ∧
      DataProgram.getBalance World.fresh = JSNum.ofNat 1000 ∧
      (DataProgram.execute "WRITE" v w).1 = some v ∧
      (DataProgram.execute "WRITE" v w).2.storageBalance = v ∧
      (DataProgram.execute "READ" x
        ((fun u => (DataProgram.execute "READ" x u).2)^[k]
          (DataProgram.execute "WRITE" v w).2)).1 = some v ∧
      DataProgram.getBalance
        ((fun u => (DataProgram.execute "READ" x u).2)^[k]
          (DataProgram.execute "WRITE" v w).2) = v ∧
      (DataProgram.execute "READ" x w).1 = some w.storageBalance ∧
      (DataProgram.execute "READ" x w).2.storageBalance = w.storageBalance := by
  refine ⟨by rw [execute_read]; rfl, rfl, by rw [execute_write], by rw [execute_write], ?_, ?_,
    by rw [execute_read], by rw [execute_read]⟩
  · rw [execute_read, execute_read_iterate, execute_write]
  · unfold DataProgram.getBalance
    rw [execute_read_iterate, execute_write]

/-! ## Menu (C14, C15, C16) -/

theorem displayMenu_effect (w : World) :
    MainProgram.displayMenu w =
        { w with trace := w.trace ++ [Event.log "--------------------------------",
          Event.log "Account Management System", Event.log "1. View Balance",
          Event.log "2. Credit Account", Event.log "3. Debit Account", Event.log "4. Exit",
          Event.log "--------------------------------"] } ∧
      printed (MainProgram.displayMenu w).trace = printed w.trace ++
        ["--------------------------------", "Account Management System", "1. View Balance",
          "2. Credit Account", "3. Debit Account", "4. Exit",
          "--------------------------------"] ∧
      (MainProgram.displayMenu w).storageBalance = w.storageBalance ∧
      (MainProgram.displayMenu w).continueFlag = w.continueFlag := by
  have h : MainProgram.displayMenu w =
      { w with trace := w.trace ++ [Event.log "--------------------------------",
        Event.log "Account Management System", Event.log "1. View Balance",
        Event.log "2. Credit Account", Event.log "3. Debit Account", Event.log "4. Exit",
        Event.log "--------------------------------"] } := by
    simp [MainProgram.displayMenu, consoleLog]
  rw [h]
  simp [printed_append, printed]

/-- C16. Menu text: `displayMenu` prints exactly the seven menu lines, in order, and
nothing else happens: balance and continue flag are unchanged. -/
theorem displayMenu_lines (w : World) :
    MainProgram.displayMenu w =
        { w with trace := w.trace ++ [Event.log "--------------------------------",
          Event.log "Account Management System", Event.log "1. View Balance",
          Event.log "2. Credit Account", Event.log "3. Debit Account", Event.log "4. Exit",
          Event.log "--------------------------------"] } ∧
      printed (MainProgram.displayMenu w).trace = printed w.trace ++
        ["--------------------------------", "Account Management System", "1. View Balance",
          "2. Credit Account", "3. Debit Account", "4. Exit",
          "--------------------------------"] ∧
      (MainProgram.displayMenu w).storageBalance = w.storageBalance ∧
      (MainProgram.displayMenu w).continueFlag = w.continueFlag :=
  displayMenu_effect w

theorem creditAccount_continueFlag (input : String) (w : World) :
    (creditAccount input w).continueFlag = w.continueFlag := by
  rw [creditAccount_eq]
  cases acceptedAmount input with
  | none => rfl
  | some a => simp only; split_ifs <;> rfl

theorem debitAccount_continueFlag (input : String) (w : World) :
    (debitAccount input w).continueFlag = w.continueFlag := by
  rw [debitAccount_eq]
  cases acceptedAmount input with
  | none => rfl
  | some a => simp only; split_ifs <;> rfl

theorem viewBalance_continueFlag (w : World) :
    (viewBalance w).continueFlag = w.continueFlag := by
  rw [viewBalance_eq]

theorem process_continueFlag (tag : String) (inputs : List String) (w : World) :
    (Operations.process tag inputs w).world.continueFlag = w.continueFlag := by
  unfold Operations.process
  split_ifs
  · exact viewBalance_continueFlag w
  · cases inputs with
    | nil => rfl
    | cons a rest => exact creditAccount_continueFlag a w
  · cases inputs with
    | nil => rfl
    | cons a rest => exact debitAccount_continueFlag a w
  · rfl

theorem processChoice_of_one (c : String) (inputs : List String) (w : World)
    (h : (parseInt c).strictEq (JSNum.ofNat 1) = true) :
    MainProgram.processChoice c inputs w = Outcome.returned inputs (viewBalance w) := by
  unfold MainProgram.processChoice
  rw [if_pos h]
  unfold Operations.process
  rw [if_pos rfl]

theorem strictEq_unique (x : JSNum) (a b : Nat) (h : a ≠ b)
    (ha : x.strictEq (JSNum.fin (a : Int)) = true) : x.strictEq (JSNum.fin (b : Int)) = false := by
  cases x with
  | nan => rfl
  | inf s => rfl
  | fin n =>
    simp only [JSNum.strictEq, decide_eq_true_eq, decide_eq_false_iff_not] at ha ⊢
    omega

theorem ofNat_small : JSNum.ofNat 1 = JSNum.fin ((1 * scale : Nat) : Int) ∧
    JSNum.ofNat 2 = JSNum.fin ((2 * scale : Nat) : Int) ∧
    JSNum.ofNat 3 = JSNum.fin ((3 * scale : Nat) : Int) ∧
    JSNum.ofNat 4 = JSNum.fin ((4 * scale : Nat) : Int) := by decide

theorem scale_multiples_ne : 1 * scale ≠ 2 * scale ∧ 1 * scale ≠ 3 * scale ∧
    1 * scale ≠ 4 * scale ∧ 2 * scale ≠ 3 * scale ∧ 2 * scale ≠ 4 * scale ∧
    3 * scale ≠ 4 * scale := by
  have := scale_pos
  omega

theorem processChoice_of_two (c : String) (inputs : List String) (w : World)
    (h : (parseInt c).strictEq (JSNum.ofNat 2) = true) :
    MainProgram.processChoice c inputs w = Operations.process "CREDIT" inputs w := by
  have h1 : (parseInt c).strictEq (JSNum.ofNat 1) = false := by
    rw [ofNat_small.1]; rw [ofNat_small.2.1] at h
    exact strictEq_unique _ _ _ (Ne.symm scale_multiples_ne.1) h
  unfold MainProgram.processChoice
  rw [if_neg (by rw [h1]; decide), if_pos h]

theorem processChoice_of_three (c : String) (inputs : List String) (w : World)
    (h : (parseInt c).strictEq (JSNum.ofNat 3) = true) :
    MainProgram.processChoice c inputs w = Operations.process "DEBIT " inputs w := by
  have h1 : (parseInt c).strictEq (JSNum.ofNat 1) = false := by
    rw [ofNat_small.1]; rw [ofNat_small.2.2.1] at h
    exact strictEq_unique _ _ _ (Ne.symm scale_multiples_ne.2.1) h
  have h2 : (parseInt c).strictEq (JSNum.ofNat 2) = false := by
    rw [ofNat_small.2.1]; rw [ofNat_small.2.2.1] at h
    exact strictEq_unique _ _ _ (Ne.symm scale_multiples_ne.2.2.2.1) h
  unfold MainProgram.processChoice
  rw [if_neg (by rw [h1]; decide), if_neg (by rw [h2]; decide), if_pos h]

theorem processChoice_of_four (c : String) (inputs : List String) (w : World)
    (h : (parseInt c).strictEq (JSNum.ofNat 4) = true) :
    MainProgram.processChoice c inputs w =
      Outcome.returned inputs { w with continueFlag := "NO" } := by
  have h1 : (parseInt c).strictEq (JSNum.ofNat 1) = false := by
    rw [ofNat_small.1]; rw [ofNat_small.2.2.2] at h
    exact strictEq_unique _ _ _ (Ne.symm scale_multiples_ne.2.2.1) h
  have h2 : (parseInt c).strictEq (JSNum.ofNat 2) = false := by
    rw [ofNat_small.2.1]; rw [ofNat_small.2.2.2] at h
    exact strictEq_unique _ _ _ (Ne.symm scale_multiples_ne.2.2.2.2.1) h
  have h3 : (parseInt c).strictEq (JSNum.ofNat 3) = false := by
    rw [ofNat_small.2.2.1]; rw [ofNat_small.2.2.2] at h
    exact strictEq_unique _ _ _ (Ne.symm scale_multiples_ne.2.2.2.2.2) h
  unfold MainProgram.processChoice
  rw [if_neg (by rw [h1]; decide), if_neg (by rw [h2]; decide), if_neg (by rw [h3]; decide),
    if_pos h]

theorem processChoice_of_other (c : String) (inputs : List String) (w : World)
    (h1 : (parseInt c).strictEq (JSNum.ofNat 1) = false)
    (h2 : (parseInt c).strictEq (JSNum.ofNat 2) = false)
    (h3 : (parseInt c).strictEq (JSNum.ofNat 3) = false)
    (h4 : (parseInt c).strictEq (JSNum.ofNat 4) = false) :
    MainProgram.processChoice c inputs w =
      Outcome.returned inputs (consoleLog "Invalid choice, please select 1-4." w) := by
  unfold MainProgram.processChoice
  rw [if_neg (by rw [h1]; decide), if_neg (by rw [h2]; decide), if_neg (by rw [h3]; decide),
    if_neg (by rw [h4]; decide)]

/-- C14. Menu dispatch of valid choices: `processChoice("1")` is `process('TOTAL ')`,
the view; `processChoice("2")` is `process('CREDIT')`; `processChoice("3")` is
`process('DEBIT ')`; each leaves the continue flag as it was.  `processChoice("4")`
only sets the continue flag to `'NO'`: no line is read, the trace and the balance are
unchanged. -/
theorem processChoice_valid (inputs : List String) (w : World) :
    MainProgram.processChoice "1" inputs w = Operations.process "TOTAL " inputs w ∧
      MainProgram.processChoice "1" inputs w = Outcome.returned inputs (viewBalance w) ∧
      MainProgram.processChoice "2" inputs w = Operations.process "CREDIT" inputs w ∧
      MainProgram.processChoice "3" inputs w = Operations.process "DEBIT " inputs w ∧
      (MainProgram.processChoice "1" inputs w).world.continueFlag = w.continueFlag ∧
      (MainProgram.processChoice "2" inputs w).world.continueFlag = w.continueFlag ∧
      (MainProgram.processChoice "3" inputs w).world.continueFlag = w.continueFlag ∧
      MainProgram.processChoice "4" inputs w =
        Outcome.returned inputs { w with continueFlag := "NO" } := by
  have e1 := processChoice_of_one "1" inputs w (by decide)
  have e2 := processChoice_of_two "2" inputs w (by decide)
  have e3 := processChoice_of_three "3" inputs w (by decide)
  have e4 := processChoice_of_four "4" inputs w (by decide)
  have p1 : Operations.process "TOTAL " inputs w = Outcome.returned inputs (viewBalance w) := by
    unfold Operations.process; rw [if_pos rfl]
  refine ⟨by rw [e1, p1], e1, e2, e3, ?_, ?_, ?_, e4⟩
  · rw [e1]; exact viewBalance_continueFlag w
  · rw [e2]; exact process_continueFlag _ _ _
  · rw [e3]; exact process_continueFlag _ _ _

/-- C14, witness: in a fresh program choice `"2"` followed by the amount line `"50.00"`
credits the account and leaves the flag `'YES'`; choice `"4"` sets it to `'NO'`. -/
theorem processChoice_valid_witness :
    (MainProgram.processChoice "2" ["50.00"] World.fresh).world.continueFlag = "YES" ∧
      MainProgram.processChoice "2" ["50.00"] World.fresh =
        Outcome.returned [] (creditAccount "50.00" World.fresh) ∧
      MainProgram.processChoice "4" ["50.00"] World.fresh =
        Outcome.returned ["50.00"] { World.fresh with continueFlag := "NO" } :=
  ⟨(processChoice_valid ["50.00"] World.fresh).2.2.2.2.2.1,
    (processChoice_valid ["50.00"] World.fresh).2.2.1.trans (by decide),
    (processChoice_valid ["50.00"] World.fresh).2.2.2.2.2.2.2⟩

/-- C15 (as amended). Unrecognized menu choice: when `parseInt(choice)` is none of
the Numbers `1`, `2`, `3`, `4`, `processChoice` prints exactly
"Invalid choice, please select 1-4." and does nothing else: no line is read, no
operation runs, the balance and the continue flag are unchanged. -/
theorem processChoice_invalid (choice : String) (inputs : List String) (w : World)
    (h1 : (parseInt choice).strictEq (JSNum.ofNat 1) = false)
    (h2 : (parseInt choice).strictEq (JSNum.ofNat 2) = false)
    (h3 : (parseInt choice).strictEq (JSNum.ofNat 3) = false)
    (h4 : (parseInt choice).strictEq (JSNum.ofNat 4) = false) :
    MainProgram.processChoice choice inputs w =
        Outcome.returned inputs
          { w with trace := w.trace ++ [Event.log "Invalid choice, please select 1-4."] } ∧
      printed (MainProgram.processChoice choice inputs w).world.trace =
        printed w.trace ++ ["Invalid choice, please select 1-4."] ∧
      prompted (MainProgram.processChoice choice inputs w).world.trace = prompted w.trace ∧
      (MainProgram.processChoice choice inputs w).world.storageBalance = w.storageBalance ∧
      (MainProgram.processChoice choice inputs w).world.continueFlag = w.continueFlag := by
  rw [processChoice_of_other choice inputs w h1 h2 h3 h4]
  refine ⟨rfl, ?_, ?_, rfl, rfl⟩
  · simp [Outcome.world, consoleLog, printed_append, printed]
  · simp [Outcome.world, consoleLog, prompted_append, prompted]

/-- C15, witnesses of the claim: the choices `"0"` and `"9"` in a fresh program. -/
theorem processChoice_invalid_witness :
    (MainProgram.processChoice "0" [] World.fresh =
        Outcome.returned []
          { World.fresh with trace := [Event.log "Invalid choice, please select 1-4."] }) ∧
    (MainProgram.processChoice "9" [] World.fresh =
        Outcome.returned []
          { World.fresh with trace := [Event.log "Invalid choice, please select 1-4."] }) :=
  ⟨(processChoice_invalid "0" [] World.fresh (by decide) (by decide) (by decide) (by decide)).1,
    (processChoice_invalid "9" [] World.fresh (by decide) (by decide) (by decide) (by decide)).1⟩

/-- C15, counterexample to the claim as stated: the choice lines `"1abc"`, `" 2"` and
`"0x3"` are none of `"1"`, `"2"`, `"3"`, `"4"`, yet the first shows the balance, the
second asks for a credit amount and credits it, the third asks for a debit amount
and debits it; `"4.9"` sets the continue flag to `'NO'`.  None of them prints the
invalid-choice line. -/
theorem processChoice_lenient_choice :
    printed (MainProgram.processChoice "1abc" [] World.fresh).world.trace =
        ["Current balance: 1000.00"] ∧
    (MainProgram.processChoice " 2" ["50.00"] World.fresh).world.storageBalance =
        JSNum.ofNat 1050 ∧
    prompted (MainProgram.processChoice " 2" ["50.00"] World.fresh).world.trace =
        ["Enter credit amount: "] ∧
    (MainProgram.processChoice "0x3" ["50.00"] World.fresh).world.storageBalance =
        JSNum.ofNat 950 ∧
    MainProgram.processChoice "4.9" [] World.fresh =
        Outcome.returned [] { World.fresh with continueFlag := "NO" } := by
  decide

/-! ## Session loop (C17) -/

theorem displayMenu_continueFlag (w : World) :
    (MainProgram.displayMenu w).continueFlag = w.continueFlag := (displayMenu_effect w).2.2.2

theorem process_credit (a : String) (more : List String) (w : World) :
    Operations.process "CREDIT" (a :: more) w = Outcome.returned more (creditAccount a w) := by
  unfold Operations.process
  rw [if_neg (by decide), if_pos rfl]

theorem process_debit (a : String) (more : List String) (w : World) :
    Operations.process "DEBIT " (a :: more) w = Outcome.returned more (debitAccount a w) := by
  unfold Operations.process
  rw [if_neg (by decide), if_neg (by decide), if_pos rfl]

theorem turn_play_continueFlag (t : Turn) (w : World) :
    (t.play w).continueFlag = w.continueFlag := by
  have h : (MainProgram.askChoice (MainProgram.displayMenu w)).continueFlag = w.continueFlag :=
    displayMenu_continueFlag w
  cases t with
  | view c => exact (viewBalance_continueFlag _).trans h
  | credit c a => exact (creditAccount_continueFlag _ _).trans h
  | debit c a => exact (debitAccount_continueFlag _ _).trans h
  | invalid c => exact h

theorem runLoop_succ (fuel : Nat) (inputs : List String) (w : World) :
    MainProgram.runLoop (fuel + 1) inputs w =
      if w.continueFlag = "YES" then
        match inputs with
        | [] => some (Outcome.waiting (MainProgram.askChoice (MainProgram.displayMenu w)))
        | choice :: rest =>
          match MainProgram.processChoice choice rest
              (MainProgram.askChoice (MainProgram.displayMenu w)) with
          | Outcome.waiting w1 => some (Outcome.waiting w1)
          | Outcome.returned rest1 w1 => MainProgram.runLoop fuel rest1 w1
      else some (Outcome.returned inputs (consoleLog "Exiting the program. Goodbye!" w)) := rfl

/-- One iteration of the loop plays one turn. -/
theorem runLoop_turn (t : Turn) (fuel : Nat) (more : List String) (w : World)
    (ht : t.Selects) (hflag : w.continueFlag = "YES") :
    MainProgram.runLoop (fuel + 1) (t.lines ++ more) w = MainProgram.runLoop fuel more (t.play w) := by
  rw [runLoop_succ, if_pos hflag]
  cases t with
  | view c =>
    show (match MainProgram.processChoice c more _ with
      | Outcome.waiting w1 => some (Outcome.waiting w1)
      | Outcome.returned rest1 w1 => MainProgram.runLoop fuel rest1 w1) = _
    rw [processChoice_of_one c _ _ ht]
    rfl
  | credit c a =>
    show (match MainProgram.processChoice c (a :: more) _ with
      | Outcome.waiting w1 => some (Outcome.waiting w1)
      | Outcome.returned rest1 w1 => MainProgram.runLoop fuel rest1 w1) = _
    rw [processChoice_of_two c _ _ ht, process_credit]
    rfl
  | debit c a =>
    show (match MainProgram.processChoice c (a :: more) _ with
      | Outcome.waiting w1 => some (Outcome.waiting w1)
      | Outcome.returned rest1 w1 => MainProgram.runLoop fuel rest1 w1) = _
    rw [processChoice_of_three c _ _ ht, process_debit]
    rfl
  | invalid c =>
    show (match MainProgram.processChoice c more _ with
      | Outcome.waiting w1 => some (Outcome.waiting w1)
      | Outcome.returned rest1 w1 => MainProgram.runLoop fuel rest1 w1) = _
    rw [processChoice_of_other c _ _ ht.1 ht.2.1 ht.2.2.1 ht.2.2.2]
    rfl

/-- The iteration that reads the exit choice, and the end of the loop after it. -/
theorem runLoop_exit (fuel : Nat) (c : String) (rest : List String) (w : World)
    (hc : (parseInt c).strictEq (JSNum.ofNat 4) = true) (hflag : w.continueFlag = "YES") :
    MainProgram.runLoop (fuel + 2) (c :: rest) w = some (Outcome.returned rest (sessionEnd [] w)) := by
  rw [runLoop_succ, if_pos hflag]
  show (match MainProgram.processChoice c rest _ with
    | Outcome.waiting w1 => some (Outcome.waiting w1)
    | Outcome.returned rest1 w1 => MainProgram.runLoop (fuel + 1) rest1 w1) = _
  rw [processChoice_of_four c _ _ hc]
  show MainProgram.runLoop (fuel + 1) rest _ = _
  rw [runLoop_succ, if_neg (show ¬ ("NO" = "YES") by decide)]
  rfl

theorem runLoop_script (turns : List Turn) : ∀ (fuel : Nat) (c : String) (rest : List String)
    (w : World), (∀ t ∈ turns, t.Selects) → (parseInt c).strictEq (JSNum.ofNat 4) = true →
    w.continueFlag = "YES" → turns.length + 2 ≤ fuel →
    MainProgram.runLoop fuel (scriptLines turns ++ c :: rest) w =
      some (Outcome.returned rest (sessionEnd turns w)) := by
  induction turns with
  | nil =>
    intro fuel c rest w _ hc hflag hfuel
    obtain ⟨f, rfl⟩ : ∃ f, fuel = f + 2 := ⟨fuel - 2, by simp at hfuel; omega⟩
    exact runLoop_exit f c rest w hc hflag
  | cons t ts ih =>
    intro fuel c rest w hsel hc hflag hfuel
    obtain ⟨f, rfl⟩ : ∃ f, fuel = f + 1 := ⟨fuel - 1, by simp at hfuel; omega⟩
    show MainProgram.runLoop (f + 1) (t.lines ++ scriptLines ts ++ c :: rest) w = _
    rw [List.append_assoc, runLoop_turn t f _ w (hsel t (List.mem_cons_self _ _)) hflag]
    exact ih f c rest (t.play w) (fun u hu => hsel u (List.mem_cons_of_mem _ hu)) hc
      ((turn_play_continueFlag t w).trans hflag) (by simp at hfuel ⊢; omega)

theorem scriptLines_length (turns : List Turn) : turns.length ≤ (scriptLines turns).length := by
  induction turns with
  | nil => simp [scriptLines]
  | cons t ts ih =>
    cases t <;> simp [scriptLines, Turn.lines] <;> omega

theorem creditAccount_storageBalance (input : String) (w : World) :
    (creditAccount input w).storageBalance =
      match acceptedAmount input with
      | none => w.storageBalance
      | some a =>
        if (w.storageBalance.add a).gt maxBalance then w.storageBalance
        else w.storageBalance.add a := by
  rw [creditAccount_eq]
  cases acceptedAmount input with
  | none => rfl
  | some a => simp only; split_ifs <;> rfl

theorem debitAccount_storageBalance (input : String) (w : World) :
    (debitAccount input w).storageBalance =
      match acceptedAmount input with
      | none => w.storageBalance
      | some a => if w.storageBalance.ge a then w.storageBalance.sub a else w.storageBalance := by
  rw [debitAccount_eq]
  cases acceptedAmount input with
  | none => rfl
  | some a => simp only; split_ifs <;> rfl

theorem askChoice_displayMenu_storageBalance (w : World) :
    (MainProgram.askChoice (MainProgram.displayMenu w)).storageBalance = w.storageBalance :=
  (displayMenu_effect w).2.2.1

/-- The balance after the turns is the balance after their account operations. -/
theorem playTurns_storageBalance (turns : List Turn) : ∀ (w v : World),
    w.storageBalance = v.storageBalance →
    (playTurns turns w).storageBalance = (runCalls (scriptCalls turns) v).storageBalance := by
  induction turns with
  | nil => intro w v h; exact h
  | cons t ts ih =>
    intro w v h
    have hm := askChoice_displayMenu_storageBalance w
    cases t with
    | view c =>
      apply ih
      show (viewBalance _).storageBalance = (viewBalance v).storageBalance
      rw [viewBalance_storageBalance, viewBalance_storageBalance, hm, h]
    | credit c a =>
      apply ih
      show (creditAccount a _).storageBalance = (creditAccount a v).storageBalance
      rw [creditAccount_storageBalance, creditAccount_storageBalance, hm, h]
    | debit c a =>
      apply ih
      show (debitAccount a _).storageBalance = (debitAccount a v).storageBalance
      rw [debitAccount_storageBalance, debitAccount_storageBalance, hm, h]
    | invalid c =>
      apply ih
      show (MainProgram.askChoice (MainProgram.displayMenu w)).storageBalance = v.storageBalance
      rw [hm, h]

theorem append_ne_of_take (p s q : String) (k : Nat) (hk : k ≤ p.data.length)
    (h : p.data.take k ≠ q.data.take k) : p ++ s ≠ q := by
  intro e
  apply h
  have h2 := congrArg (fun x : String => x.data.take k) e
  simp only [String.data_append, List.take_append_of_le_length hk] at h2
  exact h2

theorem printed_creditAccount (input : String) (w : World) :
    ∃ line, printed (creditAccount input w).trace = printed w.trace ++ [line] ∧
      line ≠ "Account Management System" := by
  rw [creditAccount_eq]
  cases acceptedAmount input with
  | none =>
    exact ⟨"Invalid amount. Please enter a positive number.",
      by simp [printed_append, printed], by decide⟩
  | some a =>
    simp only
    split_ifs
    · exact ⟨"Error: Balance would exceed maximum allowed value of $999,999.99",
        by simp [printed_append, printed], by decide⟩
    · exact ⟨"Amount credited. New balance: " ++ formatBalance (w.storageBalance.add a),
        by simp [printed_append, printed],
        append_ne_of_take _ _ _ 2 (by decide) (by decide)⟩

theorem printed_debitAccount (input : String) (w : World) :
    ∃ line, printed (debitAccount input w).trace = printed w.trace ++ [line] ∧
      line ≠ "Account Management System" := by
  rw [debitAccount_eq]
  cases acceptedAmount input with
  | none =>
    exact ⟨"Invalid amount. Please enter a positive number.",
      by simp [printed_append, printed], by decide⟩
  | some a =>
    simp only
    split_ifs
    · exact ⟨"Amount debited. New balance: " ++ formatBalance (w.storageBalance.sub a),
        by simp [printed_append, printed],
        append_ne_of_take _ _ _ 2 (by decide) (by decide)⟩
    · exact ⟨"Insufficient funds for this debit.",
        by simp [printed_append, printed], by decide⟩

theorem printed_viewBalance (w : World) :
    ∃ line, printed (viewBalance w).trace = printed w.trace ++ [line] ∧
      line ≠ "Account Management System" := by
  rw [viewBalance_eq]
  exact ⟨"Current balance: " ++ formatBalance w.storageBalance,
    by simp [printed_append, printed],
    append_ne_of_take _ _ _ 1 (by decide) (by decide)⟩

theorem prompted_creditAccount (input : String) (w : World) :
    prompted (creditAccount input w).trace = prompted w.trace ++ ["Enter credit amount: "] := by
  rw [creditAccount_eq]
  cases acceptedAmount input with
  | none => simp [prompted_append, prompted]
  | some a => simp only; split_ifs <;> simp [prompted_append, prompted]

theorem prompted_debitAccount (input : String) (w : World) :
    prompted (debitAccount input w).trace = prompted w.trace ++ ["Enter debit amount: "] := by
  rw [debitAccount_eq]
  cases acceptedAmount input with
  | none => simp [prompted_append, prompted]
  | some a => simp only; split_ifs <;> simp [prompted_append, prompted]

theorem prompted_viewBalance (w : World) :
    prompted (viewBalance w).trace = prompted w.trace := by
  rw [viewBalance_eq]; simp [prompted_append, prompted]

theorem printed_askChoice_displayMenu (w : World) :
    printed (MainProgram.askChoice (MainProgram.displayMenu w)).trace = printed w.trace ++
      ["--------------------------------", "Account Management System", "1. View Balance",
        "2. Credit Account", "3. Debit Account", "4. Exit",
        "--------------------------------"] := by
  show printed ((MainProgram.displayMenu w).trace ++ [Event.question "Enter your choice (1-4): "])
    = _
  rw [printed_append, (displayMenu_effect w).2.1]
  simp [printed]

theorem prompted_askChoice_displayMenu (w : World) :
    prompted (MainProgram.askChoice (MainProgram.displayMenu w)).trace =
      prompted w.trace ++ ["Enter your choice (1-4): "] := by
  show prompted ((MainProgram.displayMenu w).trace ++ [Event.question "Enter your choice (1-4): "])
    = _
  rw [prompted_append, (displayMenu_effect w).1]
  simp [prompted_append, prompted]

/-- A turn shows the menu title once and asks for the choice once. -/
theorem turn_play_counts (t : Turn) (w : World) :
    (printed (t.play w).trace).count "Account Management System" =
        (printed w.trace).count "Account Management System" + 1 ∧
      (prompted (t.play w).trace).count "Enter your choice (1-4): " =
        (prompted w.trace).count "Enter your choice (1-4): " + 1 := by
  have hp := printed_askChoice_displayMenu w
  have hq := prompted_askChoice_displayMenu w
  cases t with
  | view c =>
    obtain ⟨line, hl, hne⟩ := printed_viewBalance (MainProgram.askChoice (MainProgram.displayMenu w))
    refine ⟨?_, ?_⟩
    · show (printed (viewBalance _).trace).count _ = _
      rw [hl, hp]
      simp [List.count_append, List.count_cons, List.count_singleton, hne.symm]
    · show (prompted (viewBalance _).trace).count _ = _
      rw [prompted_viewBalance, hq]
      simp [List.count_append]
  | credit c a =>
    obtain ⟨line, hl, hne⟩ :=
      printed_creditAccount a (MainProgram.askChoice (MainProgram.displayMenu w))
    refine ⟨?_, ?_⟩
    · show (printed (creditAccount a _).trace).count _ = _
      rw [hl, hp]
      simp [List.count_append, List.count_cons, List.count_singleton, hne.symm]
    · show (prompted (creditAccount a _).trace).count _ = _
      rw [prompted_creditAccount, hq]
      simp [List.count_append]
  | debit c a =>
    obtain ⟨line, hl, hne⟩ :=
      printed_debitAccount a (MainProgram.askChoice (MainProgram.displayMenu w))
    refine ⟨?_, ?_⟩
    · show (printed (debitAccount a _).trace).count _ = _
      rw [hl, hp]
      simp [List.count_append, List.count_cons, List.count_singleton, hne.symm]
    · show (prompted (debitAccount a _).trace).count _ = _
      rw [prompted_debitAccount, hq]
      simp [List.count_append]
  | invalid c =>
    refine ⟨?_, ?_⟩
    · show (printed (consoleLog _ _).trace).count _ = _
      simp only [consoleLog, printed_append, hp, printed]
      simp [List.count_append, List.count_cons]
    · show (prompted (consoleLog _ _).trace).count _ = _
      simp only [consoleLog, prompted_append, hq, prompted]
      simp [List.count_append]

theorem playTurns_counts (turns : List Turn) : ∀ w : World,
    (printed (playTurns turns w).trace).count "Account Management System" =
        (printed w.trace).count "Account Management System" + turns.length ∧
      (prompted (playTurns turns w).trace).count "Enter your choice (1-4): " =
        (prompted w.trace).count "Enter your choice (1-4): " + turns.length := by
  induction turns with
  | nil => intro w; exact ⟨rfl, rfl⟩
  | cons t ts ih =>
    intro w
    obtain ⟨h1, h2⟩ := ih (t.play w)
    obtain ⟨g1, g2⟩ := turn_play_counts t w
    show (printed (playTurns ts (t.play w)).trace).count _ = _ ∧
      (prompted (playTurns ts (t.play w)).trace).count _ = _
    rw [h1, h2, g1, g2, List.length_cons]
    omega

theorem answeringLines_paced (lines : List String) :
    answeringLines (lines.map (fun line => [line])) = lines := by
  induction lines with
  | nil => rfl
  | cons l ls ih =>
    show l :: answeringLines (ls.map (fun line => [line])) = l :: ls
    rw [ih]

theorem run_of_answering (deliveries : List (List String)) (turns : List Turn)
    (exitChoice : String) (rest : List String) (w : World)
    (hturns : ∀ t ∈ turns, t.Selects)
    (hexit : (parseInt exitChoice).strictEq (JSNum.ofNat 4) = true)
    (hflag : w.continueFlag = "YES")
    (hlines : answeringLines deliveries = scriptLines turns ++ exitChoice :: rest) :
    MainProgram.run deliveries w = some (Outcome.returned rest (sessionEnd turns w)) := by
  unfold MainProgram.run
  rw [hlines]
  apply runLoop_script turns _ exitChoice rest w hturns hexit hflag
  have := scriptLines_length turns
  simp only [List.length_append, List.length_cons]
  omega

/-- C17 (as amended). Session loop: started with the flag `'YES'` on a script made of
turns that do not exit (each a choice line, followed by one amount line for a credit
or a debit), then a choice selecting exit, then any further lines, with the lines
delivered one at a time (more generally: with the script being the lines that arrive
while a question is pending), `run` returns; it has played the turns in order, each as
menu, choice prompt, operation, then shown the menu and read the exit choice, set the
flag to `'NO'` and printed the exit message as its last line; the further lines are
left unread; the balance is the one the operations of the turns give in order; the
menu title has been printed and the choice asked for once per choice read. -/
theorem run_session (turns : List Turn) (exitChoice : String) (rest : List String) (w : World)
    (hturns : ∀ t ∈ turns, t.Selects)
    (hexit : (parseInt exitChoice).strictEq (JSNum.ofNat 4) = true)
    (hflag : w.continueFlag = "YES") :
    MainProgram.run ((scriptLines turns ++ exitChoice :: rest).map (fun line => [line])) w =
        some (Outcome.returned rest (sessionEnd turns w)) ∧
      (∀ deliveries : List (List String),
        answeringLines deliveries = scriptLines turns ++ exitChoice :: rest →
        MainProgram.run deliveries w = some (Outcome.returned rest (sessionEnd turns w))) ∧
      sessionEnd turns w =
        consoleLog "Exiting the program. Goodbye!"
          { MainProgram.askChoice (MainProgram.displayMenu (playTurns turns w)) with
            continueFlag := "NO" } ∧
      (sessionEnd turns w).storageBalance = (runCalls (scriptCalls turns) w).storageBalance ∧
      (printed (sessionEnd turns w).trace).getLast? = some "Exiting the program. Goodbye!" ∧
      (printed (sessionEnd turns w).trace).count "Account Management System" =
        (printed w.trace).count "Account Management System" + (turns.length + 1) ∧
      (prompted (sessionEnd turns w).trace).count "Enter your choice (1-4): " =
        (prompted w.trace).count "Enter your choice (1-4): " + (turns.length + 1) := by
  obtain ⟨c1, c2⟩ := playTurns_counts turns w
  have hp := printed_askChoice_displayMenu (playTurns turns w)
  have hq := prompted_askChoice_displayMenu (playTurns turns w)
  refine ⟨?_, ?_, rfl, ?_, ?_, ?_, ?_⟩
  · exact run_of_answering _ turns exitChoice rest w hturns hexit hflag
      (answeringLines_paced _)
  · intro deliveries hlines
    exact run_of_answering deliveries turns exitChoice rest w hturns hexit hflag hlines
  · show (MainProgram.askChoice (MainProgram.displayMenu (playTurns turns w))).storageBalance = _
    rw [askChoice_displayMenu_storageBalance]
    exact playTurns_storageBalance turns w w rfl
  · show (printed ((MainProgram.askChoice (MainProgram.displayMenu (playTurns turns w))).trace
      ++ [Event.log "Exiting the program. Goodbye!"])).getLast? = _
    rw [printed_append]
    simp [printed]
  · show (printed ((MainProgram.askChoice (MainProgram.displayMenu (playTurns turns w))).trace
      ++ [Event.log "Exiting the program. Goodbye!"])).count _ = _
    rw [printed_append, hp]
    simp only [printed, List.count_append, c1]
    simp [List.count_cons]
    omega
  · show (prompted ((MainProgram.askChoice (MainProgram.displayMenu (playTurns turns w))).trace
      ++ [Event.log "Exiting the program. Goodbye!"])).count _ = _
    rw [prompted_append, hq]
    simp only [prompted, List.count_append, c2]
    simp [List.count_cons]
    omega

/-- C17, witness: the script `1`, `2`, `50.00`, `9`, `4`, `extra`, delivered one line
at a time to a fresh program, views, credits `50.00`, rejects the choice `9` and
exits, leaving `extra` unread and the balance `1050.00`. -/
theorem run_session_witness :
    MainProgram.run [["1"], ["2"], ["50.00"], ["9"], ["4"], ["extra"]] World.fresh =
        some (Outcome.returned ["extra"]
          (sessionEnd [Turn.view "1", Turn.credit "2" "50.00", Turn.invalid "9"] World.fresh)) ∧
      (sessionEnd [Turn.view "1", Turn.credit "2" "50.00", Turn.invalid "9"]
        World.fresh).storageBalance = JSNum.ofNat 1050 ∧
      (printed (sessionEnd [Turn.view "1", Turn.credit "2" "50.00", Turn.invalid "9"]
        World.fresh).trace).getLast? = some "Exiting the program. Goodbye!" ∧
      (printed (sessionEnd [Turn.view "1", Turn.credit "2" "50.00", Turn.invalid "9"]
        World.fresh).trace).count "Account Management System" = 4 :=
  have h := run_session [Turn.view "1", Turn.credit "2" "50.00", Turn.invalid "9"] "4" ["extra"]
    World.fresh
    (by
      intro t ht
      simp only [List.mem_cons, List.mem_singleton, List.not_mem_nil, or_false] at ht
      rcases ht with rfl | rfl | rfl
      · exact (by decide : (parseInt "1").strictEq (JSNum.ofNat 1) = true)
      · exact (by decide : (parseInt "2").strictEq (JSNum.ofNat 2) = true)
      · exact (by decide :
          (parseInt "9").strictEq (JSNum.ofNat 1) = false ∧
          (parseInt "9").strictEq (JSNum.ofNat 2) = false ∧
          (parseInt "9").strictEq (JSNum.ofNat 3) = false ∧
          (parseInt "9").strictEq (JSNum.ofNat 4) = false))
    (by decide) rfl
  ⟨h.1, h.2.2.2.1.trans (by decide), h.2.2.2.2.1, h.2.2.2.2.2.1⟩

/-- C17, counterexample to the claim as stated: with the script `1`, `4` sent in one
delivery, `1` answers the choice prompt and `4` finds no question pending and is
lost; the program shows the balance, shows the menu again and waits at the choice
prompt: the exit message is never printed.  With the script `2`, `50.00`, `4` sent
in one delivery the program waits at the amount prompt with the balance still
`1000.00`. -/
theorem run_script_in_one_delivery :
    MainProgram.run [["1", "4"]] World.fresh =
      some (Outcome.waiting (MainProgram.askChoice (MainProgram.displayMenu
        (viewBalance (MainProgram.askChoice (MainProgram.displayMenu World.fresh)))))) ∧
    (MainProgram.run [["1", "4"]] World.fresh).map (fun o => printed o.world.trace) =
      some ["--------------------------------", "Account Management System", "1. View Balance",
        "2. Credit Account", "3. Debit Account", "4. Exit", "--------------------------------",
        "Current balance: 1000.00",
        "--------------------------------", "Account Management System", "1. View Balance",
        "2. Credit Account", "3. Debit Account", "4. Exit",
        "--------------------------------"] ∧
    (MainProgram.run [["1", "4"]] World.fresh).map (fun o => o.world.continueFlag) =
      some "YES" ∧
    (MainProgram.run [["2", "50.00", "4"]] World.fresh).map
        (fun o => (o.world.storageBalance, prompted o.world.trace)) =
      some (JSNum.ofNat 1000, ["Enter your choice (1-4): ", "Enter credit amount: "]) ∧
    (MainProgram.run [["2", "50.00", "4"]] World.fresh).map (fun o => printed o.world.trace) =
      some ["--------------------------------", "Account Management System", "1. View Balance",
        "2. Credit Account", "3. Debit Account", "4. Exit",
        "--------------------------------"] := by
  decide

/-! ## More rounding lemmas -/

/-- The spacing exponent is determined by the binade. -/
theorem quantumExp_unique (x k : Nat) (hx : x < 2 ^ 4096) (h1 : x < 2 ^ (53 + k))
    (h2 : k = 0 ∨ 2 ^ (52 + k) ≤ x) : quantumExp x = k := by
  obtain ⟨s1, s2⟩ := quantumExp_spec x hx
  by_contra hne
  rcases Nat.lt_or_gt_of_ne hne with hlt | hgt
  · -- quantumExp x < k
    rcases h2 with h0 | hge
    · omega
    · have : 2 ^ (53 + quantumExp x) ≤ 2 ^ (52 + k) :=
        Nat.pow_le_pow_right (by norm_num) (by omega)
      omega
  · rcases s2 with h0 | hge
    · omega
    · have : 2 ^ (53 + k) ≤ 2 ^ (52 + quantumExp x) :=
        Nat.pow_le_pow_right (by norm_num) (by omega)
      omega

theorem roundHalfEven_mul (c q : Nat) (hq : 0 < q) : roundHalfEven (c * q) q = c := by
  unfold roundHalfEven
  simp [Nat.mul_mod_left, hq, Nat.mul_div_cancel _ hq]

/-- A binary64 value rounds to itself. -/
theorem roundUnits_exact (n : Nat) (h : Representable n) : roundUnits n 1 = some n := by
  obtain ⟨hlt, c, hc⟩ := h
  have hpos : 0 < 2 ^ quantumExp n := Nat.pow_pos (by norm_num)
  have hr : roundHalfEven n (1 * 2 ^ quantumExp n) * 2 ^ quantumExp n = n := by
    rw [Nat.one_mul]
    conv_lhs => rw [show roundHalfEven n (2 ^ quantumExp n)
      = roundHalfEven (c * 2 ^ quantumExp n) (2 ^ quantumExp n) by
        congr 1; rw [Nat.mul_comm]; exact hc]
    rw [roundHalfEven_mul c _ hpos, Nat.mul_comm]
    exact hc.symm
  unfold roundUnits
  simp only [Nat.div_one]
  rw [if_neg (by omega), hr, if_neg (by omega)]

/-- The result of rounding is a binary64 value. -/
theorem roundUnits_representable (p q r : Nat) (h : roundUnits p q = some r) :
    Representable r := by
  obtain ⟨hlt, hrlt, hr⟩ := roundUnits_some p q r h
  refine ⟨hrlt, ?_⟩
  have hx4 : p / q < 2 ^ 4096 := lt_trans hlt overflowBound_lt
  obtain ⟨s1, s2⟩ := quantumExp_spec (p / q) hx4
  have hge := roundUnits_ge_pow p q r h
  have hpos : 0 < 2 ^ quantumExp (p / q) := Nat.pow_pos (by norm_num)
  have hdd : p / (q * 2 ^ quantumExp (p / q)) < 2 ^ 53 := by
    rw [← Nat.div_div_eq_div_mul, Nat.div_lt_iff_lt_mul hpos, ← pow_add]
    exact s1
  have hm : roundHalfEven p (q * 2 ^ quantumExp (p / q)) ≤ 2 ^ 53 := by
    have := roundHalfEven_le_succ p (q * 2 ^ quantumExp (p / q))
    omega
  have hrle : r ≤ 2 ^ (53 + quantumExp (p / q)) := by
    rw [hr, pow_add]
    exact Nat.mul_le_mul_right _ hm
  rcases Nat.eq_or_lt_of_le hrle with heq | hlt2
  · -- rounded up to the next power of two
    have hq : quantumExp r = quantumExp (p / q) + 1 := by
      apply quantumExp_unique r _ (lt_trans hrlt overflowBound_lt)
      · rw [heq]; exact Nat.pow_lt_pow_right (by norm_num) (by omega)
      · right; rw [heq]; exact Nat.pow_le_pow_right (by norm_num) (by omega)
    rw [hq, heq]
    exact Nat.pow_dvd_pow 2 (by omega)
  · have hq : quantumExp r = quantumExp (p / q) :=
      quantumExp_unique r _ (lt_trans hrlt overflowBound_lt) hlt2 hge
    rw [hq, hr]
    exact Nat.dvd_mul_left _ _

/-- Rounding never moves a value below a binary64 value under it. -/
theorem roundUnits_ge_double (x y r : Nat) (hyx : y ≤ x) (hy : Representable y)
    (h : roundUnits x 1 = some r) : y ≤ r := by
  obtain ⟨hlt, _, hr⟩ := roundUnits_some x 1 r h
  rw [Nat.div_one] at hlt hr
  have hx4 : x < 2 ^ 4096 := lt_trans hlt overflowBound_lt
  have hmono := quantumExp_mono y x hyx hx4
  obtain ⟨sy1, _⟩ := quantumExp_spec y (by omega)
  have hge := roundUnits_ge_pow x 1 r h
  rw [Nat.div_one] at hge
  rcases Nat.eq_or_lt_of_le hmono with heq | hlt2
  · obtain ⟨c, hc⟩ := hy.2
    have hpos : 0 < 2 ^ quantumExp x := Nat.pow_pos (by norm_num)
    have h1 : c ≤ x / 2 ^ quantumExp x := by
      rw [Nat.le_div_iff_mul_le hpos, ← heq, Nat.mul_comm]
      omega
    have h2 : c ≤ roundHalfEven x (1 * 2 ^ quantumExp x) := by
      rw [Nat.one_mul]
      exact le_trans h1 (roundHalfEven_ge_div _ _)
    calc y = c * 2 ^ quantumExp x := by rw [← heq, Nat.mul_comm]; exact hc
      _ ≤ roundHalfEven x (1 * 2 ^ quantumExp x) * 2 ^ quantumExp x :=
        Nat.mul_le_mul_right _ h2
      _ = r := hr.symm
  · rcases hge with h0 | hge
    · omega
    · have : 2 ^ (53 + quantumExp y) ≤ 2 ^ (52 + quantumExp x) :=
        Nat.pow_le_pow_right (by norm_num) (by omega)
      omega

theorem roundHalfEven_tie_down (p q c : Nat) (hq : 0 < q) (h1 : c * q ≤ p)
    (h2 : 2 * (p - c * q) ≤ q) (hc : c % 2 = 0) : roundHalfEven p q = c := by
  have hlt : p - c * q < q := by omega
  have hp : p = q * c + (p - c * q) := by rw [Nat.mul_comm q c]; omega
  have hdiv : p / q = c := by
    rw [hp, Nat.mul_add_div hq, Nat.div_eq_of_lt hlt, Nat.add_zero]
  have hmod : p % q = p - c * q := by
    rw [hp, Nat.mul_add_mod, Nat.mod_eq_of_lt hlt]
    omega
  unfold roundHalfEven
  rw [hdiv, hmod]
  split_ifs <;> omega

theorem maxUnits_mantissa : maxUnits = 8589934506100654 * 2 ^ 1041 ∧
    2 ^ 1093 ≤ maxUnits ∧ maxUnits + 2 ^ 1040 < 2 ^ 1094 ∧ overflowBound = 2 ^ 2098 := by decide

/-- Half a spacing above the literal `999999.99` still rounds to it (its last bit
is even). -/
theorem roundUnits_near_max (y : Nat) (h : 2 * y ≤ 2 * maxUnits + 2 ^ 1041) :
    ∃ r, roundUnits y 1 = some r ∧ r ≤ maxUnits := by
  rcases le_or_lt y maxUnits with hle | hgt
  · exact roundUnits_le_double y maxUnits hle maxUnits_facts.1 maxUnits_facts.2.1
  · obtain ⟨m1, m2, m3, m4⟩ := maxUnits_mantissa
    have hp : (2 : Nat) ^ 1041 = 2 * 2 ^ 1040 := by rw [← pow_succ']
    have hy : y < 2 ^ (53 + 1041) := by
      show y < 2 ^ 1094
      omega
    have hq : quantumExp y = 1041 :=
      quantumExp_unique y 1041 (lt_trans hy (by norm_num)) hy
        (Or.inr (by show 2 ^ 1093 ≤ y; omega))
    have hr : roundHalfEven y (1 * 2 ^ 1041) = 8589934506100654 := by
      rw [Nat.one_mul]
      apply roundHalfEven_tie_down _ _ _ (Nat.pow_pos (by norm_num))
      · rw [← m1]; omega
      · rw [← m1]; omega
      · rfl
    refine ⟨maxUnits, ?_, le_refl _⟩
    unfold roundUnits
    simp only [Nat.div_one]
    have hlt : ¬ overflowBound ≤ y := by
      have : (2 : Nat) ^ 1094 ≤ 2 ^ 2098 := Nat.pow_le_pow_right (by norm_num) (by norm_num)
      omega
    rw [if_neg hlt, hq, hr, ← m1, if_neg (by have := maxUnits_facts.1; omega)]

/-! ## Zero amounts (C18) -/

theorem gt_maxBalance_of_le (n : Nat) (h : n ≤ maxUnits) :
    (fin (n : Int)).gt maxBalance = false := by
  rw [maxBalance_eq]
  simp only [JSNum.gt, JSNum.lt, decide_eq_false_iff_not, Nat.cast_lt, not_lt]
  exact h

theorem add_zero_representable (n : Nat) (h : Representable n) :
    (fin (n : Int)).add JSNum.zero = fin (n : Int) := by
  show (fin (n : Int)).add (fin ((0 : Nat) : Int)) = _
  rw [add_fin_nat, Nat.add_zero, roundUnits_exact n h, ofRounded_false_some]

theorem sub_zero_representable (n : Nat) (h : Representable n) :
    (fin (n : Int)).sub JSNum.zero = fin (n : Int) := by
  show (fin (n : Int)).sub (fin ((0 : Nat) : Int)) = _
  rw [sub_fin_nat n 0 (Nat.zero_le _), Nat.sub_zero, roundUnits_exact n h, ofRounded_false_some]

theorem ge_zero_nat (n : Nat) : (fin (n : Int)).ge JSNum.zero = true := by
  simp [JSNum.ge, JSNum.zero, JSNum.lt]

/-- C18. Zero amount is accepted: when the stored balance is a binary64 value between
`0` and `999999.99` and the input is accepted with the amount `0`, `creditAccount` and
`debitAccount` are carried out: each prompts, reads, writes the balance it found and
prints its confirmation line with that balance, and the stored balance is what it
was. -/
theorem zero_amount_accepted (w : World) (input : String) (n : Nat)
    (hb : w.storageBalance = fin (n : Int)) (hn : n ≤ maxUnits) (hrep : Representable n)
    (ha : acceptedAmount input = some JSNum.zero) :
    creditAccount input w =
        { w with trace := w.trace ++ [Event.question "Enter credit amount: ", Event.read,
            Event.write w.storageBalance,
            Event.log ("Amount credited. New balance: " ++ formatBalance w.storageBalance)] } ∧
      debitAccount input w =
        { w with trace := w.trace ++ [Event.question "Enter debit amount: ", Event.read,
            Event.write w.storageBalance,
            Event.log ("Amount debited. New balance: " ++ formatBalance w.storageBalance)] } ∧
      (creditAccount input w).storageBalance = w.storageBalance ∧
      (debitAccount input w).storageBalance = w.storageBalance := by
  have hadd : w.storageBalance.add JSNum.zero = w.storageBalance := by
    rw [hb]; exact add_zero_representable n hrep
  have hsub : w.storageBalance.sub JSNum.zero = w.storageBalance := by
    rw [hb]; exact sub_zero_representable n hrep
  have hgt : w.storageBalance.gt maxBalance = false := by
    rw [hb]; exact gt_maxBalance_of_le n hn
  have hge : w.storageBalance.ge JSNum.zero = true := by
    rw [hb]; exact ge_zero_nat n
  have hc : creditAccount input w =
      { w with trace := w.trace ++ [Event.question "Enter credit amount: ", Event.read,
          Event.write w.storageBalance,
          Event.log ("Amount credited. New balance: " ++ formatBalance w.storageBalance)] } := by
    rw [creditAccount_eq, ha]
    simp only [hadd, hgt, Bool.false_eq_true, if_false]
  have hd : debitAccount input w =
      { w with trace := w.trace ++ [Event.question "Enter debit amount: ", Event.read,
          Event.write w.storageBalance,
          Event.log ("Amount debited. New balance: " ++ formatBalance w.storageBalance)] } := by
    rw [debitAccount_eq, ha]
    simp only [hge, if_true, hsub]
  exact ⟨hc, hd, by rw [hc], by rw [hd]⟩

/-- C18, witness: on the fresh balance `1000.00` the inputs `"0.00"` and `"0.004"` are
accepted with amount `0`; the credit prints "Amount credited. New balance: 1000.00"
and the balance stays `1000.00`. -/
theorem zero_amount_accepted_witness :
    acceptedAmount "0.00" = some JSNum.zero ∧ acceptedAmount "0.004" = some JSNum.zero ∧
      printed (creditAccount "0.00" World.fresh).trace =
        ["Amount credited. New balance: 1000.00"] ∧
      (creditAccount "0.00" World.fresh).storageBalance = JSNum.ofNat 1000 ∧
      printed (debitAccount "0.004" World.fresh).trace =
        ["Amount debited. New balance: 1000.00"] ∧
      (debitAccount "0.004" World.fresh).storageBalance = JSNum.ofNat 1000 :=
  ⟨by decide, by decide,
    (congrArg (fun u : World => printed u.trace)
      (zero_amount_accepted World.fresh "0.00" (1000 * scale) (by decide) (by decide)
        (by decide : 1000 * scale < overflowBound ∧
          2 ^ quantumExp (1000 * scale) ∣ 1000 * scale) (by decide)).1).trans (by decide),
    (zero_amount_accepted World.fresh "0.00" (1000 * scale) (by decide) (by decide)
      (by decide : 1000 * scale < overflowBound ∧
        2 ^ quantumExp (1000 * scale) ∣ 1000 * scale) (by decide)).2.2.1,
    (congrArg (fun u : World => printed u.trace)
      (zero_amount_accepted World.fresh "0.004" (1000 * scale) (by decide) (by decide)
        (by decide : 1000 * scale < overflowBound ∧
          2 ^ quantumExp (1000 * scale) ∣ 1000 * scale) (by decide)).2.1).trans (by decide),
    (zero_amount_accepted World.fresh "0.004" (1000 * scale) (by decide) (by decide)
      (by decide : 1000 * scale < overflowBound ∧
        2 ^ quantumExp (1000 * scale) ∣ 1000 * scale) (by decide)).2.2.2⟩

/-! ## Net effect of a sequence (C11) -/

theorem accepted_credit (input : String) (w : World) :
    (Call.credit input).accepted w =
      match acceptedAmount input with
      | none => none
      | some a => if (w.storageBalance.add a).gt maxBalance then none else some a := rfl

theorem accepted_debit (input : String) (w : World) :
    (Call.debit input).accepted w =
      match acceptedAmount input with
      | none => none
      | some a => if w.storageBalance.ge a then some a else none := rfl

theorem delta_credit (input : String) (w : World) :
    (Call.credit input).delta w =
      match (Call.credit input).accepted w with
      | some (JSNum.fin m) => m
      | _ => 0 := rfl

theorem delta_debit (input : String) (w : World) :
    (Call.debit input).delta w =
      match (Call.debit input).accepted w with
      | some (JSNum.fin m) => -m
      | _ => 0 := rfl

/-- A rejected request, and a view, leave the stored balance as it was. -/
theorem apply_not_accepted (c : Call) (w : World) (h : c.accepted w = none) :
    (c.apply w).storageBalance = w.storageBalance := by
  cases c with
  | view => exact viewBalance_storageBalance w
  | credit input =>
    show (creditAccount input w).storageBalance = _
    rw [creditAccount_storageBalance]
    rw [accepted_credit] at h
    cases ha : acceptedAmount input with
    | none => rfl
    | some a =>
      rw [ha] at h
      simp only at h ⊢
      split_ifs at h ⊢
      rfl
  | debit input =>
    show (debitAccount input w).storageBalance = _
    rw [debitAccount_storageBalance]
    rw [accepted_debit] at h
    cases ha : acceptedAmount input with
    | none => rfl
    | some a =>
      rw [ha] at h
      simp only at h ⊢
      split_ifs at h ⊢
      rfl

theorem delta_not_accepted (c : Call) (w : World) (h : c.accepted w = none) : c.delta w = 0 := by
  cases c with
  | view => rfl
  | credit input => rw [delta_credit, h]
  | debit input => rw [delta_debit, h]

/-- One call moves an in-range balance by the exact change it asks for, up to one
rounding. -/
theorem apply_step (c : Call) (w : World) (n : Nat) (hb : w.storageBalance = fin (n : Int))
    (hn : n ≤ maxUnits) :
    ∃ r : Nat, (c.apply w).storageBalance = fin (r : Int) ∧ r ≤ maxUnits ∧
      2 * (r : Int) ≤ 2 * ((n : Int) + c.delta w) + 2 ^ 1041 ∧
      2 * ((n : Int) + c.delta w) ≤ 2 * (r : Int) + 2 ^ 1041 := by
  cases hacc : c.accepted w with
  | none =>
    refine ⟨n, by rw [apply_not_accepted c w hacc, hb], hn, ?_, ?_⟩ <;>
      rw [delta_not_accepted c w hacc] <;> omega
  | some a =>
    cases c with
    | view => exact absurd hacc (by simp [Call.accepted])
    | credit input =>
      rw [accepted_credit] at hacc
      cases ha : acceptedAmount input with
      | none => rw [ha] at hacc; exact absurd hacc (by simp)
      | some a2 =>
        rw [ha] at hacc
        simp only at hacc
        split_ifs at hacc with hgt
        have haa : a2 = a := Option.some.inj hacc
        subst haa
        rw [hb] at hgt
        rcases acceptedAmount_shape input a2 ha with rfl | ⟨k, m, rfl, _⟩
        · exact absurd (by simpa [JSNum.add] using gt_inf_maxBalance) hgt
        · obtain ⟨r, _, heq, hr, e1, e2⟩ :=
            creditAccount_sum w input n m hb ha (by simpa using hgt)
          have hd : (Call.credit input).delta w = (m : Int) := by
            rw [delta_credit, accepted_credit, ha]
            simp only [hb, hgt, Bool.false_eq_true, if_false]
          refine ⟨r, ?_, hr, ?_, ?_⟩
          · show (creditAccount input w).storageBalance = _
            rw [heq]
          · rw [hd]; omega
          · rw [hd]; omega
    | debit input =>
      rw [accepted_debit] at hacc
      cases ha : acceptedAmount input with
      | none => rw [ha] at hacc; exact absurd hacc (by simp)
      | some a2 =>
        rw [ha] at hacc
        simp only at hacc
        split_ifs at hacc with hge
        have haa : a2 = a := Option.some.inj hacc
        subst haa
        rw [hb] at hge
        rcases acceptedAmount_shape input a2 ha with rfl | ⟨k, m, rfl, _⟩
        · simp [JSNum.ge, JSNum.lt] at hge
        · obtain ⟨r, hmn, _, heq, hr, e1, e2⟩ :=
            debitAccount_difference w input n m hb hn ha hge
          have hd : (Call.debit input).delta w = -(m : Int) := by
            rw [delta_debit, accepted_debit, ha]
            simp only [hb, hge, if_true]
          refine ⟨r, ?_, hr, ?_, ?_⟩
          · show (debitAccount input w).storageBalance = _
            rw [heq]
          · rw [hd]; omega
          · rw [hd]; omega

theorem runCalls_net (calls : List Call) : ∀ (w : World) (n : Nat),
    w.storageBalance = fin (n : Int) → n ≤ maxUnits →
    ∃ r : Nat, (runCalls calls w).storageBalance = fin (r : Int) ∧ r ≤ maxUnits ∧
      2 * (r : Int) ≤ 2 * ((n : Int) + netUnits calls w) + (calls.length : Int) * 2 ^ 1041 ∧
      2 * ((n : Int) + netUnits calls w) ≤ 2 * (r : Int) + (calls.length : Int) * 2 ^ 1041 := by
  induction calls with
  | nil =>
    intro w n hb hn
    exact ⟨n, hb, hn, by simp [netUnits], by simp [netUnits]⟩
  | cons c cs ih =>
    intro w n hb hn
    obtain ⟨r1, h1, hr1, a1, a2⟩ := apply_step c w n hb hn
    obtain ⟨r, h2, hr, b1, b2⟩ := ih (c.apply w) r1 h1 hr1
    refine ⟨r, h2, hr, ?_, ?_⟩
    · show 2 * (r : Int) ≤ 2 * ((n : Int) + (c.delta w + netUnits cs (c.apply w)))
        + ((cs.length + 1 : Nat) : Int) * 2 ^ 1041
      push_cast
      omega
    · show 2 * ((n : Int) + (c.delta w + netUnits cs (c.apply w)))
        ≤ 2 * (r : Int) + ((cs.length + 1 : Nat) : Int) * 2 ^ 1041
      push_cast
      omega

/-- C11 (as amended). Net effect of a sequence: started at a finite balance of `n`
units between `0` and `999999.99`, a sequence of `t` calls ends at a finite balance `r`
within `t * 2^-34` of the exact value `n` plus the accepted credits minus the accepted
debits (`netUnits`); a request that is not accepted leaves the stored balance as it was
and counts for nothing in that sum. -/
theorem net_effect (calls : List Call) (w : World) (n : Nat)
    (hb : w.storageBalance = fin (n : Int)) (hn : n ≤ maxUnits) :
    (∃ r : Nat, (runCalls calls w).storageBalance = fin (r : Int) ∧ r ≤ maxUnits ∧
      2 * (r : Int) ≤ 2 * ((n : Int) + netUnits calls w) + (calls.length : Int) * 2 ^ 1041 ∧
      2 * ((n : Int) + netUnits calls w) ≤ 2 * (r : Int) + (calls.length : Int) * 2 ^ 1041) ∧
    (∀ (c : Call) (v : World), c.accepted v = none →
      (c.apply v).storageBalance = v.storageBalance ∧ c.delta v = 0) :=
  ⟨runCalls_net calls w n hb hn,
    fun c v h => ⟨apply_not_accepted c v h, delta_not_accepted c v h⟩⟩

/-- C11, witnesses of the claim: from `1000.00`, credit `100.00`, debit `200.00`, credit
`300.00` gives exactly `1200.00`, the exact net sum; debit `2000.00` (rejected), credit
`500.00`, debit `1200.00` gives exactly `300.00`. -/
theorem net_effect_witness :
    (runCalls [Call.credit "100.00", Call.debit "200.00", Call.credit "300.00"]
        World.fresh).storageBalance = JSNum.ofNat 1200 ∧
    (runCalls [Call.debit "2000.00", Call.credit "500.00", Call.debit "1200.00"]
        World.fresh).storageBalance = JSNum.ofNat 300 ∧
    (Call.debit "2000.00").accepted World.fresh = none ∧
    ((1000 * scale : Nat) : Int) + netUnits
        [Call.credit "100.00", Call.debit "200.00", Call.credit "300.00"] World.fresh
      = ((1200 * scale : Nat) : Int) ∧
    (∃ r : Nat, (runCalls [Call.credit "100.00", Call.debit "200.00", Call.credit "300.00"]
        World.fresh).storageBalance = fin (r : Int) ∧ r ≤ maxUnits ∧
      2 * (r : Int) ≤ 2 * (((1000 * scale : Nat) : Int) + netUnits
        [Call.credit "100.00", Call.debit "200.00", Call.credit "300.00"] World.fresh)
          + (([Call.credit "100.00", Call.debit "200.00",
              Call.credit "300.00"].length : Nat) : Int) * 2 ^ 1041 ∧
      2 * (((1000 * scale : Nat) : Int) + netUnits
        [Call.credit "100.00", Call.debit "200.00", Call.credit "300.00"] World.fresh)
          ≤ 2 * (r : Int) + (([Call.credit "100.00", Call.debit "200.00",
              Call.credit "300.00"].length : Nat) : Int) * 2 ^ 1041) :=
  ⟨by decide, by decide, by decide, by decide,
    (net_effect [Call.credit "100.00", Call.debit "200.00", Call.credit "300.00"] World.fresh
      (1000 * scale) (by decide) (by decide)).1⟩

/-- C11, counterexample to the claim as stated: from `1000.00` the credits `"0.1"` and
`"0.2"` are both accepted, and the final balance `1000.3000000000001` is neither the
exact sum of the balance and the two amounts, nor the Number `1000 + (0.1 + 0.2)`,
nor the Number `1000.3`. -/
theorem net_effect_not_exact :
    (Call.credit "0.1").accepted World.fresh = some (parseFloat "0.1") ∧
    (Call.credit "0.2").accepted ((Call.credit "0.1").apply World.fresh) =
      some (parseFloat "0.2") ∧
    (runCalls [Call.credit "0.1", Call.credit "0.2"] World.fresh).storageBalance ≠
      fin (((1000 * scale : Nat) : Int)
        + netUnits [Call.credit "0.1", Call.credit "0.2"] World.fresh) ∧
    (runCalls [Call.credit "0.1", Call.credit "0.2"] World.fresh).storageBalance ≠
      (JSNum.ofNat 1000).add ((parseFloat "0.1").add (parseFloat "0.2")) ∧
    (runCalls [Call.credit "0.1", Call.credit "0.2"] World.fresh).storageBalance ≠
      parseFloat "1000.3" := by
  decide

/-! ## Credit and debit of the same amount (C19) -/

theorem add_fin_eq_some (n m r : Nat) (h : (fin (n : Int)).add (fin (m : Int)) = fin (r : Int)) :
    roundUnits (n + m) 1 = some r := by
  rw [add_fin_nat] at h
  cases hr : roundUnits (n + m) 1 with
  | none => rw [hr, ofRounded_false_none] at h; exact absurd h (by simp)
  | some x =>
    rw [hr, ofRounded_false_some] at h
    have := JSNum.fin.inj h
    congr 1
    omega

theorem acceptedAmount_representable (input : String) (m : Nat)
    (ha : acceptedAmount input = some (fin (m : Int))) : Representable m := by
  rcases acceptedAmount_shape input _ ha with h | ⟨k, m2, h, hr⟩
  · exact absurd h (by simp)
  · have hmm : m2 = m := by
      have := JSNum.fin.inj h
      omega
    subst hmm
    exact roundUnits_representable _ _ _ hr

theorem ge_fin_nat (a b : Nat) (h : b ≤ a) : (fin (a : Int)).ge (fin (b : Int)) = true := by
  simp only [JSNum.ge, JSNum.lt, Bool.not_eq_true', decide_eq_false_iff_not, Nat.cast_lt, not_lt]
  exact h

/-- A successful credit followed by a debit of the same input: the debit is carried
out and the balance comes back to within `2^1041` units of where it was. -/
theorem credit_then_debit (w : World) (input : String) (n m : Nat)
    (hb : w.storageBalance = fin (n : Int))
    (ha : acceptedAmount input = some (fin (m : Int)))
    (hok : ((fin (n : Int)).add (fin (m : Int))).gt maxBalance = false) :
    ∃ r1 r2 : Nat, (creditAccount input w).storageBalance = fin (r1 : Int) ∧
      (fin (r1 : Int)).ge (fin (m : Int)) = true ∧
      (debitAccount input (creditAccount input w)).storageBalance = fin (r2 : Int) ∧
      printed (debitAccount input (creditAccount input w)).trace =
        printed (creditAccount input w).trace ++
          ["Amount debited. New balance: " ++ formatBalance (fin (r2 : Int))] ∧
      r2 ≤ n + 2 ^ 1041 ∧ n ≤ r2 + 2 ^ 1041 := by
  obtain ⟨r1, hadd, heq1, hr1, a1, a2⟩ := creditAccount_sum w input n m hb ha hok
  have hround := add_fin_eq_some n m r1 hadd
  have hm : m ≤ r1 :=
    roundUnits_ge_double (n + m) m r1 (by omega) (acceptedAmount_representable input m ha) hround
  have hb1 : (creditAccount input w).storageBalance = fin (r1 : Int) := by rw [heq1]
  have hge := ge_fin_nat r1 m hm
  obtain ⟨r2, _, _, heq2, _, b1, b2⟩ :=
    debitAccount_difference (creditAccount input w) input r1 m hb1 hr1 ha hge
  have hp : (2 : Nat) ^ 1041 + 2 ^ 1041 = 2 * 2 ^ 1041 := by ring
  refine ⟨r1, r2, hb1, hge, by rw [heq2], ?_, by omega, by omega⟩
  rw [heq2]
  simp [printed_append, printed]

/-- A successful debit followed by a credit of the same input: the credit passes the
limit check and the balance comes back to within `2^1041` units of where it was. -/
theorem debit_then_credit (w : World) (input : String) (n m : Nat)
    (hb : w.storageBalance = fin (n : Int)) (hn : n ≤ maxUnits)
    (ha : acceptedAmount input = some (fin (m : Int)))
    (hge : (fin (n : Int)).ge (fin (m : Int)) = true) :
    ∃ r1 r2 : Nat, (debitAccount input w).storageBalance = fin (r1 : Int) ∧
      ((fin (r1 : Int)).add (fin (m : Int))).gt maxBalance = false ∧
      (creditAccount input (debitAccount input w)).storageBalance = fin (r2 : Int) ∧
      printed (creditAccount input (debitAccount input w)).trace =
        printed (debitAccount input w).trace ++
          ["Amount credited. New balance: " ++ formatBalance (fin (r2 : Int))] ∧
      r2 ≤ n + 2 ^ 1041 ∧ n ≤ r2 + 2 ^ 1041 := by
  obtain ⟨r1, hmn, _, heq1, hr1, a1, a2⟩ := debitAccount_difference w input n m hb hn ha hge
  have hb1 : (debitAccount input w).storageBalance = fin (r1 : Int) := by rw [heq1]
  obtain ⟨x, hx, hxle⟩ := roundUnits_near_max (r1 + m) (by omega)
  have hok : ((fin (r1 : Int)).add (fin (m : Int))).gt maxBalance = false := by
    rw [add_fin_nat, hx, ofRounded_false_some]
    exact gt_maxBalance_of_le x hxle
  obtain ⟨r2, _, heq2, _, b1, b2⟩ :=
    creditAccount_sum (debitAccount input w) input r1 m hb1 ha hok
  refine ⟨r1, r2, hb1, hok, by rw [heq2], ?_, by omega, by omega⟩
  rw [heq2]
  simp [printed_append, printed]

/-- C19 (as amended). Credit and debit cancel up to rounding: for a stored balance of
`n` units between `0` and `999999.99` and an input accepted as the finite amount `m`,
if the credit passes the limit check then a debit of the same input after it is
carried out, never rejected, and brings the balance back to within `2^-33` of `n`;
and if the debit is covered by the balance then a credit of the same input after it
passes the limit check and brings the balance back to within `2^-33` of `n`. -/
theorem credit_debit_cancel (w : World) (input : String) (n m : Nat)
    (hb : w.storageBalance = fin (n : Int)) (hn : n ≤ maxUnits)
    (ha : acceptedAmount input = some (fin (m : Int))) :
    (((fin (n : Int)).add (fin (m : Int))).gt maxBalance = false →
      ∃ r1 r2 : Nat, (creditAccount input w).storageBalance = fin (r1 : Int) ∧
        (fin (r1 : Int)).ge (fin (m : Int)) = true ∧
        (debitAccount input (creditAccount input w)).storageBalance = fin (r2 : Int) ∧
        printed (debitAccount input (creditAccount input w)).trace =
          printed (creditAccount input w).trace ++
            ["Amount debited. New balance: " ++ formatBalance (fin (r2 : Int))] ∧
        r2 ≤ n + 2 ^ 1041 ∧ n ≤ r2 + 2 ^ 1041) ∧
    ((fin (n : Int)).ge (fin (m : Int)) = true →
      ∃ r1 r2 : Nat, (debitAccount input w).storageBalance = fin (r1 : Int) ∧
        ((fin (r1 : Int)).add (fin (m : Int))).gt maxBalance = false ∧
        (creditAccount input (debitAccount input w)).storageBalance = fin (r2 : Int) ∧
        printed (creditAccount input (debitAccount input w)).trace =
          printed (debitAccount input w).trace ++
            ["Amount credited. New balance: " ++ formatBalance (fin (r2 : Int))] ∧
        r2 ≤ n + 2 ^ 1041 ∧ n ≤ r2 + 2 ^ 1041) :=
  ⟨credit_then_debit w input n m hb ha, debit_then_credit w input n m hb hn ha⟩

theorem credit_debit_cancel_witness :
    (((fin ((1000 * scale : Nat) : Int)).add (fin ((50 * scale : Nat) : Int))).gt maxBalance = false →
      ∃ r1 r2 : Nat, (creditAccount "50.00" World.fresh).storageBalance = fin (r1 : Int) ∧
        (fin (r1 : Int)).ge (fin ((50 * scale : Nat) : Int)) = true ∧
        (debitAccount "50.00" (creditAccount "50.00" World.fresh)).storageBalance = fin (r2 : Int) ∧
        printed (debitAccount "50.00" (creditAccount "50.00" World.fresh)).trace =
          printed (creditAccount "50.00" World.fresh).trace ++
            ["Amount debited. New balance: " ++ formatBalance (fin (r2 : Int))] ∧
        r2 ≤ 1000 * scale + 2 ^ 1041 ∧ 1000 * scale ≤ r2 + 2 ^ 1041) ∧
    ((fin ((1000 * scale : Nat) : Int)).ge (fin ((50 * scale : Nat) : Int)) = true →
      ∃ r1 r2 : Nat, (debitAccount "50.00" World.fresh).storageBalance = fin (r1 : Int) ∧
        ((fin (r1 : Int)).add (fin ((50 * scale : Nat) : Int))).gt maxBalance = false ∧
        (creditAccount "50.00" (debitAccount "50.00" World.fresh)).storageBalance = fin (r2 : Int) ∧
        printed (creditAccount "50.00" (debitAccount "50.00" World.fresh)).trace =
          printed (debitAccount "50.00" World.fresh).trace ++
            ["Amount credited. New balance: " ++ formatBalance (fin (r2 : Int))] ∧
        r2 ≤ 1000 * scale + 2 ^ 1041 ∧ 1000 * scale ≤ r2 + 2 ^ 1041) :=
  credit_debit_cancel World.fresh "50.00" (1000 * scale) (50 * scale)
    (by decide) (by decide) (by decide)

/-- C19, counterexample to the claim as stated.  From the fresh balance `1000.00` the
credit of `"24.07"` succeeds and prints `1024.07`, the debit of the same input is
carried out, and the balance stored afterwards is `999.9999999999999`, not `1000.00`.
From the balance `0.11` the debit of `"0.04"` followed by the credit of `"0.04"`
stores `0.11000000000000001`. -/
theorem credit_debit_not_exact :
    World.fresh.storageBalance = parseFloat "1000.00" ∧
    printed (debitAccount "24.07" (creditAccount "24.07" World.fresh)).trace =
      ["Amount credited. New balance: 1024.07", "Amount debited. New balance: 1000.00"] ∧
    (debitAccount "24.07" (creditAccount "24.07" World.fresh)).storageBalance =
      parseFloat "999.9999999999999" ∧
    (debitAccount "24.07" (creditAccount "24.07" World.fresh)).storageBalance ≠
      World.fresh.storageBalance ∧
    printed (creditAccount "0.04" (debitAccount "0.04"
        { World.fresh with storageBalance := parseFloat "0.11" })).trace =
      ["Amount debited. New balance: 0.07", "Amount credited. New balance: 0.11"] ∧
    (creditAccount "0.04" (debitAccount "0.04"
        { World.fresh with storageBalance := parseFloat "0.11" })).storageBalance =
      parseFloat "0.11000000000000001" ∧
    (creditAccount "0.04" (debitAccount "0.04"
        { World.fresh with storageBalance := parseFloat "0.11" })).storageBalance ≠
      parseFloat "0.11" := by
  decide

/-! ## Monotonicity of the two mutations (C20) -/

theorem add_fin_int (z : Int) (m : Nat) :
    (fin z).add (fin (m : Int)) =
      ofRounded (decide (z + (m : Int) < 0)) (roundUnits (z + (m : Int)).natAbs 1) := rfl

theorem sub_fin_int (z : Int) (m : Nat) :
    (fin z).sub (fin (m : Int)) =
      ofRounded (decide (z + -(m : Int) < 0)) (roundUnits (z + -(m : Int)).natAbs 1) := rfl

theorem ge_fin_fin (a b : Int) : (fin a).ge (fin b) = !decide (a < b) := rfl

theorem ge_inf_fin (b : Int) : (inf false).ge (fin b) = true := rfl

theorem ge_fin_inf (b : Int) : (fin b).ge (inf false) = false := rfl

theorem ofRounded_true_some (m : Nat) : ofRounded true (some m) = fin (-(m : Int)) := rfl

/-- Adding a non-negative finite amount to a finite Number never gives less. -/
theorem add_fin_ge (z : Int) (m : Nat) (hrep : Representable z.natAbs) :
    ((fin z).add (fin (m : Int))).ge (fin z) = true := by
  rw [add_fin_int]
  by_cases h : z + (m : Int) < 0
  · obtain ⟨r, hr, hle⟩ :=
      roundUnits_le_double (z + (m : Int)).natAbs z.natAbs (by omega) hrep.1 hrep.2
    rw [hr, decide_eq_true h, ofRounded_true_some, ge_fin_fin]
    have : ¬ (-(r : Int) < z) := by omega
    simp [this]
  · rw [decide_eq_false h]
    cases hr : roundUnits (z + (m : Int)).natAbs 1 with
    | none => rfl
    | some r =>
      rw [ofRounded_false_some, ge_fin_fin]
      have hz : ¬ ((r : Int) < z) := by
        by_cases hz0 : z ≤ 0
        · omega
        · have := roundUnits_ge_double (z + (m : Int)).natAbs z.natAbs r (by omega) hrep hr
          omega
      simp [hz]

/-- Subtracting a covered non-negative finite amount never gives more. -/
theorem sub_fin_le (z : Int) (m : Nat) (hrep : Representable z.natAbs)
    (hge : (fin z).ge (fin (m : Int)) = true) :
    (fin z).ge ((fin z).sub (fin (m : Int))) = true := by
  rw [ge_fin_fin] at hge
  have hmz : (m : Int) ≤ z := by
    by_contra hc
    have : z < (m : Int) := by omega
    simp [this] at hge
  have h : ¬ (z + -(m : Int) < 0) := by omega
  obtain ⟨r, hr, hle⟩ :=
    roundUnits_le_double (z + -(m : Int)).natAbs z.natAbs (by omega) hrep.1 hrep.2
  rw [sub_fin_int, decide_eq_false h, hr, ofRounded_false_some, ge_fin_fin]
  have : ¬ (z < (r : Int)) := by omega
  simp [this]

theorem add_zero_int (z : Int) (hrep : Representable z.natAbs) :
    (fin z).add JSNum.zero = fin z := by
  have h := add_fin_int z 0
  have e : z + ((0 : Nat) : Int) = z := by simp
  rw [e, roundUnits_exact _ hrep] at h
  have hz : JSNum.zero = fin ((0 : Nat) : Int) := rfl
  rw [hz, h]
  by_cases hneg : z < 0
  · rw [decide_eq_true hneg, ofRounded_true_some]
    congr 1
    omega
  · rw [decide_eq_false hneg, ofRounded_false_some]
    congr 1
    omega

theorem sub_zero_int (z : Int) (hrep : Representable z.natAbs) :
    (fin z).sub JSNum.zero = fin z := by
  have h : (fin z).sub JSNum.zero = (fin z).add JSNum.zero := rfl
  rw [h, add_zero_int z hrep]

theorem ge_self_fin (z : Int) : (fin z).ge (fin z) = true := by
  rw [ge_fin_fin]
  simp

/-- C20. Monotonicity of the two mutations: for every balance `b` in the store (any
finite Number, in range or not) and every raw input, the balance after
`creditAccount` compares `>= b`, the balance after `debitAccount` compares `<= b`,
and if either operation leaves a balance different from `b` then the input was
accepted with an amount other than `0` and the operation printed its confirmation
line with the new balance. -/
theorem mutations_monotone (w : World) (input : String) (z : Int)
    (hb : w.storageBalance = fin z) (hrep : Representable z.natAbs) :
    (creditAccount input w).storageBalance.ge w.storageBalance = true ∧
    w.storageBalance.ge (debitAccount input w).storageBalance = true ∧
    ((creditAccount input w).storageBalance ≠ w.storageBalance →
      ∃ a, acceptedAmount input = some a ∧ a ≠ JSNum.zero ∧
        printed (creditAccount input w).trace = printed w.trace ++
          ["Amount credited. New balance: " ++
            formatBalance (creditAccount input w).storageBalance]) ∧
    ((debitAccount input w).storageBalance ≠ w.storageBalance →
      ∃ a, acceptedAmount input = some a ∧ a ≠ JSNum.zero ∧
        printed (debitAccount input w).trace = printed w.trace ++
          ["Amount debited. New balance: " ++
            formatBalance (debitAccount input w).storageBalance]) := by
  cases ha : acceptedAmount input with
  | none =>
    have hc : (creditAccount input w).storageBalance = w.storageBalance := by
      rw [creditAccount_storageBalance, ha]
    have hd : (debitAccount input w).storageBalance = w.storageBalance := by
      rw [debitAccount_storageBalance, ha]
    rw [hc, hd, hb]
    exact ⟨ge_self_fin z, ge_self_fin z, fun h => absurd rfl h, fun h => absurd rfl h⟩
  | some a =>
    have hc : (creditAccount input w).storageBalance =
        if (w.storageBalance.add a).gt maxBalance then w.storageBalance
        else w.storageBalance.add a := by
      rw [creditAccount_storageBalance, ha]
    have hd : (debitAccount input w).storageBalance =
        if w.storageBalance.ge a then w.storageBalance.sub a else w.storageBalance := by
      rw [debitAccount_storageBalance, ha]
    have hce := creditAccount_eq input w
    have hde := debitAccount_eq input w
    rw [ha] at hce hde
    simp only at hce hde
    refine ⟨?_, ?_, ?_, ?_⟩
    · rw [hc]
      split_ifs with hgt
      · rw [hb]; exact ge_self_fin z
      · rw [hb] at hgt ⊢
        rcases acceptedAmount_shape input a ha with rfl | ⟨k, m, rfl, _⟩
        · exact absurd gt_inf_maxBalance hgt
        · exact add_fin_ge z m hrep
    · rw [hd]
      split_ifs with hge
      · rw [hb] at hge ⊢
        rcases acceptedAmount_shape input a ha with rfl | ⟨k, m, rfl, _⟩
        · rw [ge_fin_inf] at hge; exact absurd hge (by simp)
        · exact sub_fin_le z m hrep hge
      · rw [hb]; exact ge_self_fin z
    · intro hne
      by_cases hgt : (w.storageBalance.add a).gt maxBalance = true
      · rw [hc, if_pos hgt] at hne; exact absurd rfl hne
      · have hs : (creditAccount input w).storageBalance = w.storageBalance.add a := by
          rw [hc, if_neg hgt]
        refine ⟨a, rfl, ?_, ?_⟩
        · intro h0
          rw [hs, h0, hb, add_zero_int z hrep] at hne
          exact absurd rfl hne
        · rw [hs, hce, if_neg hgt]
          simp [printed_append, printed]
    · intro hne
      by_cases hge : w.storageBalance.ge a = true
      · have hs : (debitAccount input w).storageBalance = w.storageBalance.sub a := by
          rw [hd, if_pos hge]
        refine ⟨a, rfl, ?_, ?_⟩
        · intro h0
          rw [hs, h0, hb, sub_zero_int z hrep] at hne
          exact absurd rfl hne
        · rw [hs, hde, if_pos hge]
          simp [printed_append, printed]
      · rw [hd, if_neg hge] at hne; exact absurd rfl hne

theorem mutations_monotone_witness :
    (creditAccount "50.00" World.fresh).storageBalance.ge World.fresh.storageBalance = true ∧
    World.fresh.storageBalance.ge (debitAccount "50.00" World.fresh).storageBalance = true ∧
    ((creditAccount "50.00" World.fresh).storageBalance ≠ World.fresh.storageBalance →
      ∃ a, acceptedAmount "50.00" = some a ∧ a ≠ JSNum.zero ∧
        printed (creditAccount "50.00" World.fresh).trace = printed World.fresh.trace ++
          ["Amount credited. New balance: " ++
            formatBalance (creditAccount "50.00" World.fresh).storageBalance]) ∧
    ((debitAccount "50.00" World.fresh).storageBalance ≠ World.fresh.storageBalance →
      ∃ a, acceptedAmount "50.00" = some a ∧ a ≠ JSNum.zero ∧
        printed (debitAccount "50.00" World.fresh).trace = printed World.fresh.trace ++
          ["Amount debited. New balance: " ++
            formatBalance (debitAccount "50.00" World.fresh).storageBalance]) :=
  mutations_monotone World.fresh "50.00" ((1000 * scale : Nat) : Int) (by decide)
    (by decide : (1000 * scale : Nat) < overflowBound ∧
      2 ^ quantumExp (1000 * scale) ∣ (1000 * scale : Nat))

/-! ## Operation tags (C21) -/

theorem process_other (tag : String) (inputs : List String) (w : World)
    (h1 : tag ≠ "TOTAL ") (h2 : tag ≠ "CREDIT") (h3 : tag ≠ "DEBIT ") :
    Operations.process tag inputs w = Outcome.returned inputs w := by
  unfold Operations.process
  rw [if_neg h1, if_neg h2, if_neg h3]

theorem execute_not_write (op : String) (v : JSNum) (w : World) (h : op ≠ "WRITE") :
    (DataProgram.execute op v w).2.storageBalance = w.storageBalance := by
  unfold DataProgram.execute
  rw [if_neg h]
  split_ifs <;> rfl

/-- C21. Operation tags are matched exactly: `process` performs the view for the tag
`'TOTAL '`, the credit for `'CREDIT'` and the debit for `'DEBIT '`; for every other
tag it returns at once with the state as it was (nothing printed, no prompt, no line
read, balance unchanged), in particular for the unpadded `'TOTAL'` and `'DEBIT'`;
and `execute` with an operation type other than `'WRITE'` leaves the stored balance
unchanged. -/
theorem process_tags_exact (tag : String) (inputs : List String) (w : World) (v : JSNum) :
    Operations.process "TOTAL " inputs w = Outcome.returned inputs (viewBalance w) ∧
    (∀ (a : String) (more : List String),
      Operations.process "CREDIT" (a :: more) w = Outcome.returned more (creditAccount a w) ∧
      Operations.process "DEBIT " (a :: more) w = Outcome.returned more (debitAccount a w)) ∧
    (tag ≠ "TOTAL " → tag ≠ "CREDIT" → tag ≠ "DEBIT " →
      Operations.process tag inputs w = Outcome.returned inputs w ∧
      printed (Operations.process tag inputs w).world.trace = printed w.trace ∧
      prompted (Operations.process tag inputs w).world.trace = prompted w.trace ∧
      (Operations.process tag inputs w).world.storageBalance = w.storageBalance) ∧
    Operations.process "TOTAL" inputs w = Outcome.returned inputs w ∧
    Operations.process "DEBIT" inputs w = Outcome.returned inputs w ∧
    (tag ≠ "WRITE" → (DataProgram.execute tag v w).2.storageBalance = w.storageBalance) := by
  refine ⟨?_, fun a more => ⟨process_credit a more w, process_debit a more w⟩, ?_,
    process_other "TOTAL" inputs w (by decide) (by decide) (by decide),
    process_other "DEBIT" inputs w (by decide) (by decide) (by decide),
    execute_not_write tag v w⟩
  · unfold Operations.process
    rw [if_pos rfl]
  · intro h1 h2 h3
    rw [process_other tag inputs w h1 h2 h3]
    exact ⟨rfl, rfl, rfl, rfl⟩

/-- C21, witness: the tags `'total '` and `'READ'` on a fresh program. -/
theorem process_tags_exact_witness :
    Operations.process "total " ["1"] World.fresh = Outcome.returned ["1"] World.fresh ∧
    (DataProgram.execute "READ" (JSNum.ofNat 5) World.fresh).2.storageBalance =
      World.fresh.storageBalance :=
  ⟨((process_tags_exact "total " ["1"] World.fresh JSNum.nan).2.2.1
      (by decide) (by decide) (by decide)).1,
    (process_tags_exact "READ" [] World.fresh (JSNum.ofNat 5)).2.2.2.2.2 (by decide)⟩

/-! ## Scanning of numeric prefixes (C22) -/

theorem digit_not_whiteSpace (c : Char) (h : isDecimalDigit c = true) :
    isStrWhiteSpaceChar c = false := by
  unfold isDecimalDigit at h
  unfold isStrWhiteSpaceChar
  simp only [Bool.and_eq_true, decide_eq_true_eq] at h
  simp only [List.mem_cons, List.mem_singleton, Bool.or_eq_false_iff, decide_eq_false_iff_not,
    Bool.and_eq_false_imp, decide_eq_true_eq, List.not_mem_nil, or_false]
  omega

theorem digit_ne (c d : Char) (h : isDecimalDigit c = true) (hd : isDecimalDigit d = false) :
    c ≠ d := by
  intro e
  rw [e, hd] at h
  exact absurd h (by simp)

theorem readSign_digit (c : Char) (cs : List Char) (h : isDecimalDigit c = true) :
    readSign (c :: cs) = (false, c :: cs) := by
  have h1 : c ≠ '-' := digit_ne c '-' h (by decide)
  have h2 : c ≠ '+' := digit_ne c '+' h (by decide)
  unfold readSign
  split
  · rename_i heq; simp at heq; exact absurd heq.1 h1
  · rename_i heq; simp at heq; exact absurd heq.1 h2
  · rfl

theorem startsWith_digit (c : Char) (cs : List Char) (h : isDecimalDigit c = true) :
    startsWith (c :: cs) "Infinity".toList = false := by
  have h1 : c ≠ 'I' := digit_ne c 'I' h (by decide)
  have e : "Infinity".toList = 'I' :: "nfinity".toList := rfl
  rw [e]
  simp [startsWith, h1]

theorem readDigits_append (ds : List Char) (hds : ∀ c ∈ ds, isDecimalDigit c = true)
    (t : List Char) (ht : ∀ c ∈ t.head?, isDecimalDigit c = false) :
    ∀ acc cnt : Nat,
      readDigits (ds ++ t) acc cnt = ((readDigits ds acc cnt).1, cnt + ds.length, t) := by
  induction ds with
  | nil =>
    intro acc cnt
    cases t with
    | nil => rfl
    | cons c cs =>
      have hc : isDecimalDigit c = false := ht c (by simp)
      simp [readDigits, hc]
  | cons d ds ih =>
    intro acc cnt
    have hd : isDecimalDigit d = true := hds d (by simp)
    have ih2 := ih (fun c hc => hds c (List.mem_cons_of_mem _ hc))
    have e : readDigits (d :: ds ++ t) acc cnt =
        readDigits (ds ++ t) (10 * acc + (d.toNat - 48)) (cnt + 1) := by
      show readDigits (d :: (ds ++ t)) acc cnt = _
      simp only [readDigits, hd, if_true]
    have e2 : readDigits (d :: ds) acc cnt =
        readDigits ds (10 * acc + (d.toNat - 48)) (cnt + 1) := by
      simp only [readDigits, hd, if_true]
    rw [e, e2, ih2, List.length_cons, show cnt + 1 + ds.length = cnt + (ds.length + 1) by omega]

theorem readDigits_all (ds : List Char) (hds : ∀ c ∈ ds, isDecimalDigit c = true)
    (acc cnt : Nat) :
    readDigits ds acc cnt = ((readDigits ds acc cnt).1, cnt + ds.length, []) := by
  have h := readDigits_append ds hds [] (by simp) acc cnt
  rw [List.append_nil] at h
  exact h

theorem readExponent_none (t : List Char) (ht : ∀ c ∈ t.head?, c ≠ 'e' ∧ c ≠ 'E') :
    readExponent t = 0 := by
  cases t with
  | nil => rfl
  | cons c cs =>
    have hc := ht c (by simp)
    simp [readExponent, hc.1, hc.2]

theorem parseFloat_digit_head (c : Char) (cs : List Char) (h : isDecimalDigit c = true) :
    parseFloat (String.mk (c :: cs)) = parseUnsigned false (c :: cs) := by
  unfold parseFloat
  have e : (String.mk (c :: cs)).toList = c :: cs := rfl
  rw [e, List.dropWhile_cons_of_neg (by rw [digit_not_whiteSpace c h]; simp), readSign_digit c cs h]

theorem parseUnsigned_fixed (negative : Bool) (c : Char) (ip fp r : List Char)
    (hip : ∀ d ∈ c :: ip, isDecimalDigit d = true) (hfp : ∀ d ∈ fp, isDecimalDigit d = true)
    (hr : ∀ d ∈ r.head?, isDecimalDigit d = false) :
    parseUnsigned negative (c :: ip ++ '.' :: (fp ++ r)) =
      decimalValue negative (readDigits fp (readDigits (c :: ip) 0 0).1 0).1
        (readExponent r - (fp.length : Int)) := by
  unfold parseUnsigned
  have hs : startsWith (c :: ip ++ '.' :: (fp ++ r)) "Infinity".toList = false :=
    startsWith_digit c _ (hip c (by simp))
  rw [if_neg (by rw [hs]; simp)]
  rw [readDigits_append (c :: ip) hip ('.' :: (fp ++ r)) (by simp; decide) 0 0]
  simp only
  rw [readDigits_append fp hfp r hr _ 0]
  simp only
  rw [if_neg (by simp)]
  simp

theorem parseFloat_point_head (cs : List Char) :
    parseFloat (String.mk ('.' :: cs)) = parseUnsigned false ('.' :: cs) := by
  unfold parseFloat
  have e : (String.mk ('.' :: cs)).toList = '.' :: cs := rfl
  rw [e, List.dropWhile_cons_of_neg (by decide)]
  rfl

theorem parseUnsigned_point (negative : Bool) (fp r : List Char) (hne : fp ≠ [])
    (hfp : ∀ d ∈ fp, isDecimalDigit d = true)
    (hr : ∀ d ∈ r.head?, isDecimalDigit d = false) :
    parseUnsigned negative ('.' :: (fp ++ r)) =
      decimalValue negative (readDigits fp 0 0).1 (readExponent r - (fp.length : Int)) := by
  unfold parseUnsigned
  have hs : startsWith ('.' :: (fp ++ r)) "Infinity".toList = false := by
    have e : "Infinity".toList = 'I' :: "nfinity".toList := rfl
    rw [e]
    simp [startsWith]
  rw [if_neg (by rw [hs]; simp)]
  have e0 : readDigits ('.' :: (fp ++ r)) 0 0 = (0, 0, '.' :: (fp ++ r)) := by
    simp [readDigits, show isDecimalDigit '.' = false by decide]
  rw [e0]
  simp only
  rw [readDigits_append fp hfp r hr _ 0]
  simp only
  have hl : fp.length ≠ 0 := fun h => hne (List.length_eq_zero.mp h)
  rw [if_neg (by omega)]
  simp

theorem parseUnsigned_integer (negative : Bool) (c : Char) (ip r : List Char)
    (hip : ∀ d ∈ c :: ip, isDecimalDigit d = true)
    (hr : ∀ d ∈ r.head?, isDecimalDigit d = false ∧ d ≠ '.') :
    parseUnsigned negative (c :: ip ++ r) =
      decimalValue negative (readDigits (c :: ip) 0 0).1 (readExponent r) := by
  unfold parseUnsigned
  have hs : startsWith (c :: ip ++ r) "Infinity".toList = false :=
    startsWith_digit c _ (hip c (by simp))
  rw [if_neg (by rw [hs]; simp)]
  rw [readDigits_append (c :: ip) hip r (fun d hd => (hr d hd).1) 0 0]
  simp only
  cases r with
  | nil => simp
  | cons d ds =>
    have hd : d ≠ '.' := (hr d (by simp)).2
    split
    · rename_i heq; simp at heq; exact absurd heq.1 hd
    · simp

theorem readSign_append (s ed t : List Char) (hs : s = [] ∨ s = ['+'] ∨ s = ['-'])
    (hed : ed ≠ []) (hd : DecimalDigits ed) :
    readSign (s ++ ed ++ t) = ((readSign (s ++ ed)).1, (readSign (s ++ ed)).2 ++ t) ∧
      (readSign (s ++ ed)).2 = ed := by
  cases ed with
  | nil => exact absurd rfl hed
  | cons d ds =>
    have h : isDecimalDigit d = true := hd d (by simp)
    rcases hs with rfl | rfl | rfl
    · have e1 : ([] : List Char) ++ d :: ds ++ t = d :: (ds ++ t) := rfl
      have e2 : ([] : List Char) ++ d :: ds = d :: ds := rfl
      rw [e1, e2, readSign_digit d _ h, readSign_digit d _ h]
      exact ⟨rfl, rfl⟩
    · exact ⟨rfl, rfl⟩
    · exact ⟨rfl, rfl⟩

theorem readExponent_cons (c : Char) (cs : List Char) :
    readExponent (c :: cs) =
      if c = 'e' ∨ c = 'E' then
        match readDigits (readSign cs).2 0 0 with
        | (v, cnt, _) =>
          if cnt = 0 then 0 else if (readSign cs).1 then -(v : Int) else (v : Int)
      else 0 := rfl

theorem readExponent_tail (ex t : List Char) (hex : ex = [] ∨ ExponentPart ex)
    (ht : ∀ c ∈ t.head?, isDecimalDigit c = false ∧ (ex = [] → c ≠ 'e' ∧ c ≠ 'E')) :
    readExponent (ex ++ t) = readExponent ex := by
  rcases hex with rfl | ⟨e, s, ed, rfl, he, hs, hed, hd⟩
  · rw [List.nil_append, readExponent_none t (fun c hc => (ht c hc).2 rfl)]
    rfl
  · obtain ⟨h1, h2⟩ := readSign_append s ed t hs hed hd
    have e1 : e :: (s ++ ed) ++ t = e :: (s ++ ed ++ t) := rfl
    rw [e1, readExponent_cons, readExponent_cons, if_pos he, if_pos he, h1, h2]
    simp only
    rw [readDigits_append ed hd t (fun c hc => (ht c hc).1) 0 0, readDigits_all ed hd 0 0]

theorem exponentPart_head (ex t : List Char) (hex : ExponentPart ex) :
    ∀ c ∈ (ex ++ t).head?, isDecimalDigit c = false ∧ c ≠ '.' := by
  obtain ⟨e, s, ed, rfl, he, _⟩ := hex
  intro c hc
  simp only [List.cons_append, List.head?_cons, Option.mem_def, Option.some.injEq] at hc
  subst hc
  rcases he with rfl | rfl
  · exact ⟨by decide, by decide⟩
  · exact ⟨by decide, by decide⟩

theorem decimalValue_accepted (m : Nat) (e : Int) :
    (decimalValue false m e).isNaN = false ∧ (decimalValue false m e).lt JSNum.zero = false := by
  unfold decimalValue JSNum.ofQuot
  split_ifs
  · generalize roundUnits (m * 10 ^ e.toNat * scale) 1 = o
    cases o with
    | none => exact ⟨rfl, rfl⟩
    | some n =>
      rw [ofRounded_false_some]
      exact ⟨rfl, by simp [JSNum.lt, JSNum.zero]⟩
  · generalize roundUnits (m * scale) (10 ^ (-e).toNat) = o
    cases o with
    | none => exact ⟨rfl, rfl⟩
    | some n =>
      rw [ofRounded_false_some]
      exact ⟨rfl, by simp [JSNum.lt, JSNum.zero]⟩

theorem acceptedAmount_of_decimalValue (input : String) (m : Nat) (e : Int)
    (h : parseFloat input = decimalValue false m e) :
    acceptedAmount input = some (decimalValue false m e).round2 := by
  rw [acceptedAmount_eq, h, (decimalValue_accepted m e).1, (decimalValue_accepted m e).2]
  rfl

theorem readRadix_digits (c : Char) (ip t : List Char)
    (hip : ∀ d ∈ c :: ip, isDecimalDigit d = true)
    (ht : ip = [] → c = '0' → ∀ d ∈ t.head?, d ≠ 'x' ∧ d ≠ 'X') :
    readRadix (c :: ip ++ t) = (10, c :: ip ++ t) := by
  have key : ∀ (x : Char) (cs : List Char), isDecimalDigit x = false → (x = 'x' ∨ x = 'X') →
      c = '0' → ip ++ t = x :: cs → False := by
    intro x cs hx hxx hc0 heq
    cases ip with
    | nil =>
      have hh := ht rfl hc0 x (by rw [List.nil_append] at heq; rw [heq]; simp)
      rcases hxx with h | h
      · exact hh.1 h
      · exact hh.2 h
    | cons d ds =>
      have hd : isDecimalDigit d = true := hip d (by simp)
      simp only [List.cons_append, List.cons.injEq] at heq
      rw [heq.1, hx] at hd
      exact absurd hd (by simp)
  unfold readRadix
  split
  · rename_i cs heq
    simp only [List.cons_append, List.cons.injEq] at heq
    exact (key 'x' cs (by decide) (Or.inl rfl) heq.1 heq.2).elim
  · rename_i cs heq
    simp only [List.cons_append, List.cons.injEq] at heq
    exact (key 'X' cs (by decide) (Or.inr rfl) heq.1 heq.2).elim
  · rfl

theorem digitValueIn_ten (c : Char) :
    digitValueIn 10 c = if isDecimalDigit c then some (c.toNat - 48) else none := by
  unfold digitValueIn
  split_ifs <;> simp_all

theorem readRadixDigits_append (ds : List Char) (hds : ∀ c ∈ ds, isDecimalDigit c = true)
    (t : List Char) (ht : ∀ c ∈ t.head?, isDecimalDigit c = false) :
    ∀ acc cnt : Nat,
      readRadixDigits 10 (ds ++ t) acc cnt = readRadixDigits 10 ds acc cnt := by
  induction ds with
  | nil =>
    intro acc cnt
    cases t with
    | nil => rfl
    | cons c cs =>
      have hc : isDecimalDigit c = false := ht c (by simp)
      simp [readRadixDigits, digitValueIn_ten, hc]
  | cons d ds ih =>
    intro acc cnt
    have hd : isDecimalDigit d = true := hds d (by simp)
    have ih2 := ih (fun c hc => hds c (List.mem_cons_of_mem _ hc))
    have e : readRadixDigits 10 (d :: ds ++ t) acc cnt =
        readRadixDigits 10 (ds ++ t) (10 * acc + (d.toNat - 48)) (cnt + 1) := by
      show readRadixDigits 10 (d :: (ds ++ t)) acc cnt = _
      simp only [readRadixDigits, digitValueIn_ten, hd, if_true]
    have e2 : readRadixDigits 10 (d :: ds) acc cnt =
        readRadixDigits 10 ds (10 * acc + (d.toNat - 48)) (cnt + 1) := by
      simp only [readRadixDigits, digitValueIn_ten, hd, if_true]
    rw [e, e2, ih2]

theorem parseInt_digit_head (c : Char) (cs : List Char) (h : isDecimalDigit c = true) :
    parseInt (String.mk (c :: cs)) =
      match readRadixDigits (readRadix (c :: cs)).1 (readRadix (c :: cs)).2 0 0 with
      | (v, cnt) => if cnt = 0 then JSNum.nan else JSNum.ofQuot false v 1 := by
  unfold parseInt
  have e : (String.mk (c :: cs)).toList = c :: cs := rfl
  rw [e, List.dropWhile_cons_of_neg (by rw [digit_not_whiteSpace c h]; simp), readSign_digit c cs h]

theorem parseInt_tail (c : Char) (ip t : List Char)
    (hip : ∀ d ∈ c :: ip, isDecimalDigit d = true)
    (ht : ∀ d ∈ t.head?, isDecimalDigit d = false)
    (hx : ip = [] → c = '0' → ∀ d ∈ t.head?, d ≠ 'x' ∧ d ≠ 'X') :
    parseInt (String.mk (c :: ip ++ t)) = parseInt (String.mk (c :: ip)) := by
  have hc : isDecimalDigit c = true := hip c (by simp)
  have e0 : readRadix (c :: ip) = (10, c :: ip) := by
    have := readRadix_digits c ip [] hip (by simp)
    rwa [List.append_nil] at this
  rw [show c :: ip ++ t = c :: (ip ++ t) from rfl, parseInt_digit_head c (ip ++ t) hc,
    parseInt_digit_head c ip hc, show c :: (ip ++ t) = c :: ip ++ t from rfl,
    readRadix_digits c ip t hip hx, e0]
  simp only
  rw [readRadixDigits_append (c :: ip) hip t ht 0 0]

theorem processChoice_congr (a b : String) (inputs : List String) (w : World)
    (h : parseInt a = parseInt b) :
    MainProgram.processChoice a inputs w = MainProgram.processChoice b inputs w := by
  unfold MainProgram.processChoice
  rw [h]

theorem acceptedAmount_congr (a b : String) (h : parseFloat a = parseFloat b) :
    acceptedAmount a = acceptedAmount b := by
  rw [acceptedAmount_eq, acceptedAmount_eq, h]

theorem parseFloat_fixed_tail (ip fp ex t : List Char) (hne : ip ≠ [] ∨ fp ≠ [])
    (hipd : DecimalDigits ip) (hfpd : DecimalDigits fp) (hex : ex = [] ∨ ExponentPart ex)
    (ht : ∀ c ∈ t.head?, isDecimalDigit c = false)
    (hte : ex = [] → ∀ c ∈ t.head?, c ≠ 'e' ∧ c ≠ 'E') :
    parseFloat (String.mk (ip ++ '.' :: fp ++ ex ++ t)) =
        decimalValue false (readDigits fp (readDigits ip 0 0).1 0).1
          (readExponent ex - (fp.length : Int)) ∧
      parseFloat (String.mk (ip ++ '.' :: fp ++ ex)) =
        decimalValue false (readDigits fp (readDigits ip 0 0).1 0).1
          (readExponent ex - (fp.length : Int)) := by
  have hexh : ∀ r : List Char, (∀ d ∈ r.head?, isDecimalDigit d = false) →
      ∀ d ∈ (ex ++ r).head?, isDecimalDigit d = false := by
    intro r hr
    rcases hex with rfl | hep
    · simpa using hr
    · exact fun d hd => (exponentPart_head ex r hep d hd).1
  have x1 := readExponent_tail ex t hex (fun d hd => ⟨ht d hd, fun h0 => hte h0 d hd⟩)
  cases ip with
  | nil =>
    have hfne : fp ≠ [] := by
      rcases hne with h | h
      · exact absurd rfl h
      · exact h
    have e1 : [] ++ '.' :: fp ++ ex ++ t = '.' :: (fp ++ (ex ++ t)) := by
      simp only [List.append_assoc, List.cons_append, List.nil_append]
    have e2 : [] ++ '.' :: fp ++ ex = '.' :: (fp ++ (ex ++ [])) := by
      simp only [List.cons_append, List.nil_append, List.append_nil]
    have p1 := parseUnsigned_point false fp (ex ++ t) hfne hfpd (hexh t ht)
    have p2 := parseUnsigned_point false fp (ex ++ []) hfne hfpd (hexh [] (by simp))
    rw [List.append_nil] at p2
    rw [e1, e2, parseFloat_point_head, parseFloat_point_head, List.append_nil]
    exact ⟨by rw [← x1]; exact p1, p2⟩
  | cons c ip =>
    have hc : isDecimalDigit c = true := hipd c (by simp)
    have e1 : c :: ip ++ '.' :: fp ++ ex ++ t = c :: (ip ++ '.' :: (fp ++ (ex ++ t))) := by
      simp only [List.append_assoc, List.cons_append]
    have e2 : c :: ip ++ '.' :: fp ++ ex = c :: (ip ++ '.' :: (fp ++ (ex ++ []))) := by
      simp only [List.append_assoc, List.cons_append, List.append_nil]
    have p1 := parseUnsigned_fixed false c ip fp (ex ++ t) hipd hfpd (hexh t ht)
    have p2 := parseUnsigned_fixed false c ip fp (ex ++ []) hipd hfpd (hexh [] (by simp))
    rw [List.append_nil] at p2
    rw [e1, e2, parseFloat_digit_head c _ hc, parseFloat_digit_head c _ hc, List.append_nil]
    exact ⟨by rw [← x1]; exact p1, p2⟩

theorem dropWhile_whiteSpace (ws s : List Char) (h : ∀ c ∈ ws, isStrWhiteSpaceChar c = true) :
    (ws ++ s).dropWhile isStrWhiteSpaceChar = s.dropWhile isStrWhiteSpaceChar := by
  induction ws with
  | nil => rfl
  | cons c cs ih =>
    rw [List.cons_append, List.dropWhile_cons_of_pos (h c (by simp))]
    exact ih (fun d hd => h d (List.mem_cons_of_mem _ hd))

theorem parse_skip_whiteSpace (ws s : List Char) (h : ∀ c ∈ ws, isStrWhiteSpaceChar c = true) :
    parseFloat (String.mk (ws ++ s)) = parseFloat (String.mk s) ∧
      parseInt (String.mk (ws ++ s)) = parseInt (String.mk s) := by
  unfold parseFloat parseInt
  have e1 : (String.mk (ws ++ s)).toList = ws ++ s := rfl
  have e2 : (String.mk s).toList = s := rfl
  rw [e1, e2, dropWhile_whiteSpace ws s h]
  exact ⟨rfl, rfl⟩

theorem parseFloat_integer_tail (ip ex t : List Char) (hip : ip ≠ []) (hipd : DecimalDigits ip)
    (hex : ex = [] ∨ ExponentPart ex)
    (ht : ∀ c ∈ t.head?, isDecimalDigit c = false)
    (hte : ex = [] → ∀ c ∈ t.head?, c ≠ 'e' ∧ c ≠ 'E' ∧ c ≠ '.') :
    parseFloat (String.mk (ip ++ ex ++ t)) =
        decimalValue false (readDigits ip 0 0).1 (readExponent ex) ∧
      parseFloat (String.mk (ip ++ ex)) =
        decimalValue false (readDigits ip 0 0).1 (readExponent ex) := by
  cases ip with
  | nil => exact absurd rfl hip
  | cons c ip =>
    have hc : isDecimalDigit c = true := hipd c (by simp)
    have hexh : ∀ r : List Char, (∀ d ∈ r.head?, isDecimalDigit d = false ∧ (ex = [] → d ≠ '.')) →
        ∀ d ∈ (ex ++ r).head?, isDecimalDigit d = false ∧ d ≠ '.' := by
      intro r hr
      rcases hex with rfl | hep
      · intro d hd
        rw [List.nil_append] at hd
        exact ⟨(hr d hd).1, (hr d hd).2 rfl⟩
      · exact fun d hd => exponentPart_head ex r hep d hd
    have e1 : c :: ip ++ ex ++ t = c :: (ip ++ (ex ++ t)) := by
      simp only [List.append_assoc, List.cons_append]
    have e2 : c :: ip ++ ex = c :: (ip ++ (ex ++ [])) := by
      simp only [List.cons_append, List.append_nil]
    have p1 := parseUnsigned_integer false c ip (ex ++ t) hipd
      (hexh t (fun d hd => ⟨ht d hd, fun h0 => (hte h0 d hd).2.2⟩))
    have p2 := parseUnsigned_integer false c ip (ex ++ []) hipd (hexh [] (by simp))
    have x1 := readExponent_tail ex t hex
      (fun d hd => ⟨ht d hd, fun h0 => ⟨(hte h0 d hd).1, (hte h0 d hd).2.1⟩⟩)
    rw [List.append_nil] at p2
    rw [e1, e2, parseFloat_digit_head c _ hc, parseFloat_digit_head c _ hc, List.append_nil]
    exact ⟨by rw [← x1]; exact p1, p2⟩

/-- C22. Lenient numeric parsing.  Let `ip` and `fp` be runs of digits, `ex` empty or
an exponent part, and `t` trailing characters that do not continue the literal (`t`
is empty or starts with a non-digit; after a literal without exponent not with `e` or
`E`; after a literal without point and exponent not with `.`).  Then `parseFloat`
gives the inputs `ip.fp ex t` (one of `ip`, `fp` not empty) and `ip ex t` (`ip` not
empty) the value of the literal alone, and `promptForAmount` accepts them with the
amount of the literal alone.  For a choice line `ip t` (where `t` does not start with
`x` or `X` after the single digit `0`) `parseInt` gives the value of `ip` alone and
`processChoice` does what it does on `ip` alone.  Leading white space changes neither
the amount nor the choice. -/
theorem lenient_parsing (ip fp ex t : List Char) (inputs : List String) (w : World)
    (hipd : DecimalDigits ip) (hfpd : DecimalDigits fp)
    (hex : ex = [] ∨ ExponentPart ex)
    (ht : ∀ c ∈ t.head?, isDecimalDigit c = false) :
    ((ip ≠ [] ∨ fp ≠ []) → (ex = [] → ∀ c ∈ t.head?, c ≠ 'e' ∧ c ≠ 'E') →
      parseFloat (String.mk (ip ++ '.' :: fp ++ ex ++ t)) =
        parseFloat (String.mk (ip ++ '.' :: fp ++ ex)) ∧
      acceptedAmount (String.mk (ip ++ '.' :: fp ++ ex ++ t)) =
        acceptedAmount (String.mk (ip ++ '.' :: fp ++ ex)) ∧
      ∃ a, acceptedAmount (String.mk (ip ++ '.' :: fp ++ ex ++ t)) = some a) ∧
    (ip ≠ [] → (ex = [] → ∀ c ∈ t.head?, c ≠ 'e' ∧ c ≠ 'E' ∧ c ≠ '.') →
      parseFloat (String.mk (ip ++ ex ++ t)) = parseFloat (String.mk (ip ++ ex)) ∧
      acceptedAmount (String.mk (ip ++ ex ++ t)) = acceptedAmount (String.mk (ip ++ ex)) ∧
      ∃ a, acceptedAmount (String.mk (ip ++ ex ++ t)) = some a) ∧
    (ip ≠ [] → (ip = ['0'] → ∀ c ∈ t.head?, c ≠ 'x' ∧ c ≠ 'X') →
      parseInt (String.mk (ip ++ t)) = parseInt (String.mk ip) ∧
      MainProgram.processChoice (String.mk (ip ++ t)) inputs w =
        MainProgram.processChoice (String.mk ip) inputs w) ∧
    (∀ ws s : List Char, (∀ c ∈ ws, isStrWhiteSpaceChar c = true) →
      acceptedAmount (String.mk (ws ++ s)) = acceptedAmount (String.mk s) ∧
      MainProgram.processChoice (String.mk (ws ++ s)) inputs w =
        MainProgram.processChoice (String.mk s) inputs w) := by
  refine ⟨fun hne hte => ?_, fun hip hte => ?_, fun hip hx => ?_, fun ws s hws => ?_⟩
  · obtain ⟨p1, p2⟩ := parseFloat_fixed_tail ip fp ex t hne hipd hfpd hex ht hte
    exact ⟨p1.trans p2.symm, acceptedAmount_congr _ _ (p1.trans p2.symm),
      _, acceptedAmount_of_decimalValue _ _ _ p1⟩
  · obtain ⟨p1, p2⟩ := parseFloat_integer_tail ip ex t hip hipd hex ht hte
    exact ⟨p1.trans p2.symm, acceptedAmount_congr _ _ (p1.trans p2.symm),
      _, acceptedAmount_of_decimalValue _ _ _ p1⟩
  · cases ip with
    | nil => exact absurd rfl hip
    | cons c ip =>
      have h := parseInt_tail c ip t hipd ht (fun h0 hc0 => hx (by rw [h0, hc0]))
      exact ⟨h, processChoice_congr _ _ inputs w h⟩
  · obtain ⟨h1, h2⟩ := parse_skip_whiteSpace ws s hws
    exact ⟨acceptedAmount_congr _ _ h1, processChoice_congr _ _ inputs w h2⟩

/-- C22, witness: `"12abc"` is accepted with the amount `12` of `"12"`; `"12.50 USD"`
with the amount of `"12.50"`; the choice lines `"1abc"` and `"4x"` are dispatched as
`"1"` and `"4"`. -/
theorem lenient_parsing_witness :
    acceptedAmount "12abc" = acceptedAmount "12" ∧
    acceptedAmount "12abc" = some (JSNum.ofNat 12) ∧
    acceptedAmount "12.50 USD" = acceptedAmount "12.50" ∧
    MainProgram.processChoice "1abc" [] World.fresh =
      MainProgram.processChoice "1" [] World.fresh ∧
    MainProgram.processChoice "4x" [] World.fresh =
      Outcome.returned [] { World.fresh with continueFlag := "NO" } :=
  ⟨((lenient_parsing ['1', '2'] [] [] ['a', 'b', 'c'] [] World.fresh
      (by unfold DecimalDigits; decide) (by unfold DecimalDigits; decide) (Or.inl rfl)
      (by decide)).2.1 (by decide) (by decide)).2.1,
    by decide,
    ((lenient_parsing ['1', '2'] ['5', '0'] [] [' ', 'U', 'S', 'D'] [] World.fresh
      (by unfold DecimalDigits; decide) (by unfold DecimalDigits; decide) (Or.inl rfl)
      (by decide)).1 (by decide) (by decide)).2.1,
    ((lenient_parsing ['1'] [] [] ['a', 'b', 'c'] [] World.fresh
      (by unfold DecimalDigits; decide) (by unfold DecimalDigits; decide) (Or.inl rfl)
      (by decide)).2.2.1 (by decide) (by decide)).2,
    (((lenient_parsing ['4'] [] [] ['x'] [] World.fresh
      (by unfold DecimalDigits; decide) (by unfold DecimalDigits; decide) (Or.inl rfl)
      (by decide)).2.2.1 (by decide) (by decide)).2).trans (by decide)⟩

/-! ## Decimal digits of a natural number -/

theorem toDigitsCore_succ (fuel n : Nat) (ds : List Char) :
    Nat.toDigitsCore 10 (fuel + 1) n ds =
      if n / 10 = 0 then Nat.digitChar (n % 10) :: ds
      else Nat.toDigitsCore 10 fuel (n / 10) (Nat.digitChar (n % 10) :: ds) := rfl

theorem toDigitsCore_append (fuel : Nat) : ∀ (n : Nat) (ds : List Char),
    Nat.toDigitsCore 10 fuel n ds = Nat.toDigitsCore 10 fuel n [] ++ ds := by
  induction fuel with
  | zero => intro n ds; rfl
  | succ fuel ih =>
    intro n ds
    rw [toDigitsCore_succ, toDigitsCore_succ]
    split_ifs
    · rfl
    · rw [ih (n / 10) (Nat.digitChar (n % 10) :: ds), ih (n / 10) [Nat.digitChar (n % 10)],
        List.append_assoc]
      rfl

theorem toDigitsCore_fuel (fuel : Nat) : ∀ n : Nat, n < fuel →
    Nat.toDigitsCore 10 fuel n [] = Nat.toDigitsCore 10 (n + 1) n [] := by
  induction fuel using Nat.strong_induction_on with
  | _ fuel ih =>
    intro n hn
    cases fuel with
    | zero => omega
    | succ fuel =>
      rw [toDigitsCore_succ, toDigitsCore_succ]
      split_ifs with h0
      · rfl
      · have hlt : n / 10 < n := Nat.div_lt_self (by omega) (by norm_num)
        have h1 := ih fuel (by omega) (n / 10) (by omega)
        have h2 := ih n (by omega) (n / 10) hlt
        rw [toDigitsCore_append fuel, toDigitsCore_append n, h1, h2]

theorem toDigits_lt_ten (n : Nat) (h : n < 10) : Nat.toDigits 10 n = [Nat.digitChar n] := by
  unfold Nat.toDigits
  rw [toDigitsCore_succ, if_pos (by omega), Nat.mod_eq_of_lt h]

theorem toDigits_step (n : Nat) (h : 10 ≤ n) :
    Nat.toDigits 10 n = Nat.toDigits 10 (n / 10) ++ [Nat.digitChar (n % 10)] := by
  unfold Nat.toDigits
  rw [toDigitsCore_succ, if_neg (by omega), toDigitsCore_append,
    toDigitsCore_fuel n (n / 10) (Nat.div_lt_self (by omega) (by norm_num))]

theorem toDigits_ne_nil (n : Nat) : Nat.toDigits 10 n ≠ [] := by
  by_cases h : n < 10
  · rw [toDigits_lt_ten n h]; simp
  · rw [toDigits_step n (by omega)]; simp

/-- The padding and the split of `toFixed(2)` give the integer part, the point and
two digits. -/
theorem toFixed_split (k : Nat) :
    (List.replicate (2 + 1 - (Nat.toDigits 10 k).length) '0' ++ Nat.toDigits 10 k).take
        ((List.replicate (2 + 1 - (Nat.toDigits 10 k).length) '0' ++ Nat.toDigits 10 k).length - 2)
      ++ ['.'] ++
      (List.replicate (2 + 1 - (Nat.toDigits 10 k).length) '0' ++ Nat.toDigits 10 k).drop
        ((List.replicate (2 + 1 - (Nat.toDigits 10 k).length) '0' ++ Nat.toDigits 10 k).length - 2)
      = Nat.toDigits 10 (k / 100) ++ ['.', Nat.digitChar (k / 10 % 10), Nat.digitChar (k % 10)] := by
  by_cases h1 : k < 10
  · have e0 : k / 100 = 0 := by omega
    have e1 : k / 10 % 10 = 0 := by omega
    have e2 : k % 10 = k := by omega
    rw [toDigits_lt_ten k h1, e0, e1, e2]
    rfl
  · by_cases h2 : k < 100
    · have e0 : k / 100 = 0 := by omega
      have e1 : k / 10 % 10 = k / 10 := by omega
      rw [toDigits_step k (by omega), toDigits_lt_ten (k / 10) (by omega), e0, e1]
      rfl
    · have e : Nat.toDigits 10 k =
          Nat.toDigits 10 (k / 100) ++ [Nat.digitChar (k / 10 % 10), Nat.digitChar (k % 10)] := by
        rw [toDigits_step k (by omega), toDigits_step (k / 10) (by omega),
          Nat.div_div_eq_div_mul, List.append_assoc]
        rfl
      have hne := toDigits_ne_nil (k / 100)
      have hl : 0 < (Nat.toDigits 10 (k / 100)).length := List.length_pos.mpr hne
      rw [e]
      generalize Nat.toDigits 10 (k / 100) = A at hl ⊢
      have hlen : (A ++ [Nat.digitChar (k / 10 % 10), Nat.digitChar (k % 10)]).length
          = A.length + 2 := by simp
      rw [hlen, show 2 + 1 - (A.length + 2) = 0 by omega, List.replicate_zero, List.nil_append,
        hlen, Nat.add_sub_cancel, List.take_left, List.drop_left, List.append_assoc]
      rfl

theorem toFixed_fin_two (n : Nat) (h : ¬ (10 ^ 21 * scale ≤ n)) :
    toFixed (fin (n : Int)) 2 = decimal2 ((2 * n * 10 ^ 2 + scale) / (2 * scale)) := by
  have hs : ¬ ((n : Int) < 0) := by omega
  unfold toFixed decimal2
  simp only [Int.natAbs_ofNat, if_neg hs, if_neg h]
  rw [if_neg (by norm_num)]
  rw [String.empty_append]
  generalize (2 * n * 10 ^ 2 + scale) / (2 * scale) = k
  rw [toFixed_split k]

theorem digitChar_digit : ∀ m : Nat, m < 10 →
    isDecimalDigit (Nat.digitChar m) = true ∧ (Nat.digitChar m).toNat - 48 = m := by
  decide

theorem readDigits_cons_digit (c : Char) (cs : List Char) (acc cnt : Nat)
    (h : isDecimalDigit c = true) :
    readDigits (c :: cs) acc cnt = readDigits cs (10 * acc + (c.toNat - 48)) (cnt + 1) := by
  simp only [readDigits, h, if_true]

theorem readDigits_digitChar (m : Nat) (hm : m < 10) (cs : List Char) (acc cnt : Nat) :
    readDigits (Nat.digitChar m :: cs) acc cnt = readDigits cs (10 * acc + m) (cnt + 1) := by
  rw [readDigits_cons_digit _ _ _ _ (digitChar_digit m hm).1, (digitChar_digit m hm).2]

theorem toDigits_digits (n : Nat) : DecimalDigits (Nat.toDigits 10 n) := by
  induction n using Nat.strong_induction_on with
  | _ n ih =>
    by_cases h : n < 10
    · rw [toDigits_lt_ten n h]
      intro c hc
      rw [List.mem_singleton] at hc
      rw [hc]
      exact (digitChar_digit n h).1
    · rw [toDigits_step n (by omega)]
      intro c hc
      rw [List.mem_append, List.mem_singleton] at hc
      rcases hc with hc | hc
      · exact ih (n / 10) (Nat.div_lt_self (by omega) (by norm_num)) c hc
      · rw [hc]
        exact (digitChar_digit (n % 10) (Nat.mod_lt _ (by norm_num))).1

/-- Reading the decimal digits of `n` after the value `acc` gives `acc` shifted by
their number, plus `n`; started at `0` it gives `n`. -/
theorem readDigits_toDigits (n : Nat) : ∀ (cs : List Char) (cnt : Nat),
    readDigits (Nat.toDigits 10 n ++ cs) 0 cnt =
      readDigits cs n (cnt + (Nat.toDigits 10 n).length) := by
  induction n using Nat.strong_induction_on with
  | _ n ih =>
    intro cs cnt
    by_cases h : n < 10
    · rw [toDigits_lt_ten n h]
      show readDigits (Nat.digitChar n :: cs) 0 cnt = _
      rw [readDigits_digitChar n h, Nat.mul_zero, Nat.zero_add]
      rfl
    · rw [toDigits_step n (by omega), List.append_assoc,
        ih (n / 10) (Nat.div_lt_self (by omega) (by norm_num))]
      show readDigits (Nat.digitChar (n % 10) :: cs) _ _ = _
      rw [readDigits_digitChar (n % 10) (Nat.mod_lt _ (by norm_num)), List.length_append,
        List.length_singleton, Nat.add_assoc]
      congr 1
      omega

theorem decimalValue_neg_two (k : Nat) :
    decimalValue false k (0 - ((2 : Nat) : Int)) = JSNum.ofQuot false k 100 := by
  unfold decimalValue
  rw [if_neg (by decide)]
  rfl

/-- The numeral `decimal2 k` reads back as the Number nearest to `k / 100`. -/
theorem parseFloat_decimal2 (k : Nat) : parseFloat (decimal2 k) = JSNum.ofQuot false k 100 := by
  have hd1 : k / 10 % 10 < 10 := Nat.mod_lt _ (by norm_num)
  have hd0 : k % 10 < 10 := Nat.mod_lt _ (by norm_num)
  have hfp : DecimalDigits [Nat.digitChar (k / 10 % 10), Nat.digitChar (k % 10)] := by
    intro c hc
    simp only [List.mem_cons, List.mem_singleton, List.not_mem_nil, or_false] at hc
    rcases hc with rfl | rfl
    · exact (digitChar_digit _ hd1).1
    · exact (digitChar_digit _ hd0).1
  have h := (parseFloat_fixed_tail (Nat.toDigits 10 (k / 100))
    [Nat.digitChar (k / 10 % 10), Nat.digitChar (k % 10)] [] []
    (Or.inl (toDigits_ne_nil _)) (toDigits_digits _) hfp (Or.inl rfl) (by simp) (by simp)).2
  rw [List.append_nil] at h
  have hv : (readDigits [Nat.digitChar (k / 10 % 10), Nat.digitChar (k % 10)]
      (readDigits (Nat.toDigits 10 (k / 100)) 0 0).1 0).1 = k := by
    have e := readDigits_toDigits (k / 100) [] 0
    rw [List.append_nil] at e
    rw [e, readDigits_digitChar _ hd1, readDigits_digitChar _ hd0]
    show 10 * (10 * (k / 100) + k / 10 % 10) + k % 10 = k
    omega
  unfold decimal2
  rw [h, hv]
  exact decimalValue_neg_two k

/-! ## Whole cents (C12, C23) -/

theorem div_near (a c s e : Nat) (h1 : a ≤ 2 * (c * s) + e) (h2 : 2 * (c * s) ≤ a + e)
    (he : e < s) : (a + s) / (2 * s) = c := by
  apply Nat.div_eq_of_lt_le
  · have : c * (2 * s) = 2 * (c * s) := by ring
    omega
  · have : (c + 1) * (2 * s) = 2 * (c * s) + 2 * s := by ring
    show a + s < (c + 1) * (2 * s)
    omega

theorem roundHalfEven_mul_right (p q k : Nat) (hk : 0 < k) :
    roundHalfEven (p * k) (q * k) = roundHalfEven p q := by
  unfold roundHalfEven
  rw [Nat.mul_mod_mul_right, Nat.mul_div_mul_right _ _ hk]
  have e1 : 2 * (p % q * k) < q * k ↔ 2 * (p % q) < q := by
    rw [← Nat.mul_assoc]; exact Nat.mul_lt_mul_right hk
  have e2 : q * k < 2 * (p % q * k) ↔ q < 2 * (p % q) := by
    rw [← Nat.mul_assoc]; exact Nat.mul_lt_mul_right hk
  simp only [e1, e2]

theorem roundUnits_mul_right (p q k : Nat) (hk : 0 < k) :
    roundUnits (p * k) (q * k) = roundUnits p q := by
  unfold roundUnits
  rw [Nat.mul_div_mul_right _ _ hk]
  have e : q * k * 2 ^ quantumExp (p / q) = q * 2 ^ quantumExp (p / q) * k := by ring
  rw [e, roundHalfEven_mul_right _ _ _ hk]

theorem scale_eq : scale = 2 ^ 33 * 2 ^ 1041 ∧ 2 ^ 1094 = 2 ^ 20 * scale ∧
    2 ^ 1048 = 128 * 2 ^ 1041 ∧ 2 ^ 1101 = 2 ^ 27 * scale := by decide

theorem cents_bounds_arith (c n S E : Nat) (hc : c ≤ 99999999) (hS : S = 2 ^ 33 * E)
    (hE : 0 < E) (h1 : 200 * n ≤ 2 * (c * S) + 100 * E) : n < 2 ^ 20 * S := by
  have : c * S ≤ 99999999 * S := Nat.mul_le_mul_right _ hc
  generalize c * S = cs at *
  omega

/-- The Number nearest to `c / 100`, for a number of cents up to `99999999`. -/
theorem cents_units (c : Nat) (hc : c ≤ 99999999) :
    ∃ n : Nat, roundUnits (c * scale) 100 = some n ∧
      200 * n ≤ 2 * (c * scale) + 100 * 2 ^ 1041 ∧
      2 * (c * scale) ≤ 200 * n + 100 * 2 ^ 1041 ∧ n < 2 ^ 1094 := by
  have hlt : c * scale / 100 < 2 ^ 1094 := by
    rw [scale_eq.2.1]
    apply Nat.div_lt_of_lt_mul
    have : c * scale ≤ 99999999 * scale := Nat.mul_le_mul_right _ hc
    have hp := scale_pos
    generalize scale = S at *
    generalize c * S = cs at *
    omega
  obtain ⟨n, hn⟩ := roundUnits_finite (c * scale) 100
    (lt_trans hlt (Nat.pow_lt_pow_right (by norm_num) (by norm_num)))
  obtain ⟨e1, e2⟩ := roundUnits_error _ _ _ (by norm_num) hn
  have hq : quantumExp (c * scale / 100) ≤ 1041 :=
    quantumExp_le_of_lt _ 1041 hlt (by norm_num)
  have hpow : 2 ^ quantumExp (c * scale / 100) ≤ 2 ^ 1041 :=
    Nat.pow_le_pow_right (by norm_num) hq
  generalize 2 ^ quantumExp (c * scale / 100) = E at e1 e2 hpow
  have b1 : 200 * n ≤ 2 * (c * scale) + 100 * 2 ^ 1041 := by
    generalize c * scale = cs at *
    generalize (2 : Nat) ^ 1041 = F at *
    omega
  have b2 : 2 * (c * scale) ≤ 200 * n + 100 * 2 ^ 1041 := by
    generalize c * scale = cs at *
    generalize (2 : Nat) ^ 1041 = F at *
    omega
  refine ⟨n, hn, b1, b2, ?_⟩
  rw [scale_eq.2.1]
  exact cents_bounds_arith c n scale (2 ^ 1041) hc scale_eq.1 (Nat.pow_pos (by norm_num)) b1

theorem round2_cents_arith (y n cs S F E : Nat) (hS : S = 2 ^ 33 * F) (hE : E ≤ 128 * F)
    (a1 : 2 * y ≤ 200 * n + E) (a2 : 200 * n ≤ 2 * y + E)
    (b1 : 200 * n ≤ 2 * cs + 100 * F) (b2 : 2 * cs ≤ 200 * n + 100 * F) (hF : 0 < F) :
    2 * y ≤ 2 * cs + 228 * F ∧ 2 * cs ≤ 2 * y + 228 * F ∧ 228 * F < S ∧ 100 * F < S := by
  omega

/-- A whole number of cents up to `999999.99` is left as it is by the rounding of
`promptForAmount`. -/
theorem round2_cents (c n : Nat) (hn : roundUnits (c * scale) 100 = some n)
    (b1 : 200 * n ≤ 2 * (c * scale) + 100 * 2 ^ 1041)
    (b2 : 2 * (c * scale) ≤ 200 * n + 100 * 2 ^ 1041) (hlt : n < 2 ^ 1094) :
    (fin (n : Int)).round2 = fin (n : Int) := by
  have hdiv : n * (100 * scale) / scale = n * 100 := by
    rw [← Nat.mul_assoc]; exact Nat.mul_div_cancel _ scale_pos
  have h100 : n * 100 < 2 ^ 1101 := by
    rw [scale_eq.2.2.2]
    rw [scale_eq.2.1] at hlt
    generalize scale = S at *
    omega
  obtain ⟨y, hy⟩ := roundUnits_finite (n * (100 * scale)) scale
    (by rw [hdiv]; exact lt_trans h100 (Nat.pow_lt_pow_right (by norm_num) (by norm_num)))
  obtain ⟨e1, e2⟩ := roundUnits_error _ _ _ scale_pos hy
  have hq : quantumExp (n * (100 * scale) / scale) ≤ 1048 := by
    rw [hdiv]; exact quantumExp_le_of_lt _ 1048 h100 (by norm_num)
  have hpow : 2 ^ quantumExp (n * (100 * scale) / scale) ≤ 2 ^ 1048 :=
    Nat.pow_le_pow_right (by norm_num) hq
  generalize 2 ^ quantumExp (n * (100 * scale) / scale) = E at e1 e2 hpow
  have a1 : 2 * y ≤ 200 * n + E := by
    have : scale * (2 * y) ≤ scale * (200 * n + E) := by
      calc scale * (2 * y) = 2 * (y * scale) := by ring
        _ ≤ 2 * (n * (100 * scale)) + scale * E := e1
        _ = scale * (200 * n + E) := by ring
    exact cancel_scale _ _ _ scale_pos this
  have a2 : 200 * n ≤ 2 * y + E := by
    have : scale * (200 * n) ≤ scale * (2 * y + E) := by
      calc scale * (200 * n) = 2 * (n * (100 * scale)) := by ring
        _ ≤ 2 * (y * scale) + scale * E := e2
        _ = scale * (2 * y + E) := by ring
    exact cancel_scale _ _ _ scale_pos this
  rw [scale_eq.2.2.1] at hpow
  obtain ⟨c1, c2, c3, _⟩ := round2_cents_arith y n (c * scale) scale (2 ^ 1041) E scale_eq.1 hpow
    a1 a2 b1 b2 (Nat.pow_pos (by norm_num))
  have hcents : centsOf y = c := by
    unfold centsOf
    exact div_near (2 * y) c scale (228 * 2 ^ 1041) c1 c2 c3
  rw [round2_fin_nat n, hy]
  simp only
  rw [hcents, roundUnits_mul_right (c * scale) 100 scale scale_pos, hn, ofRounded_false_some]

theorem formatBalance_cents (c n : Nat)
    (b1 : 200 * n ≤ 2 * (c * scale) + 100 * 2 ^ 1041)
    (b2 : 2 * (c * scale) ≤ 200 * n + 100 * 2 ^ 1041) (hlt : n < 2 ^ 1094) :
    formatBalance (fin (n : Int)) = decimal2 c := by
  have hbig : ¬ (10 ^ 21 * scale ≤ n) := by
    rw [scale_eq.2.1] at hlt
    generalize scale = S at *
    omega
  have hF : 100 * 2 ^ 1041 < scale := by decide
  unfold formatBalance
  rw [toFixed_fin_two n hbig]
  congr 1
  have e : 2 * n * 10 ^ 2 = 200 * n := by ring
  rw [e]
  exact div_near (200 * n) c scale (100 * 2 ^ 1041) b1 b2 hF

theorem debitAccount_all (w : World) (input : String) (n : Int)
    (hb : w.storageBalance = fin n) (ha : acceptedAmount input = some (fin n)) :
    debitAccount input w =
      { w with
        storageBalance := JSNum.zero
        trace := w.trace ++ [Event.question "Enter debit amount: ", Event.read,
          Event.write JSNum.zero, Event.log "Amount debited. New balance: 0.00"] } := by
  have hge : (fin n).ge (fin n) = true := by simp [JSNum.ge, JSNum.lt]
  have hsub : (fin n).sub (fin n) = JSNum.zero := by
    have h0 : roundUnits 0 1 = some 0 := by decide
    simp [JSNum.sub, JSNum.neg, JSNum.add, h0, JSNum.ofRounded, JSNum.zero]
  have hfmt : formatBalance JSNum.zero = "0.00" := by decide
  rw [debitAccount_eq, ha]
  simp only [hb, hge, hsub, hfmt, if_true]
  rfl

/-- C23. Display/parse round trip: when the stored balance is the Number nearest to
`c / 100` for a whole number of cents `c` up to `99999999`, `formatBalance` gives the
decimal digits of `c / 100`, a point and the two digits of `c % 100`; that string is
accepted as an amount equal to the stored balance; and a debit with that string as
input is carried out and leaves the balance `0`, printed as `0.00`. -/
theorem display_parse_round_trip (c : Nat) (hc : c ≤ 99999999) (w : World)
    (hb : w.storageBalance = JSNum.ofQuot false c 100) :
    formatBalance w.storageBalance =
        String.mk (Nat.toDigits 10 (c / 100) ++
          ['.', Nat.digitChar (c / 10 % 10), Nat.digitChar (c % 10)]) ∧
      parseFloat (formatBalance w.storageBalance) = w.storageBalance ∧
      acceptedAmount (formatBalance w.storageBalance) = some w.storageBalance ∧
      debitAccount (formatBalance w.storageBalance) w =
        { w with
          storageBalance := JSNum.zero
          trace := w.trace ++ [Event.question "Enter debit amount: ", Event.read,
            Event.write JSNum.zero, Event.log "Amount debited. New balance: 0.00"] } := by
  obtain ⟨n, hn, b1, b2, hlt⟩ := cents_units c hc
  have hq : JSNum.ofQuot false c 100 = fin (n : Int) := by
    unfold JSNum.ofQuot
    rw [hn, ofRounded_false_some]
  have hfmt : formatBalance w.storageBalance = decimal2 c := by
    rw [hb, hq]; exact formatBalance_cents c n b1 b2 hlt
  have hparse : parseFloat (decimal2 c) = fin (n : Int) := by
    rw [parseFloat_decimal2, hq]
  have hacc : acceptedAmount (decimal2 c) = some (fin (n : Int)) := by
    rw [acceptedAmount_eq, hparse, round2_cents c n hn b1 b2 hlt]
    have h1 : (fin (n : Int)).isNaN = false := rfl
    have h2 : (fin (n : Int)).lt JSNum.zero = false := by simp [JSNum.lt, JSNum.zero]
    rw [h1, h2]
    rfl
  rw [hfmt]
  refine ⟨rfl, ?_, ?_, ?_⟩
  · rw [hparse, hb, hq]
  · rw [hacc, hb, hq]
  · exact debitAccount_all w (decimal2 c) n (by rw [hb, hq]) hacc

/-- C23, witness: the fresh balance `1000.00` is displayed as "1000.00", which is
accepted as the amount `1000.00`; debiting it leaves `0.00`. -/
theorem display_parse_round_trip_witness :
    formatBalance World.fresh.storageBalance = "1000.00" ∧
      acceptedAmount "1000.00" = some World.fresh.storageBalance ∧
      (debitAccount "1000.00" World.fresh).storageBalance = JSNum.zero :=
  ⟨(display_parse_round_trip 100000 (by decide) World.fresh (by decide)).1.trans (by decide),
    (display_parse_round_trip 100000 (by decide) World.fresh (by decide)).2.2.1,
    congrArg World.storageBalance
      (display_parse_round_trip 100000 (by decide) World.fresh (by decide)).2.2.2⟩

/-! ## Confirmation message (C12) -/

/-- The display of a balance of `r` units up to `999999.99`: the numeral of the cents
nearest to it (halves upward), which reads back as the Number nearest to it. -/
theorem formatBalance_display (r : Nat) (hr : r ≤ maxUnits) :
    formatBalance (fin (r : Int)) = decimal2 (centsOf (100 * r)) ∧
      parseFloat (formatBalance (fin (r : Int))) = JSNum.ofQuot false (centsOf (100 * r)) 100 ∧
      2 * (centsOf (100 * r) * scale) ≤ 200 * r + scale ∧
      200 * r < 2 * (centsOf (100 * r) * scale) + scale := by
  have hlt : r < 2 ^ 1094 := lt_of_le_of_lt hr maxUnits_facts.2.2.1
  have hbig : ¬ (10 ^ 21 * scale ≤ r) := by
    rw [scale_eq.2.1] at hlt
    generalize scale = S at *
    omega
  have hfmt : formatBalance (fin (r : Int)) = decimal2 (centsOf (100 * r)) := by
    unfold formatBalance centsOf
    rw [toFixed_fin_two r hbig]
    congr 2
    ring
  obtain ⟨s1, s2⟩ := centsOf_spec (100 * r)
  refine ⟨hfmt, ?_, ?_, ?_⟩
  · rw [hfmt, parseFloat_decimal2]
  · generalize centsOf (100 * r) * scale = x at *
    generalize scale = S at *
    omega
  · generalize centsOf (100 * r) * scale = x at *
    generalize scale = S at *
    omega

/-- C12 (as amended). Confirmation message: for a successful credit (resp. debit) on a
balance between `0` and `999999.99` the single line printed is
"Amount credited. New balance: " (resp. "Amount debited. New balance: ") followed by
`formatBalance` of the newly stored balance `r`; that text is the numeral with
exactly two fractional digits (`decimal2`) of the whole number of cents nearest to
`r`, halves upward, and it reads back as the Number nearest to that many cents, which
is within half a cent of the stored value. -/
theorem confirmation_message (w : World) (input : String) (n m : Nat)
    (hb : w.storageBalance = fin (n : Int)) (hn : n ≤ maxUnits)
    (ha : acceptedAmount input = some (fin (m : Int))) :
    (((fin (n : Int)).add (fin (m : Int))).gt maxBalance = false →
      ∃ r : Nat, (creditAccount input w).storageBalance = fin (r : Int) ∧
        printed (creditAccount input w).trace = printed w.trace ++
          ["Amount credited. New balance: " ++ formatBalance (fin (r : Int))] ∧
        formatBalance (fin (r : Int)) = decimal2 (centsOf (100 * r)) ∧
        parseFloat (formatBalance (fin (r : Int))) =
          JSNum.ofQuot false (centsOf (100 * r)) 100 ∧
        2 * (centsOf (100 * r) * scale) ≤ 200 * r + scale ∧
        200 * r < 2 * (centsOf (100 * r) * scale) + scale) ∧
    ((fin (n : Int)).ge (fin (m : Int)) = true →
      ∃ r : Nat, (debitAccount input w).storageBalance = fin (r : Int) ∧
        printed (debitAccount input w).trace = printed w.trace ++
          ["Amount debited. New balance: " ++ formatBalance (fin (r : Int))] ∧
        formatBalance (fin (r : Int)) = decimal2 (centsOf (100 * r)) ∧
        parseFloat (formatBalance (fin (r : Int))) =
          JSNum.ofQuot false (centsOf (100 * r)) 100 ∧
        2 * (centsOf (100 * r) * scale) ≤ 200 * r + scale ∧
        200 * r < 2 * (centsOf (100 * r) * scale) + scale) := by
  constructor
  · intro hok
    obtain ⟨r, _, heq, hr, _, _⟩ := creditAccount_sum w input n m hb ha hok
    obtain ⟨d1, d2, d3, d4⟩ := formatBalance_display r hr
    refine ⟨r, by rw [heq], ?_, d1, d2, d3, d4⟩
    rw [heq]
    simp [printed_append, printed]
  · intro hge
    obtain ⟨r, _, _, heq, hr, _, _⟩ := debitAccount_difference w input n m hb hn ha hge
    obtain ⟨d1, d2, d3, d4⟩ := formatBalance_display r hr
    refine ⟨r, by rw [heq], ?_, d1, d2, d3, d4⟩
    rw [heq]
    simp [printed_append, printed]

/-- C12, witness of the claim: on a fresh store the credit of `"50.00"` prints
"Amount credited. New balance: 1050.00" and stores `1050.00`. -/
theorem confirmation_message_witness :
    printed (creditAccount "50.00" World.fresh).trace =
      ["Amount credited. New balance: 1050.00"] ∧
    (creditAccount "50.00" World.fresh).storageBalance = JSNum.ofNat 1050 ∧
    ∃ r : Nat, (creditAccount "50.00" World.fresh).storageBalance = fin (r : Int) ∧
      printed (creditAccount "50.00" World.fresh).trace = printed World.fresh.trace ++
        ["Amount credited. New balance: " ++ formatBalance (fin (r : Int))] ∧
      formatBalance (fin (r : Int)) = decimal2 (centsOf (100 * r)) ∧
      parseFloat (formatBalance (fin (r : Int))) =
        JSNum.ofQuot false (centsOf (100 * r)) 100 ∧
      2 * (centsOf (100 * r) * scale) ≤ 200 * r + scale ∧
      200 * r < 2 * (centsOf (100 * r) * scale) + scale :=
  ⟨by decide, by decide,
    (confirmation_message World.fresh "50.00" (1000 * scale) (50 * scale)
      (by decide) (by decide) (by decide)).1 (by decide)⟩

/-- C12, counterexample to the claim as stated: on a fresh store the credit of
`"128.11"` prints "Amount credited. New balance: 1128.11" while the value now in the
store is `1128.1100000000001`, not the Number that `1128.11` denotes; the debit of
`"64.07"` prints "Amount debited. New balance: 935.93" while the store holds
`935.9300000000001`. -/
theorem confirmation_not_stored_value :
    printed (creditAccount "128.11" World.fresh).trace =
      ["Amount credited. New balance: 1128.11"] ∧
    (creditAccount "128.11" World.fresh).storageBalance = parseFloat "1128.1100000000001" ∧
    (creditAccount "128.11" World.fresh).storageBalance ≠ parseFloat "1128.11" ∧
    printed (debitAccount "64.07" World.fresh).trace =
      ["Amount debited. New balance: 935.93"] ∧
    (debitAccount "64.07" World.fresh).storageBalance = parseFloat "935.9300000000001" ∧
    (debitAccount "64.07" World.fresh).storageBalance ≠ parseFloat "935.93" := by
  decide

end Accounting
